import Mathlib

/-!
# FreeIMU: sensor-fusion and calibration engine

A shallow embedding of `libraries/FreeIMU/FreeIMU.cpp` and `FreeIMU.h`.

Modelling conventions.

* `float` arithmetic is embedded as exact arithmetic in a linearly ordered field `F`
  (instantiated with `ℚ` for evaluation and with `ℝ` for statements about norms).
  Rounding, overflow to infinity and NaN are outside this model.
* The library functions `sqrt`, `atan2`, `asin`, `atan` and the constant `M_PI` are parameters.
* Machine integers are `Int` / `Nat`, wrapped explicitly where the C++ arithmetic can overflow.
* The preprocessor board selection of `FreeIMU.h` is the run-time value `Board`.
* A local variable that the C++ reads before any assignment is an explicit argument
  holding its indeterminate value.
* Definitions whose names start with `spec` are the specification side of a comparison; the
  Hamilton product there is the multiplication of Mathlib's `Quaternion`.
-/

/-- Boards that `FreeIMU.h` can be compiled for (exactly one `#define` is active). -/
inductive Board
  | FREEIMU_v01 | FREEIMU_v02 | FREEIMU_v03 | FREEIMU_v035 | FREEIMU_v035_MS
  | FREEIMU_v035_BMP | FREEIMU_v04
  | SEN_10121 | SEN_10736 | SEN_10724 | SEN_10183 | ARDUIMU_v3 | GEN_MPU6050 | DFROBOT
  deriving DecidableEq

namespace Board

/-- Macro `HAS_ITG3200()` of `FreeIMU.h`. -/
def HAS_ITG3200 : Board → Bool
  | DFROBOT | FREEIMU_v01 | FREEIMU_v02 | FREEIMU_v03 | FREEIMU_v035 | FREEIMU_v035_MS
  | FREEIMU_v035_BMP | SEN_10121 | SEN_10736 | SEN_10724 | SEN_10183 => true
  | _ => false

/-- Macro `HAS_MPU6050()` of `FreeIMU.h`. -/
def HAS_MPU6050 : Board → Bool
  | FREEIMU_v04 | GEN_MPU6050 => true
  | _ => false

/-- Macro `HAS_MPU6000()` of `FreeIMU.h`. -/
def HAS_MPU6000 : Board → Bool
  | ARDUIMU_v3 => true
  | _ => false

/-- Macro `HAS_HMC5883L()` of `FreeIMU.h`. -/
def HAS_HMC5883L : Board → Bool
  | DFROBOT | FREEIMU_v01 | FREEIMU_v02 | FREEIMU_v03 | FREEIMU_v035 | FREEIMU_v035_MS
  | FREEIMU_v035_BMP | FREEIMU_v04 | SEN_10736 | SEN_10724 | SEN_10183 | ARDUIMU_v3 => true
  | _ => false

/-- Macro `IS_6DOM()` of `FreeIMU.h`. -/
def IS_6DOM : Board → Bool
  | SEN_10121 | GEN_MPU6050 => true
  | _ => false

/-- Macro `IS_9DOM()` of `FreeIMU.h`. -/
def IS_9DOM : Board → Bool
  | DFROBOT | FREEIMU_v01 | FREEIMU_v02 | FREEIMU_v03 | FREEIMU_v035 | FREEIMU_v035_MS
  | FREEIMU_v035_BMP | FREEIMU_v04 | SEN_10736 | SEN_10724 | SEN_10183 | ARDUIMU_v3 => true
  | _ => false

/-- Macro `HAS_AXIS_ALIGNED()` of `FreeIMU.h`. -/
def HAS_AXIS_ALIGNED : Board → Bool
  | GEN_MPU6050 | DFROBOT | FREEIMU_v01 | FREEIMU_v02 | FREEIMU_v03 | FREEIMU_v035
  | FREEIMU_v035_MS | FREEIMU_v035_BMP | FREEIMU_v04 | SEN_10121 | SEN_10736 => true
  | _ => false

end Board

section Model

variable {F : Type} [LinearOrderedField F]

/-- Macro `twoKpDef` of `FreeIMU.h`: two times the proportional gain of the board. -/
def twoKpDef : Board → F
  | Board.DFROBOT => 2 * 0.5
  | Board.FREEIMU_v04 => 2 * 0.75
  | Board.GEN_MPU6050 => 2 * 0.5
  | _ => 2 * 0.5

/-- Macro `twoKiDef` of `FreeIMU.h`: two times the integral gain of the board. -/
def twoKiDef : Board → F
  | Board.DFROBOT => 2 * 0
  | Board.FREEIMU_v04 => 2 * 0.1625
  | Board.GEN_MPU6050 => 2 * 0.05
  | _ => 2 * 0.1

/-- Three floats, the `Vector3f` of the AP_Math library (also used for local triples). -/
structure Vector3f (F : Type) where
  x : F
  y : F
  z : F

/-- Method `Vector3f::length` of AP_Math. -/
def Vector3f.length (sqrt : F → F) (v : Vector3f F) : F :=
  sqrt (v.x * v.x + v.y * v.y + v.z * v.z)

/-- Expression `(a * 0.5f) + (b * 0.5f)` on `Vector3f`. -/
def Vector3f.blend (a b : Vector3f F) : Vector3f F :=
  { x := a.x * 0.5 + b.x * 0.5, y := a.y * 0.5 + b.y * 0.5, z := a.z * 0.5 + b.z * 0.5 }

/-- Data members of `class FreeIMU` that the fusion and calibration code reads or writes. -/
structure FreeIMU (F : Type) where
  q0 : F
  q1 : F
  q2 : F
  q3 : F
  exInt : F
  eyInt : F
  ezInt : F
  twoKp : F
  twoKi : F
  integralFBx : F
  integralFBy : F
  integralFBz : F
  lastUpdate : Nat
  now : Nat
  sampleFreq : F
  gyro_off_x : Int
  gyro_off_y : Int
  gyro_off_z : Int
  acc_off_x : Int
  acc_off_y : Int
  acc_off_z : Int
  magn_off_x : Int
  magn_off_y : Int
  magn_off_z : Int
  acc_scale_x : F
  acc_scale_y : F
  acc_scale_z : F
  magn_scale_x : F
  magn_scale_y : F
  magn_scale_z : F
  nsamples : Int
  temp_break : Int
  temp_corr_on : Int
  instability_fix : Int
  rt : F
  senTemp : F
  senTemp_break : F

/-- Offsets and scales that `calibration.h` supplies as globals when `CALIBRATION_H` is defined. -/
structure Calibration (F : Type) where
  acc_off_x : Int
  acc_off_y : Int
  acc_off_z : Int
  acc_scale_x : F
  acc_scale_y : F
  acc_scale_z : F
  magn_off_x : Int
  magn_off_y : Int
  magn_off_z : Int
  magn_scale_x : F
  magn_scale_y : F
  magn_scale_z : F

namespace FreeIMU

/-- Constructor `FreeIMU::FreeIMU()`. `mem` is the object before construction: members the
constructor does not assign (`sampleFreq`, `rt`, `senTemp`, and the offsets when no
`calibration.h` is present) keep their indeterminate values. `calib = none` is the
`#ifndef CALIBRATION_H` branch. -/
def new (board : Board) (calib : Option (Calibration F)) (mem : FreeIMU F) : FreeIMU F :=
  let s : FreeIMU F :=
    { mem with
      q0 := 1, q1 := 0, q2 := 0, q3 := 0
      exInt := 0, eyInt := 0, ezInt := 0
      twoKp := twoKpDef board, twoKi := twoKiDef board
      integralFBx := 0, integralFBy := 0, integralFBz := 0
      lastUpdate := 0, now := 0
      nsamples := 75
      temp_break := -1000
      senTemp_break := 32
      temp_corr_on := 0
      instability_fix := 1
      gyro_off_x := 0, gyro_off_y := 0, gyro_off_z := 0 }
  match calib with
  | none =>
    { s with
      acc_scale_x := 1, acc_scale_y := 1, acc_scale_z := 1
      magn_scale_x := 1, magn_scale_y := 1, magn_scale_z := 1 }
  | some c =>
    { s with
      acc_off_x := c.acc_off_x, acc_off_y := c.acc_off_y, acc_off_z := c.acc_off_z
      acc_scale_x := c.acc_scale_x, acc_scale_y := c.acc_scale_y, acc_scale_z := c.acc_scale_z
      magn_off_x := c.magn_off_x, magn_off_y := c.magn_off_y, magn_off_z := c.magn_off_z
      magn_scale_x := c.magn_scale_x, magn_scale_y := c.magn_scale_y
      magn_scale_z := c.magn_scale_z }

/-- Method `FreeIMU::RESET()`. On an MPU6050 board it first resets the sensor chip
(`accgyro.reset()`, a driver call) and waits 50 ms; neither touches a member of the object. -/
def RESET (board : Board) (s : FreeIMU F) : FreeIMU F :=
  { s with
    q0 := 1, q1 := 0, q2 := 0, q3 := 0
    exInt := 0, eyInt := 0, ezInt := 0
    twoKp := twoKpDef board, twoKi := twoKiDef board
    integralFBx := 0, integralFBy := 0, integralFBz := 0 }

/-- Method `FreeIMU::RESET_Q()`: the member assignments of `RESET()`, without the chip reset
and the delay. -/
def RESET_Q (board : Board) (s : FreeIMU F) : FreeIMU F :=
  { s with
    q0 := 1, q1 := 0, q2 := 0, q3 := 0
    exInt := 0, eyInt := 0, ezInt := 0
    twoKp := twoKpDef board, twoKi := twoKiDef board
    integralFBx := 0, integralFBy := 0, integralFBz := 0 }

/-- The magnetometer block of `AHRSupdate` (compiled when `IS_9DOM() && not defined(DISABLE_MAGN)`,
entered when all of `mx, my, mz` are non-zero): the value it assigns to
`(halfex, halfey, halfez)`. The accelerometer values are used as passed (not normalised). -/
def magError (invSqrt sqrt : F → F) (s : FreeIMU F) (ax ay az mx my mz : F) : Vector3f F :=
  let q0q0 := s.q0 * s.q0
  let q0q1 := s.q0 * s.q1
  let q0q2 := s.q0 * s.q2
  let q0q3 := s.q0 * s.q3
  let q1q1 := s.q1 * s.q1
  let q1q2 := s.q1 * s.q2
  let q1q3 := s.q1 * s.q3
  let q2q2 := s.q2 * s.q2
  let q2q3 := s.q2 * s.q3
  let q3q3 := s.q3 * s.q3
  let recipNorm := invSqrt (mx * mx + my * my + mz * mz)
  let mx := mx * recipNorm
  let my := my * recipNorm
  let mz := mz * recipNorm
  let hx := 2 * (mx * (0.5 - q2q2 - q3q3) + my * (q1q2 - q0q3) + mz * (q1q3 + q0q2))
  let hy := 2 * (mx * (q1q2 + q0q3) + my * (0.5 - q1q1 - q3q3) + mz * (q2q3 - q0q1))
  let bx := sqrt (hx * hx + hy * hy)
  let bz := 2 * (mx * (q1q3 - q0q2) + my * (q2q3 + q0q1) + mz * (0.5 - q1q1 - q2q2))
  let halfvx := q1q3 - q0q2
  let halfvy := q0q1 + q2q3
  let halfvz := q0q0 - 0.5 + q3q3
  let halfwx := bx * (0.5 - q2q2 - q3q3) + bz * (q1q3 - q0q2)
  let halfwy := bx * (q1q2 - q0q3) + bz * (q0q1 + q2q3)
  let halfwz := bx * (q0q2 + q1q3) + bz * (0.5 - q1q1 - q2q2)
  { x := (ay * halfvz - az * halfvy) + (my * halfwz - mz * halfwy)
    y := (az * halfvx - ax * halfvz) + (mz * halfwx - mx * halfwz)
    z := (ax * halfvy - ay * halfvx) + (mx * halfwy - my * halfwx) }

/-- The accelerometer block of `AHRSupdate` (entered when all of `ax, ay, az` are non-zero):
the value of `(halfex, halfey, halfez)` after its three `+=`, from the value `e` before. -/
def accError (invSqrt : F → F) (s : FreeIMU F) (e : Vector3f F) (ax ay az : F) : Vector3f F :=
  let q0q0 := s.q0 * s.q0
  let q0q1 := s.q0 * s.q1
  let q0q2 := s.q0 * s.q2
  let q1q3 := s.q1 * s.q3
  let q2q3 := s.q2 * s.q3
  let q3q3 := s.q3 * s.q3
  let recipNorm := invSqrt (ax * ax + ay * ay + az * az)
  let ax := ax * recipNorm
  let ay := ay * recipNorm
  let az := az * recipNorm
  let halfvx := q1q3 - q0q2
  let halfvy := q0q1 + q2q3
  let halfvz := q0q0 - 0.5 + q3q3
  { x := e.x + (ay * halfvz - az * halfvy)
    y := e.y + (az * halfvx - ax * halfvz)
    z := e.z + (ax * halfvy - ay * halfvx) }

/-- The error vector `(halfex, halfey, halfez)` that reaches the feedback test of `AHRSupdate`.
The three locals are declared without initialiser; `h0` is their indeterminate initial value,
which survives when the magnetometer block is absent or skipped. -/
def errorTerm (useMagn : Bool) (invSqrt sqrt : F → F) (s : FreeIMU F) (h0 : Vector3f F)
    (ax ay az mx my mz : F) : Vector3f F :=
  let e := if useMagn = true ∧ mx ≠ 0 ∧ my ≠ 0 ∧ mz ≠ 0 then
      magError invSqrt sqrt s ax ay az mx my mz
    else h0
  if ax ≠ 0 ∧ ay ≠ 0 ∧ az ≠ 0 then accError invSqrt s e ax ay az else e

/-- The feedback block of `AHRSupdate`: from the error vector `e` and the rates `(gx, gy, gz)`
it yields the new integrator members and the rates handed to the integration. -/
def feedback (s : FreeIMU F) (e g : Vector3f F) : Vector3f F × Vector3f F :=
  if e.x ≠ 0 ∧ e.y ≠ 0 ∧ e.z ≠ 0 then
    if s.twoKi > 0 then
      let integralFBx := s.integralFBx + s.twoKi * e.x * (1 / s.sampleFreq)
      let integralFBy := s.integralFBy + s.twoKi * e.y * (1 / s.sampleFreq)
      let integralFBz := s.integralFBz + s.twoKi * e.z * (1 / s.sampleFreq)
      ({ x := integralFBx, y := integralFBy, z := integralFBz },
       { x := g.x + integralFBx + s.twoKp * e.x
         y := g.y + integralFBy + s.twoKp * e.y
         z := g.z + integralFBz + s.twoKp * e.z })
    else
      ({ x := 0, y := 0, z := 0 },
       { x := g.x + s.twoKp * e.x, y := g.y + s.twoKp * e.y, z := g.z + s.twoKp * e.z })
  else
    ({ x := s.integralFBx, y := s.integralFBy, z := s.integralFBz }, g)

/-- The integration block of `AHRSupdate`: the quaternion before normalisation, as
`(q0, q1, q2, q3)`, from the rates `g` left by the feedback block. -/
def integrate (s : FreeIMU F) (g : Vector3f F) : F × F × F × F :=
  let gx := g.x * (0.5 * (1 / s.sampleFreq))
  let gy := g.y * (0.5 * (1 / s.sampleFreq))
  let gz := g.z * (0.5 * (1 / s.sampleFreq))
  let qa := s.q0
  let qb := s.q1
  let qc := s.q2
  (s.q0 + (-qb * gx - qc * gy - s.q3 * gz),
   s.q1 + (qa * gx + qc * gz - s.q3 * gy),
   s.q2 + (qa * gy - qb * gz + s.q3 * gx),
   s.q3 + (qa * gz + qb * gy - qc * gx))

/-- Method `FreeIMU::AHRSupdate`. `useMagn` is `IS_9DOM() && not defined(DISABLE_MAGN)`; in a
6-axis build the arguments `mx my mz` do not exist and are ignored here. `invSqrt` is
`FreeIMU::invSqrt` under the current `instability_fix`. -/
def AHRSupdate (useMagn : Bool) (invSqrt sqrt : F → F) (s : FreeIMU F) (h0 : Vector3f F)
    (gx gy gz ax ay az mx my mz : F) : FreeIMU F :=
  let e := errorTerm useMagn invSqrt sqrt s h0 ax ay az mx my mz
  let fb := feedback s e { x := gx, y := gy, z := gz }
  let q := integrate s fb.2
  let recipNorm := invSqrt (q.1 * q.1 + q.2.1 * q.2.1 + q.2.2.1 * q.2.2.1 + q.2.2.2 * q.2.2.2)
  { s with
    integralFBx := fb.1.x, integralFBy := fb.1.y, integralFBz := fb.1.z
    q0 := q.1 * recipNorm
    q1 := q.2.1 * recipNorm
    q2 := q.2.2.1 * recipNorm
    q3 := q.2.2.2 * recipNorm }

/-- Method `FreeIMU::invSqrt`, selected by the member `instability_fix`. `floatBits` and
`floatOfBits` are the two directions of the 32-bit reinterpretation (`union` in the classic
branch, pointer casts in the refined branch) and `sqrt` is the library square root.

* Classic branch: the pattern is read as `int32_t`, shifted arithmetically, subtracted from
  `0x5f375a86` in `int32_t` and read back as a float.
* Refined branch: the pattern is read as `uint32_t`, shifted logically and subtracted from
  `0x5F1F1412` in `uint32_t` (modulo `2^32`). -/
def invSqrt (floatBits : F → Nat) (floatOfBits : Nat → F) (sqrt : F → F)
    (instability_fix : Int) (x : F) : F :=
  if instability_fix = 0 then
    let yi : Int := if floatBits x < 2 ^ 31 then (floatBits x : Int) else (floatBits x : Int) - 2 ^ 32
    let yi : Int := 0x5f375a86 - yi / 2
    let yf := floatOfBits (yi % 2 ^ 32).toNat
    yf * (1.5 - (x * 0.5 * yf * yf))
  else if instability_fix = 1 then
    let i : Nat := (0x5F1F1412 + 2 ^ 32 - floatBits x / 2) % 2 ^ 32
    let tmp := floatOfBits i
    tmp * (1.69000231 - 0.714158168 * x * tmp * tmp)
  else
    1 / sqrt x

/-- What the sensor drivers return during one call of `getValues`.

* `acc_*`: the accelerometer values; on the ITG3200 path `accval[0..2]` after
  `mfilter_acc*.apply`, on the MPU path `accgyroval[0..2]`.
* `gyro_*`: `accgyroval[3..5]` of `accgyro.getMotion6` (MPU path).
* `gyroRate_*`: what `gyro.readGyro(&values[3])` stores (ITG3200 path).
* `temperature`: `accgyro.getTemperature()`, an `int16_t` (MPU path).
* `senTemp`: what `gyro.readTemp(&senTemp)` stores (ITG3200 path).
* `magn_*`: what `magn.getValues(&values[6])` stores. -/
structure Readings (F : Type) where
  acc_x : Int
  acc_y : Int
  acc_z : Int
  gyro_x : Int
  gyro_y : Int
  gyro_z : Int
  gyroRate_x : F
  gyroRate_y : F
  gyroRate_z : F
  temperature : Int
  senTemp : F
  magn_x : F
  magn_y : F
  magn_z : F

/-- The global coefficient arrays `c3, c2, c1, c0` (index 0..8: accelerometer, gyroscope,
magnetometer). -/
structure Coeffs (F : Type) where
  c3 : Nat → F
  c2 : Nat → F
  c1 : Nat → F
  c0 : Nat → F

/-- The array `float values[9]` filled by `getValues`. -/
structure Values (F : Type) where
  v0 : F
  v1 : F
  v2 : F
  v3 : F
  v4 : F
  v5 : F
  v6 : F
  v7 : F
  v8 : F

/-- Two's-complement wrap of an integer to a signed type of `w` bits: the result of `int`
arithmetic on the target (`w = 16` on AVR, `w = 32` on ARM). -/
def wrapInt (w : Nat) (n : Int) : Int :=
  (n + 2 ^ (w - 1)) % 2 ^ w - 2 ^ (w - 1)

/-- The local array `acgyro_corr` of `getValues` after the temperature block. It starts as all
zeros. On the ITG3200 path the temperature is the float `senTemp`; on the MPU path it is the
`int16_t DTemp`, and the powers `DTemp*DTemp` and `DTemp*DTemp*DTemp` are `int` products of
`intBits` bits. -/
def acgyro_corr (board : Board) (intBits : Nat) (c : Coeffs F) (s : FreeIMU F)
    (r : Readings F) : Nat → F :=
  if board.HAS_ITG3200 = true then
    if s.temp_corr_on = 1 then
      if r.senTemp < s.senTemp_break then
        fun i => c.c3 i * (r.senTemp * r.senTemp * r.senTemp) + c.c2 i * (r.senTemp * r.senTemp)
          + c.c1 i * r.senTemp + c.c0 i
      else fun _ => 0
    else fun _ => 0
  else
    let DTemp := r.temperature
    if s.temp_corr_on = 1 then
      if DTemp < s.temp_break then
        fun i => c.c3 i * ((wrapInt intBits (wrapInt intBits (DTemp * DTemp) * DTemp) : Int) : F)
          + c.c2 i * ((wrapInt intBits (DTemp * DTemp) : Int) : F)
          + c.c1 i * (DTemp : F) + c.c0 i
      else fun _ => 0
    else fun _ => 0

/-- Method `FreeIMU::getValues`: the new object state (the ITG3200 path stores `senTemp` when
compensation is on) and the filled array. `values` is the array as passed in; entries the
method does not write keep their content. -/
def getValues (board : Board) (intBits : Nat) (c : Coeffs F) (s : FreeIMU F) (r : Readings F)
    (values : Values F) : FreeIMU F × Values F :=
  let corr := acgyro_corr board intBits c s r
  let s1 : FreeIMU F :=
    if board.HAS_ITG3200 = true ∧ s.temp_corr_on = 1 then { s with senTemp := r.senTemp } else s
  let v : Values F :=
    if board.HAS_ITG3200 = true then
      { values with
        v3 := r.gyroRate_x, v4 := r.gyroRate_y, v5 := r.gyroRate_z
        v0 := (r.acc_x : F) - corr 0
        v1 := (r.acc_y : F) - corr 1
        v2 := (r.acc_z : F) - corr 2 }
    else
      let g : Vector3f F :=
        if s.temp_corr_on = 1 then
          { x := (r.gyro_x : F) - corr 3, y := (r.gyro_y : F) - corr 4
            z := (r.gyro_z : F) - corr 5 }
        else
          { x := (r.gyro_x : F) - (s.gyro_off_x : F), y := (r.gyro_y : F) - (s.gyro_off_y : F)
            z := (r.gyro_z : F) - (s.gyro_off_z : F) }
      { values with
        v0 := (r.acc_x : F) - corr 0
        v1 := (r.acc_y : F) - corr 1
        v2 := (r.acc_z : F) - corr 2
        v3 := g.x / 16.4, v4 := g.y / 16.4, v5 := g.z / 16.4 }
  let v : Values F :=
    { v with
      v0 := (v.v0 - (s.acc_off_x : F)) / s.acc_scale_x
      v1 := (v.v1 - (s.acc_off_y : F)) / s.acc_scale_y
      v2 := (v.v2 - (s.acc_off_z : F)) / s.acc_scale_z }
  let v : Values F :=
    if board.HAS_HMC5883L = true then
      if s.temp_corr_on = 1 then
        { v with
          v6 := (r.magn_x - corr 6 - (s.magn_off_x : F)) / s.magn_scale_x
          v7 := (r.magn_y - corr 7 - (s.magn_off_y : F)) / s.magn_scale_y
          v8 := (r.magn_z - corr 8 - (s.magn_off_z : F)) / s.magn_scale_z }
      else
        { v with
          v6 := (r.magn_x - (s.magn_off_x : F)) / s.magn_scale_x
          v7 := (r.magn_y - (s.magn_off_y : F)) / s.magn_scale_y
          v8 := (r.magn_z - (s.magn_off_z : F)) / s.magn_scale_z }
    else v
  (s1, v)

/-- One reading of the sensors by `getRawValues`, as far as the calibration uses it: the raw
gyroscope triple `raw_values[3..5]` (16-bit register values), the ITG3200 temperature and the
MPU temperature. -/
structure RawSample (F : Type) where
  gx : Int
  gy : Int
  gz : Int
  senTemp : F
  rt : Int

/-- Method `FreeIMU::getRawValues`, reading sample `r`: the gyroscope triple it stores in
`raw_values[3..5]` and the object afterwards (the ITG3200 path stores `senTemp`, the MPU path
under `__AVR__` stores `rt`). -/
def getRawValues (board : Board) (avr : Bool) (s : FreeIMU F) (r : RawSample F) :
    FreeIMU F × (Int × Int × Int) :=
  let s1 : FreeIMU F :=
    if board.HAS_ITG3200 = true then { s with senTemp := r.senTemp }
    else if avr = true then { s with rt := (r.rt : F) }
    else s
  (s1, (r.gx, r.gy, r.gz))

/-- The sample loop of `zeroGyro`: `n` further calls of `getRawValues` on the stream `raw` from
position `pos`, accumulating into `tmpOffsets`. -/
def zeroGyroLoop (board : Board) (avr : Bool) (raw : Nat → RawSample F) :
    Nat → FreeIMU F → Nat → Int × Int × Int → FreeIMU F × Nat × (Int × Int × Int)
  | 0, s, pos, acc => (s, pos, acc)
  | n + 1, s, pos, acc =>
    let rv := getRawValues board avr s (raw pos)
    zeroGyroLoop board avr raw n rv.1 (pos + 1)
      (acc.1 + rv.2.1, acc.2.1 + rv.2.2.1, acc.2.2 + rv.2.2.2)

/-- Method `FreeIMU::zeroGyro`: averages `nsamples` raw gyroscope samples and stores each
average in the `int16_t` member `gyro_off_*`. The float sum of at most a few hundred 16-bit
samples is exact, and converting the float quotient to `int16_t` truncates toward zero, so the
stored value is the truncated integer quotient. Returns the object and the stream position. -/
def zeroGyro (board : Board) (avr : Bool) (raw : Nat → RawSample F) (s : FreeIMU F)
    (pos : Nat) : FreeIMU F × Nat :=
  let totSamples := s.nsamples
  let r := zeroGyroLoop board avr raw totSamples.toNat s pos (0, 0, 0)
  ({ r.1 with
     gyro_off_x := Int.tdiv r.2.2.1 totSamples
     gyro_off_y := Int.tdiv r.2.2.2.1 totSamples
     gyro_off_z := Int.tdiv r.2.2.2.2 totSamples }, r.2.1)

/-- Global `num_gyros` (initialised to 1; the code fills `gyro_avg[0]` only). -/
def num_gyros : Nat := 1

/-- Locals of `initGyros` for gyro instance 0, together with the object and the position in the
sample stream. -/
structure GyroCal (F : Type) where
  imu : FreeIMU F
  pos : Nat
  last_average : Vector3f F
  best_avg : Vector3f F
  gyro_offset : Vector3f F
  best_diff : F
  converged : Bool
  num_converged : Nat

/-- One pass through the body of the `for` loop of `initGyros`, for loop counter `j`.
`thr` is the value of `ToRad(0.1f)`. -/
def initGyrosRound (board : Board) (avr : Bool) (sqrt : F → F) (thr : F)
    (raw : Nat → RawSample F) (j : Nat) (c : GyroCal F) : GyroCal F :=
  let z := zeroGyro board avr raw c.imu c.pos
  let gyro_avg : Vector3f F :=
    { x := (z.1.gyro_off_x : F), y := (z.1.gyro_off_y : F), z := (z.1.gyro_off_z : F) }
  let gyro_diff : Vector3f F :=
    { x := c.last_average.x - gyro_avg.x, y := c.last_average.y - gyro_avg.y
      z := c.last_average.z - gyro_avg.z }
  let diff_norm := gyro_diff.length sqrt
  let c : GyroCal F := { c with imu := z.1, pos := z.2 }
  if c.converged = true then c
  else if j = 0 then
    { c with best_diff := diff_norm, best_avg := gyro_avg, last_average := gyro_avg }
  else if gyro_diff.length sqrt < thr then
    { c with
      gyro_offset := Vector3f.blend gyro_avg c.last_average
      converged := true
      num_converged := c.num_converged + 1
      last_average := gyro_avg }
  else if diff_norm < c.best_diff then
    { c with
      best_diff := diff_norm
      best_avg := Vector3f.blend gyro_avg c.last_average
      last_average := gyro_avg }
  else { c with last_average := gyro_avg }

/-- The loop `for (int16_t j = 0; j <= 10 && num_converged < num_gyros; j++)` of `initGyros`,
started at counter `j` (which stays within 0..11); `none` when `fuel` passes do not reach the
loop exit. -/
def initGyrosLoop (board : Board) (avr : Bool) (sqrt : F → F) (thr : F)
    (raw : Nat → RawSample F) : Nat → Nat → GyroCal F → Option (GyroCal F)
  | 0, j, c => if j ≤ 10 ∧ c.num_converged < num_gyros then none else some c
  | fuel + 1, j, c =>
    if j ≤ 10 ∧ c.num_converged < num_gyros then
      initGyrosLoop board avr sqrt thr raw fuel (j + 1)
        (initGyrosRound board avr sqrt thr raw j c)
    else some c

/-- Conversion of a float to `int16_t`: truncation toward zero (the value is in range whenever
it is an average of 16-bit samples). -/
def floatToInt16 [FloorRing F] (x : F) : Int :=
  if 0 ≤ x then ⌊x⌋ else ⌈x⌉

/-- Method `FreeIMU::initGyros` on the sample stream `raw` read from position `pos`.
`best0` is the indeterminate initial content of the local `best_avg[0]`. The result is the
object and the stream position afterwards; `none` when `fuel` loop passes do not suffice.
Both exits store `gyro_offset[0]` in the `int16_t` members `gyro_off_*`. -/
def initGyros [FloorRing F] (board : Board) (avr : Bool) (sqrt : F → F) (thr : F)
    (raw : Nat → RawSample F) (best0 : Vector3f F) (fuel : Nat) (s : FreeIMU F) (pos : Nat) :
    Option (FreeIMU F × Nat) :=
  let c0 : GyroCal F :=
    { imu := s, pos := pos
      last_average := { x := 0, y := 0, z := 0 }
      best_avg := best0
      gyro_offset := { x := 0, y := 0, z := 0 }
      best_diff := 0
      converged := false
      num_converged := 0 }
  match initGyrosLoop board avr sqrt thr raw fuel 0 c0 with
  | none => none
  | some c =>
    let gyro_offset : Vector3f F :=
      if c.num_converged = num_gyros then c.gyro_offset
      else if c.converged = false then c.best_avg else c.gyro_offset
    some ({ c.imu with
            gyro_off_x := floatToInt16 gyro_offset.x
            gyro_off_y := floatToInt16 gyro_offset.y
            gyro_off_z := floatToInt16 gyro_offset.z }, c.pos)

/-- Sum of the `n` raw gyroscope samples of the stream from position `pos`. -/
def windowSum (raw : Nat → RawSample F) : Nat → Nat → Int × Int × Int
  | _, 0 => (0, 0, 0)
  | pos, n + 1 =>
    ((raw pos).gx + (windowSum raw (pos + 1) n).1,
     (raw pos).gy + (windowSum raw (pos + 1) n).2.1,
     (raw pos).gz + (windowSum raw (pos + 1) n).2.2)

/-- The average `a_j` of round `j`: the truncated mean of window `j` of the stream, as the float
vector `gyro_avg[0]` that `initGyros` reads back from the `int16_t` members. -/
def roundAverage (raw : Nat → RawSample F) (nsamples : Int) (pos0 : Nat) (j : Nat) :
    Vector3f F :=
  let w := windowSum raw (pos0 + j * nsamples.toNat) nsamples.toNat
  { x := ((Int.tdiv w.1 nsamples : Int) : F)
    y := ((Int.tdiv w.2.1 nsamples : Int) : F)
    z := ((Int.tdiv w.2.2 nsamples : Int) : F) }

/-- The average before round `j`: zero before round 0, `a_(j-1)` afterwards. -/
def lastAverage (a : Nat → Vector3f F) : Nat → Vector3f F
  | 0 => { x := 0, y := 0, z := 0 }
  | j + 1 => a j

/-- Difference norm of round `j`: the length of `a_(j-1) - a_j`. -/
def diffNorm (sqrt : F → F) (a : Nat → Vector3f F) (j : Nat) : F :=
  Vector3f.length sqrt
    { x := (lastAverage a j).x - (a j).x, y := (lastAverage a j).y - (a j).y
      z := (lastAverage a j).z - (a j).z }

/-- The rounds `j, j+1, …` of the loop of `initGyros` on the averages `a` alone, `k` rounds
before the bound, from best difference `bd` and best average `ba`: the counter at loop exit,
the offset of a converged round if any, and the best average. -/
def calTail (sqrt : F → F) (thr : F) (a : Nat → Vector3f F) :
    Nat → Nat → F → Vector3f F → Nat × Option (Vector3f F) × Vector3f F
  | 0, j, _, ba => (j, none, ba)
  | k + 1, j, bd, ba =>
    if diffNorm sqrt a j < thr then (j + 1, some (Vector3f.blend (a j) (lastAverage a j)), ba)
    else if diffNorm sqrt a j < bd then
      calTail sqrt thr a k (j + 1) (diffNorm sqrt a j) (Vector3f.blend (a j) (lastAverage a j))
    else calTail sqrt thr a k (j + 1) bd ba

/-- State of the calibration loop before round `j` while no round has converged: the locals
agree with the averages `a` of the rounds done so far. -/
def CalInv (raw : Nat → RawSample F) (n : Int) (pos0 : Nat) (j : Nat) (c : GyroCal F) : Prop :=
  c.converged = false ∧ c.num_converged = 0 ∧
  c.last_average = lastAverage (roundAverage raw n pos0) j ∧
  c.pos = pos0 + j * n.toNat ∧ c.imu.nsamples = n

/-- First round `j` in 1..10 whose difference norm is below the convergence threshold. -/
def firstConverged (sqrt : F → F) (thr : F) (a : Nat → Vector3f F) : Option Nat :=
  (List.range' 1 10).find? (fun j => decide (diffNorm sqrt a j < thr))

/-- Number of rounds (calls of `zeroGyro`) described by the loop bound and the early stop:
one more than the first converged round, else all of rounds 0..10. -/
def specRounds (sqrt : F → F) (thr : F) (a : Nat → Vector3f F) : Nat :=
  match firstConverged sqrt thr a with
  | some j => j + 1
  | none => 11

/-- Best difference seen up to round `j`: the seed of round 0, then the running minimum. -/
def bestDiffSeen (sqrt : F → F) (a : Nat → Vector3f F) : Nat → F
  | 0 => diffNorm sqrt a 0
  | j + 1 => min (bestDiffSeen sqrt a j) (diffNorm sqrt a (j + 1))

/-- Round `j` improves: its difference norm is strictly smaller than every best difference
seen before. -/
def improves (sqrt : F → F) (a : Nat → Vector3f F) (j : Nat) : Prop :=
  ∀ i < j, diffNorm sqrt a j < bestDiffSeen sqrt a i

instance improvesDecidable (sqrt : F → F) (a : Nat → Vector3f F) (j : Nat) :
    Decidable (improves sqrt a j) := by
  unfold improves
  infer_instance

/-- The last improving round among rounds 1..m, if any. -/
def lastImproving (sqrt : F → F) (a : Nat → Vector3f F) : Nat → Option Nat
  | 0 => none
  | m + 1 => if improves sqrt a (m + 1) then some (m + 1) else lastImproving sqrt a m

/-- Best average after rounds 0..m without convergence: the seed `a_0`, or else the 50/50 blend
of the consecutive pair at the last improving round. -/
def bestAverage (sqrt : F → F) (a : Nat → Vector3f F) (m : Nat) : Vector3f F :=
  match lastImproving sqrt a m with
  | some j => Vector3f.blend (a j) (lastAverage a j)
  | none => a 0

/-- The bias described for `initGyros` as a function of the round averages: the blend of the
pair at the first converged round, else the best average of rounds 0..10. -/
def specBias (sqrt : F → F) (thr : F) (a : Nat → Vector3f F) : Vector3f F :=
  match firstConverged sqrt thr a with
  | some j => Vector3f.blend (a j) (lastAverage a j)
  | none => bestAverage sqrt a 10

/-- Library functions and constants used by the queries: `sqrt`, `atan2`, `asin`, `atan`,
`M_PI`, and the two directions of the 32-bit reinterpretation used by `invSqrt`. -/
structure MathLib (F : Type) where
  sqrt : F → F
  atan2 : F → F → F
  asin : F → F
  atan : F → F
  M_PI : F
  floatBits : F → Nat
  floatOfBits : Nat → F

/-- The divisor `(now - lastUpdate) / 1000000.0` of the sample-frequency computation of `getQ`,
for the time stamp `lastUpdate` held on entry and `micros()` returning `micros`; the
difference is taken in `unsigned long` (32 bits). -/
def elapsedSeconds (lastUpdate micros : Nat) : F :=
  (((micros % 2 ^ 32 + 2 ^ 32 - lastUpdate) % 2 ^ 32 : Nat) : F) / 1000000

/-- The three clock statements of `getQ`, `now = micros(); sampleFreq = 1.0 / ((now -
lastUpdate) / 1000000.0); lastUpdate = now;`, on the object `s` when `micros()` returns
`micros`. -/
def clockUpdate (s : FreeIMU F) (micros : Nat) : FreeIMU F :=
  { s with
    now := micros % 2 ^ 32
    sampleFreq := 1 / elapsedSeconds s.lastUpdate micros
    lastUpdate := micros % 2 ^ 32 }

/-- Method `FreeIMU::getQ` at time `micros` (the value of `micros()`, an `unsigned long` of 32
bits) with driver readings `r`: the object afterwards and the array `q` it fills. `val0` is the
indeterminate content of the local `val[9]`, `h0` that of the error locals of `AHRSupdate`.
The elapsed time `now - lastUpdate` is an unsigned difference. Board `SEN_10183` is 9-axis but
matches none of the three alignment branches, so `AHRSupdate` is not called for it. -/
def getQ (board : Board) (DISABLE_MAGN : Bool) (intBits : Nat) (m : MathLib F) (c : Coeffs F)
    (s : FreeIMU F) (r : Readings F) (micros : Nat) (val0 : Values F) (h0 : Vector3f F) :
    FreeIMU F × (F × F × F × F) :=
  let gv := getValues board intBits c s r val0
  let val := gv.2
  let now := micros % 2 ^ 32
  let elapsed : Nat := (now + 2 ^ 32 - gv.1.lastUpdate) % 2 ^ 32
  let s1 : FreeIMU F :=
    { gv.1 with now := now, sampleFreq := 1 / ((elapsed : F) / 1000000), lastUpdate := now }
  let inv := invSqrt m.floatBits m.floatOfBits m.sqrt s1.instability_fix
  let useMagn := board.IS_9DOM && !DISABLE_MAGN
  let s2 : FreeIMU F :=
    if board.IS_9DOM = true then
      if board.HAS_AXIS_ALIGNED = true then
        AHRSupdate useMagn inv m.sqrt s1 h0 (val.v3 * m.M_PI / 180) (val.v4 * m.M_PI / 180)
          (val.v5 * m.M_PI / 180) val.v0 val.v1 val.v2 val.v6 val.v7 val.v8
      else if board = Board.SEN_10724 then
        AHRSupdate useMagn inv m.sqrt s1 h0 (val.v3 * m.M_PI / 180) (val.v4 * m.M_PI / 180)
          (val.v5 * m.M_PI / 180) val.v0 val.v1 val.v2 val.v7 (-val.v6) val.v8
      else if board = Board.ARDUIMU_v3 then
        AHRSupdate useMagn inv m.sqrt s1 h0 (val.v3 * m.M_PI / 180) (val.v4 * m.M_PI / 180)
          (val.v5 * m.M_PI / 180) val.v0 val.v1 val.v2 (-val.v6) (-val.v7) val.v8
      else s1
    else
      AHRSupdate false inv m.sqrt s1 h0 (val.v3 * m.M_PI / 180) (val.v4 * m.M_PI / 180)
        (val.v5 * m.M_PI / 180) val.v0 val.v1 val.v2 0 0 0
  (s2, (s2.q0, s2.q1, s2.q2, s2.q3))

/-- Function `arr3_rad_to_deg`. -/
def arr3_rad_to_deg (m : MathLib F) (arr : Vector3f F) : Vector3f F :=
  { x := arr.x * (180 / m.M_PI), y := arr.y * (180 / m.M_PI), z := arr.z * (180 / m.M_PI) }

/-- Method `FreeIMU::getEulerRad`: calls `getQ`, then fills `angles` (psi, theta, phi). -/
def getEulerRad (board : Board) (DISABLE_MAGN : Bool) (intBits : Nat) (m : MathLib F)
    (c : Coeffs F) (s : FreeIMU F) (r : Readings F) (micros : Nat) (val0 : Values F)
    (h0 : Vector3f F) : FreeIMU F × Vector3f F :=
  let g := getQ board DISABLE_MAGN intBits m c s r micros val0 h0
  let q0 := g.2.1
  let q1 := g.2.2.1
  let q2 := g.2.2.2.1
  let q3 := g.2.2.2.2
  (g.1,
   { x := m.atan2 (2 * q1 * q2 - 2 * q0 * q3) (2 * q0 * q0 + 2 * q1 * q1 - 1)
     y := -m.asin (2 * q1 * q3 + 2 * q0 * q2)
     z := m.atan2 (2 * q2 * q3 - 2 * q0 * q1) (2 * q0 * q0 + 2 * q3 * q3 - 1) })

/-- Method `FreeIMU::getEuler`: `getEulerRad`, then degrees. -/
def getEuler (board : Board) (DISABLE_MAGN : Bool) (intBits : Nat) (m : MathLib F)
    (c : Coeffs F) (s : FreeIMU F) (r : Readings F) (micros : Nat) (val0 : Values F)
    (h0 : Vector3f F) : FreeIMU F × Vector3f F :=
  let e := getEulerRad board DISABLE_MAGN intBits m c s r micros val0 h0
  (e.1, arr3_rad_to_deg m e.2)

/-- Method `FreeIMU::getYawPitchRollRad`: calls `getQ`, then fills `ypr` from the estimated
gravity direction. -/
def getYawPitchRollRad (board : Board) (DISABLE_MAGN : Bool) (intBits : Nat) (m : MathLib F)
    (c : Coeffs F) (s : FreeIMU F) (r : Readings F) (micros : Nat) (val0 : Values F)
    (h0 : Vector3f F) : FreeIMU F × Vector3f F :=
  let g := getQ board DISABLE_MAGN intBits m c s r micros val0 h0
  let q0 := g.2.1
  let q1 := g.2.2.1
  let q2 := g.2.2.2.1
  let q3 := g.2.2.2.2
  let gx := 2 * (q1 * q3 - q0 * q2)
  let gy := 2 * (q0 * q1 + q2 * q3)
  let gz := q0 * q0 - q1 * q1 - q2 * q2 + q3 * q3
  (g.1,
   { x := m.atan2 (2 * q1 * q2 - 2 * q0 * q3) (2 * q0 * q0 + 2 * q1 * q1 - 1)
     y := m.atan (gx / m.sqrt (gy * gy + gz * gz))
     z := m.atan (gy / m.sqrt (gx * gx + gz * gz)) })

/-- Method `FreeIMU::getYawPitchRoll`: `getYawPitchRollRad`, then degrees. -/
def getYawPitchRoll (board : Board) (DISABLE_MAGN : Bool) (intBits : Nat) (m : MathLib F)
    (c : Coeffs F) (s : FreeIMU F) (r : Readings F) (micros : Nat) (val0 : Values F)
    (h0 : Vector3f F) : FreeIMU F × Vector3f F :=
  let e := getYawPitchRollRad board DISABLE_MAGN intBits m c s r micros val0 h0
  (e.1, arr3_rad_to_deg m e.2)

/-- The Euler angles (psi, theta, phi) as a function of a quaternion alone. -/
def eulerAngles (m : MathLib F) (q : F × F × F × F) : Vector3f F :=
  { x := m.atan2 (2 * q.2.1 * q.2.2.1 - 2 * q.1 * q.2.2.2) (2 * q.1 * q.1 + 2 * q.2.1 * q.2.1 - 1)
    y := -m.asin (2 * q.2.1 * q.2.2.2 + 2 * q.1 * q.2.2.1)
    z := m.atan2 (2 * q.2.2.1 * q.2.2.2 - 2 * q.1 * q.2.1)
      (2 * q.1 * q.1 + 2 * q.2.2.2 * q.2.2.2 - 1) }

/-- The yaw, pitch and roll angles as a function of a quaternion alone. -/
def yawPitchRoll (m : MathLib F) (q : F × F × F × F) : Vector3f F :=
  { x := m.atan2 (2 * q.2.1 * q.2.2.1 - 2 * q.1 * q.2.2.2) (2 * q.1 * q.1 + 2 * q.2.1 * q.2.1 - 1)
    y := m.atan (2 * (q.2.1 * q.2.2.2 - q.1 * q.2.2.1) /
      m.sqrt (2 * (q.1 * q.2.1 + q.2.2.1 * q.2.2.2) * (2 * (q.1 * q.2.1 + q.2.2.1 * q.2.2.2)) +
        (q.1 * q.1 - q.2.1 * q.2.1 - q.2.2.1 * q.2.2.1 + q.2.2.2 * q.2.2.2) *
          (q.1 * q.1 - q.2.1 * q.2.1 - q.2.2.1 * q.2.2.1 + q.2.2.2 * q.2.2.2)))
    z := m.atan (2 * (q.1 * q.2.1 + q.2.2.1 * q.2.2.2) /
      m.sqrt (2 * (q.2.1 * q.2.2.2 - q.1 * q.2.2.1) * (2 * (q.2.1 * q.2.2.2 - q.1 * q.2.2.1)) +
        (q.1 * q.1 - q.2.1 * q.2.1 - q.2.2.1 * q.2.2.1 + q.2.2.2 * q.2.2.2) *
          (q.1 * q.1 - q.2.1 * q.2.1 - q.2.2.1 * q.2.2.1 + q.2.2.2 * q.2.2.2))) }

/-- The expected direction of gravity in the sensor frame: the local array `g[3]` of
`gravityCompensateAcc` for the quaternion array `q`; `getYawPitchRollRad` computes the same
three expressions as its locals `gx, gy, gz`. -/
def estimatedGravity (q : F × F × F × F) : Vector3f F :=
  { x := 2 * (q.2.1 * q.2.2.2 - q.1 * q.2.2.1)
    y := 2 * (q.1 * q.2.1 + q.2.2.1 * q.2.2.2)
    z := q.1 * q.1 - q.2.1 * q.2.1 - q.2.2.1 * q.2.2.1 + q.2.2.2 * q.2.2.2 }

/-- Method `FreeIMU::gravityCompensateAcc`: the array `acc` afterwards. -/
def gravityCompensateAcc (acc : Vector3f F) (q : F × F × F × F) : Vector3f F :=
  let g := estimatedGravity q
  { x := acc.x - g.x, y := acc.y - g.y, z := acc.z - g.z }

/-- The locals `(halfvx, halfvy, halfvz)` of `AHRSupdate`: half the estimated direction of
gravity, from the quaternion members on entry. -/
def halfv (s : FreeIMU F) : Vector3f F :=
  { x := s.q1 * s.q3 - s.q0 * s.q2
    y := s.q0 * s.q1 + s.q2 * s.q3
    z := s.q0 * s.q0 - 0.5 + s.q3 * s.q3 }

/-- Squared norm `q0² + q1² + q2² + q3²` of the quaternion members. -/
def normSq (s : FreeIMU F) : F :=
  s.q0 * s.q0 + s.q1 * s.q1 + s.q2 * s.q2 + s.q3 * s.q3

/-- One invocation of `AHRSupdate`: the value the member `sampleFreq` holds when it is entered
(`getQ` assigns it just before), the indeterminate initial value `h0` of the locals
`halfex, halfey, halfez`, and the nine arguments. -/
structure Call (F : Type) where
  sampleFreq : F
  h0 : Vector3f F
  gx : F
  gy : F
  gz : F
  ax : F
  ay : F
  az : F
  mx : F
  my : F
  mz : F

/-- A finite sequence of `AHRSupdate` invocations, applied in order from state `s`. -/
def runAHRS (useMagn : Bool) (invSqrt sqrt : F → F) (s : FreeIMU F) : List (Call F) → FreeIMU F
  | [] => s
  | c :: cs =>
    runAHRS useMagn invSqrt sqrt
      (AHRSupdate useMagn invSqrt sqrt { s with sampleFreq := c.sampleFreq } c.h0
        c.gx c.gy c.gz c.ax c.ay c.az c.mx c.my c.mz) cs

end FreeIMU

end Model

/-- An object image with every member zero: a concrete value for the memory a `FreeIMU`
object is constructed in. -/
def blankMemory {F : Type} [LinearOrderedField F] : FreeIMU F :=
  { q0 := 0, q1 := 0, q2 := 0, q3 := 0, exInt := 0, eyInt := 0, ezInt := 0, twoKp := 0, twoKi := 0
    integralFBx := 0, integralFBy := 0, integralFBz := 0, lastUpdate := 0, now := 0
    sampleFreq := 0, gyro_off_x := 0, gyro_off_y := 0, gyro_off_z := 0
    acc_off_x := 0, acc_off_y := 0, acc_off_z := 0, magn_off_x := 0, magn_off_y := 0
    magn_off_z := 0, acc_scale_x := 0, acc_scale_y := 0, acc_scale_z := 0
    magn_scale_x := 0, magn_scale_y := 0, magn_scale_z := 0, nsamples := 0, temp_break := 0
    temp_corr_on := 0, instability_fix := 0, rt := 0, senTemp := 0, senTemp_break := 0 }

/-- A concrete call: gyro rates `(1, 2, 3)`, accelerometer `(0, 0, 1)`, magnetometer
`(1, 1, 1)`, sample frequency 100 Hz, error locals starting at `(5, 6, 7)`. -/
def sampleCall {F : Type} [LinearOrderedField F] : FreeIMU.Call F :=
  { sampleFreq := 100, h0 := { x := 5, y := 6, z := 7 }, gx := 1, gy := 2, gz := 3
    ax := 0, ay := 0, az := 1, mx := 1, my := 1, mz := 1 }

/-- The initialisers of the global arrays `c3, c2, c1, c0` for the selected board; `nth l i`
is element `i` of an initialiser list. -/
def tempCoeffs {F : Type} [LinearOrderedField F] (board : Board) : FreeIMU.Coeffs F :=
  let nth (l : List F) (i : Nat) : F := l.getD i 0
  match board with
  | Board.FREEIMU_v04 =>
    { c3 := nth [0, 0, -1.618180e-09, 0, 0, 0, 0, 0, 0]
      c2 := nth [4.798083e-07, -7.104300e-08, -1.899410e-05, -4.387634e-08, -1.779335e-08,
                 4.216745e-09, 0, 0, 0]
      c1 := nth [1.801522e-02, -5.200081e-03, -1.462879e-01, -5.878346e-04, 1.172002e-03,
                 -6.897733e-05, 0, 0, 0]
      c0 := nth [-45.61, -45.24, -305.58, 6.699801e+00, 8.341212e+00, -2.171155e+01, 0, 0, 0] }
  | Board.DFROBOT =>
    { c3 := nth [0, 0, 0, 0, 0, 0, 0, 0, 0]
      c2 := nth [0.007829365, -0.0009776705, 0.01271437, -0.01214285, 0.00615132, 0.002638248,
                 0, 0, 0]
      c1 := nth [-0.330832467, -0.0945206152, -0.59609025, -2.14580824, -4.68951187,
                 -2.832623092, 0, 0, 0]
      c0 := nth [5.648888, 9.784001, 2.775708, 60.71009177, 109.32876618, 85.639595449,
                 0, 0, 0] }
  | _ =>
    { c3 := nth [0, 0, 0, 0, 0, 0, 0, 0, 0]
      c2 := nth [0, 0, 0, 0, 0, 0, 0, 0, 0]
      c1 := nth [0, 0, 0, 0, 0, 0, 0, 0, 0]
      c0 := nth [0, 0, 0, 0, 0, 0, 0, 0, 0] }

/-- Concrete driver readings: raw temperature `-2000`, ITG3200 temperature 0, driver gyro
rate `(10, 0, 0)`. -/
def sampleReadings {F : Type} [LinearOrderedField F] : FreeIMU.Readings F :=
  { acc_x := 3, acc_y := -4, acc_z := 250, gyro_x := 20, gyro_y := -7, gyro_z := 1
    gyroRate_x := 10, gyroRate_y := 0, gyroRate_z := 0, temperature := -2000, senTemp := 0
    magn_x := 100, magn_y := 50, magn_z := -30 }

/-- An all-zero `values` array. -/
def sampleValues {F : Type} [LinearOrderedField F] : FreeIMU.Values F :=
  { v0 := 0, v1 := 0, v2 := 0, v3 := 0, v4 := 0, v5 := 0, v6 := 0, v7 := 0, v8 := 0 }

/-- The coefficients of the literal case of the specification: `c3 = c2 = 0`, `c1 = 1.8e-2`,
`c0 = -45.6` on every channel. -/
def specCoeffs {F : Type} [LinearOrderedField F] : FreeIMU.Coeffs F :=
  { c3 := fun _ => 0, c2 := fun _ => 0, c1 := fun _ => 1.8e-2, c0 := fun _ => -45.6 }

/-- Modelled from the spec: the macro `ToRad` of the AP_Math library (its header is not among
the sources), degrees to radians; `ToRad(0.1f)` is the convergence threshold of `initGyros`,
the "0.1 bit expressed in angular-rate units". -/
def ToRad {F : Type} [LinearOrderedField F] (x : F) : F := x * 0.01745329252

/-- A gyroscope stream that is constant within each window of 75 samples: window `j` reads
`(10 + j mod 2, 0, 0)`. -/
def parityStream {F : Type} [LinearOrderedField F] : Nat → FreeIMU.RawSample F :=
  fun i => { gx := ((10 + (i / 75) % 2 : Nat) : Int), gy := 0, gz := 0, senTemp := 0, rt := 0 }

/-- A stationary gyroscope stream with one bit of noise: every axis reads 0, 1, 0, 1, … -/
def alternatingStream {F : Type} [LinearOrderedField F] : Nat → FreeIMU.RawSample F :=
  fun i => { gx := ((i % 2 : Nat) : Int), gy := ((i % 2 : Nat) : Int), gz := ((i % 2 : Nat) : Int)
             senTemp := 0, rt := 0 }

/-- A stream is stationary with noise bound `δ` around the mean `μ`: every sample of every axis
is within `δ` of the mean of that axis. -/
def BoundedNoise {F : Type} [LinearOrderedField F] (raw : Nat → FreeIMU.RawSample F)
    (μ : Vector3f F) (δ : F) : Prop :=
  ∀ i, |((raw i).gx : F) - μ.x| ≤ δ ∧ |((raw i).gy : F) - μ.y| ≤ δ ∧ |((raw i).gz : F) - μ.z| ≤ δ

/-- Specification side of the aerospace sequence: the Hamilton product `qz * qy * qx` of the
elementary yaw, pitch and roll rotations, from the cosines and sines of the three half angles. -/
def specElementaryProduct {F : Type} [LinearOrderedField F] (cψ sψ cθ sθ cφ sφ : F) :
    Quaternion F :=
  (⟨cψ, 0, 0, sψ⟩ : Quaternion F) * (⟨cθ, 0, sθ, 0⟩ : Quaternion F) *
    (⟨cφ, sφ, 0, 0⟩ : Quaternion F)

/-- Specification side: the array `(q[0], q[1], q[2], q[3])` holding the conjugate
`(w, -x, -y, -z)` of the quaternion `(w, x, y, z)`. -/
def specConjugate {F : Type} [LinearOrderedField F] (q : Quaternion F) : F × F × F × F :=
  (q.re, -q.imI, -q.imJ, -q.imK)

/-- Specification side: the array `(q[0], q[1], q[2], q[3])` holding the quaternion
`(w, x, y, z)` itself. -/
def specComponents {F : Type} [LinearOrderedField F] (q : Quaternion F) : F × F × F × F :=
  (q.re, q.imI, q.imJ, q.imK)

/-- The library over the reals: `sqrt`, `asin`, `atan` are the real functions, `atan2 y x` is
the argument of the complex number `x + y i` (in `(-π, π]`, and 0 at the origin), `M_PI` is π. -/
def FreeIMU.MathLib.IsReal (m : FreeIMU.MathLib ℝ) : Prop :=
  m.sqrt = Real.sqrt ∧ m.atan2 = (fun y x => Complex.arg ⟨x, y⟩) ∧ m.asin = Real.arcsin ∧
    m.atan = Real.arctan ∧ m.M_PI = Real.pi

/-! ## The 32-bit reinterpretation on rationals -/

/-- Value of the IEEE-754 binary32 pattern `p` (sign bit, 8 exponent bits, 23 fraction bits) as
a rational. Patterns with exponent field 255 (infinities, NaN) have no value in this model and
are read like a normal number. -/
def floatOfBits (p : Nat) : ℚ :=
  let sign : ℚ := if p / 2 ^ 31 % 2 = 1 then -1 else 1
  let e : Nat := p / 2 ^ 23 % 256
  let m : Nat := p % 2 ^ 23
  if e = 0 then sign * (m : ℚ) / 2 ^ 149
  else if e < 150 then sign * ((2 ^ 23 + m : Nat) : ℚ) / 2 ^ (150 - e)
  else sign * ((2 ^ 23 + m : Nat) : ℚ) * 2 ^ (e - 150)

/-- Binary exponent of a positive rational `n / d`: the integer `e` with `2^e ≤ n/d < 2^(e+1)`. -/
def binaryExponent (n d : Nat) : Int :=
  let k : Int := (Nat.log2 n : Int) - (Nat.log2 d : Int)
  if k ≥ 0 then (if d * 2 ^ k.toNat ≤ n then k else k - 1)
  else (if d ≤ n * 2 ^ (-k).toNat then k else k - 1)

/-- Pattern of the binary32 number of magnitude `n / d > 0` within the normal range
(a value that is not representable is truncated to 24 significant bits). -/
def magnitudeBits (n d : Nat) : Nat :=
  let e := binaryExponent n d
  let sig : Nat := if e ≤ 23 then n * 2 ^ (23 - e).toNat / d else n / (d * 2 ^ (e - 23).toNat)
  (e + 127).toNat * 2 ^ 23 + (sig - 2 ^ 23)

/-- The binary32 pattern of a rational that is a normal binary32 number (or zero). -/
def floatBits (x : ℚ) : Nat :=
  if x = 0 then 0
  else if 0 < x then magnitudeBits x.num.toNat x.den
  else 2 ^ 31 + magnitudeBits (-x.num).toNat x.den

/-- A concrete library on rationals for instances: the 32-bit reinterpretation of this file,
`M_PI` as `355/113`, and rational stand-ins for the transcendental functions. -/
def sampleMathLib : FreeIMU.MathLib ℚ :=
  { sqrt := fun x => x, atan2 := fun y x => y - x, asin := fun x => x, atan := fun x => x
    M_PI := 355 / 113, floatBits := floatBits, floatOfBits := floatOfBits }

/-! ## Helper lemmas -/

open FreeIMU

section Lemmas

variable {F : Type} [LinearOrderedField F]

theorem new_twoKi (board : Board) (calib : Option (Calibration F)) (mem : FreeIMU F) :
    (FreeIMU.new board calib mem).twoKi = twoKiDef board := by
  cases calib <;> rfl

theorem new_integralFB (board : Board) (calib : Option (Calibration F)) (mem : FreeIMU F) :
    (FreeIMU.new board calib mem).integralFBx = 0 ∧
    (FreeIMU.new board calib mem).integralFBy = 0 ∧
    (FreeIMU.new board calib mem).integralFBz = 0 := by
  cases calib <;> simp [FreeIMU.new]

theorem AHRSupdate_twoKi (useMagn : Bool) (invSqrt sqrt : F → F) (s : FreeIMU F)
    (h0 : Vector3f F) (gx gy gz ax ay az mx my mz : F) :
    (AHRSupdate useMagn invSqrt sqrt s h0 gx gy gz ax ay az mx my mz).twoKi = s.twoKi := rfl

/-- With `twoKi = 0` the feedback block maps a zero integrator to a zero integrator. -/
theorem feedback_integral_zero (s : FreeIMU F) (e g : Vector3f F) (hK : s.twoKi = 0)
    (hx : s.integralFBx = 0) (hy : s.integralFBy = 0) (hz : s.integralFBz = 0) :
    (feedback s e g).1.x = 0 ∧ (feedback s e g).1.y = 0 ∧ (feedback s e g).1.z = 0 := by
  unfold feedback
  split_ifs with h1 h2
  · simp [hK] at h2
  · exact ⟨rfl, rfl, rfl⟩
  · exact ⟨hx, hy, hz⟩

/-- Invariant behind the gain-zero property, over a whole run. -/
theorem runAHRS_integral_zero (useMagn : Bool) (invSqrt sqrt : F → F) (calls : List (Call F)) :
    ∀ s : FreeIMU F, s.twoKi = 0 → s.integralFBx = 0 → s.integralFBy = 0 → s.integralFBz = 0 →
      (runAHRS useMagn invSqrt sqrt s calls).twoKi = 0 ∧
      (runAHRS useMagn invSqrt sqrt s calls).integralFBx = 0 ∧
      (runAHRS useMagn invSqrt sqrt s calls).integralFBy = 0 ∧
      (runAHRS useMagn invSqrt sqrt s calls).integralFBz = 0 := by
  induction calls with
  | nil => intro s hK hx hy hz; exact ⟨hK, hx, hy, hz⟩
  | cons c cs ih =>
    intro s hK hx hy hz
    simp only [runAHRS]
    have hfb := feedback_integral_zero { s with sampleFreq := c.sampleFreq }
      (errorTerm useMagn invSqrt sqrt { s with sampleFreq := c.sampleFreq } c.h0
        c.ax c.ay c.az c.mx c.my c.mz) { x := c.gx, y := c.gy, z := c.gz } hK hx hy hz
    exact ih _ hK hfb.1 hfb.2.1 hfb.2.2

end Lemmas

section GV
variable {F : Type} [LinearOrderedField F]

/-- Accelerometer entries written by `getValues` (the same expression on both paths). -/
theorem getValues_acc (board : Board) (intBits : Nat) (c : Coeffs F) (s : FreeIMU F)
    (r : Readings F) (values : Values F) :
    (getValues board intBits c s r values).2.v0 =
      ((r.acc_x : F) - acgyro_corr board intBits c s r 0 - (s.acc_off_x : F)) / s.acc_scale_x ∧
    (getValues board intBits c s r values).2.v1 =
      ((r.acc_y : F) - acgyro_corr board intBits c s r 1 - (s.acc_off_y : F)) / s.acc_scale_y ∧
    (getValues board intBits c s r values).2.v2 =
      ((r.acc_z : F) - acgyro_corr board intBits c s r 2 - (s.acc_off_z : F)) / s.acc_scale_z := by
  simp only [getValues]
  split_ifs <;> exact ⟨rfl, rfl, rfl⟩

/-- Gyroscope entries written by `getValues` on the ITG3200 path: the driver values. -/
theorem getValues_gyro_ITG (board : Board) (intBits : Nat) (c : Coeffs F) (s : FreeIMU F)
    (r : Readings F) (values : Values F) (hb : board.HAS_ITG3200 = true) :
    (getValues board intBits c s r values).2.v3 = r.gyroRate_x ∧
    (getValues board intBits c s r values).2.v4 = r.gyroRate_y ∧
    (getValues board intBits c s r values).2.v5 = r.gyroRate_z := by
  simp only [getValues, hb, if_true]
  split_ifs <;> exact ⟨rfl, rfl, rfl⟩

/-- Gyroscope entries written by `getValues` on the MPU path. -/
theorem getValues_gyro_MPU (board : Board) (intBits : Nat) (c : Coeffs F) (s : FreeIMU F)
    (r : Readings F) (values : Values F) (hb : board.HAS_ITG3200 = false) :
    (getValues board intBits c s r values).2.v3 =
      (if s.temp_corr_on = 1 then (r.gyro_x : F) - acgyro_corr board intBits c s r 3
        else (r.gyro_x : F) - (s.gyro_off_x : F)) / 16.4 ∧
    (getValues board intBits c s r values).2.v4 =
      (if s.temp_corr_on = 1 then (r.gyro_y : F) - acgyro_corr board intBits c s r 4
        else (r.gyro_y : F) - (s.gyro_off_y : F)) / 16.4 ∧
    (getValues board intBits c s r values).2.v5 =
      (if s.temp_corr_on = 1 then (r.gyro_z : F) - acgyro_corr board intBits c s r 5
        else (r.gyro_z : F) - (s.gyro_off_z : F)) / 16.4 := by
  simp only [getValues, hb, Bool.false_eq_true, if_false, false_and]
  split_ifs <;> exact ⟨rfl, rfl, rfl⟩

/-- Magnetometer entries written by `getValues` when the board has a magnetometer. -/
theorem getValues_magn (board : Board) (intBits : Nat) (c : Coeffs F) (s : FreeIMU F)
    (r : Readings F) (values : Values F) (hm : board.HAS_HMC5883L = true) :
    (getValues board intBits c s r values).2.v6 =
      ((if s.temp_corr_on = 1 then r.magn_x - acgyro_corr board intBits c s r 6 else r.magn_x)
        - (s.magn_off_x : F)) / s.magn_scale_x ∧
    (getValues board intBits c s r values).2.v7 =
      ((if s.temp_corr_on = 1 then r.magn_y - acgyro_corr board intBits c s r 7 else r.magn_y)
        - (s.magn_off_y : F)) / s.magn_scale_y ∧
    (getValues board intBits c s r values).2.v8 =
      ((if s.temp_corr_on = 1 then r.magn_z - acgyro_corr board intBits c s r 8 else r.magn_z)
        - (s.magn_off_z : F)) / s.magn_scale_z := by
  simp only [getValues, hm, if_true]
  split_ifs <;> exact ⟨rfl, rfl, rfl⟩

end GV

section Cal
variable {F : Type} [LinearOrderedField F]

/-- `getRawValues` leaves `nsamples` alone. -/
theorem getRawValues_nsamples (board : Board) (avr : Bool) (s : FreeIMU F) (r : RawSample F) :
    (getRawValues board avr s r).1.nsamples = s.nsamples := by
  simp only [getRawValues]
  split_ifs <;> rfl

/-- The sample loop of `zeroGyro` advances the stream by `n` and adds the window sum. -/
theorem zeroGyroLoop_spec (board : Board) (avr : Bool) (raw : Nat → RawSample F) :
    ∀ (n : Nat) (s : FreeIMU F) (pos : Nat) (acc : Int × Int × Int),
      (zeroGyroLoop board avr raw n s pos acc).2.1 = pos + n ∧
      (zeroGyroLoop board avr raw n s pos acc).2.2 =
        (acc.1 + (windowSum raw pos n).1, acc.2.1 + (windowSum raw pos n).2.1,
          acc.2.2 + (windowSum raw pos n).2.2) ∧
      (zeroGyroLoop board avr raw n s pos acc).1.nsamples = s.nsamples := by
  intro n
  induction n with
  | zero => intro s pos acc; simp [zeroGyroLoop, windowSum]
  | succ n ih =>
    intro s pos acc
    simp only [zeroGyroLoop]
    obtain ⟨h1, h2, h3⟩ := ih (getRawValues board avr s (raw pos)).1 (pos + 1)
      (acc.1 + (getRawValues board avr s (raw pos)).2.1,
        acc.2.1 + (getRawValues board avr s (raw pos)).2.2.1,
        acc.2.2 + (getRawValues board avr s (raw pos)).2.2.2)
    refine ⟨?_, ?_, ?_⟩
    · rw [h1]; omega
    · rw [h2]
      simp only [getRawValues, windowSum, Prod.mk.injEq]
      refine ⟨?_, ?_, ?_⟩ <;> ring
    · rw [h3, getRawValues_nsamples]

/-- `zeroGyro` stores the round average and advances the stream by one window. -/
theorem zeroGyro_spec (board : Board) (avr : Bool) (raw : Nat → RawSample F) (s : FreeIMU F)
    (pos0 j : Nat) :
    (zeroGyro board avr raw s (pos0 + j * s.nsamples.toNat)).2
      = pos0 + (j + 1) * s.nsamples.toNat ∧
    (zeroGyro board avr raw s (pos0 + j * s.nsamples.toNat)).1.nsamples = s.nsamples ∧
    ({ x := (((zeroGyro board avr raw s (pos0 + j * s.nsamples.toNat)).1.gyro_off_x : Int) : F)
       y := (((zeroGyro board avr raw s (pos0 + j * s.nsamples.toNat)).1.gyro_off_y : Int) : F)
       z := (((zeroGyro board avr raw s (pos0 + j * s.nsamples.toNat)).1.gyro_off_z : Int) : F) }
      : Vector3f F) = roundAverage raw s.nsamples pos0 j := by
  obtain ⟨h1, h2, h3⟩ := zeroGyroLoop_spec board avr raw s.nsamples.toNat s
    (pos0 + j * s.nsamples.toNat) (0, 0, 0)
  refine ⟨?_, ?_, ?_⟩
  · simp only [zeroGyro, h1]; ring
  · simp only [zeroGyro, h3]
  · simp only [zeroGyro, roundAverage, h2, zero_add]


/-- One round of the loop of `initGyros`, in terms of the round averages. -/
theorem initGyrosRound_eq (board : Board) (avr : Bool) (sqrt : F → F) (thr : F)
    (raw : Nat → RawSample F) (n : Int) (pos0 j : Nat) (c : GyroCal F)
    (h : CalInv raw n pos0 j c) :
    initGyrosRound board avr sqrt thr raw j c =
      if j = 0 then
        { c with
          imu := (zeroGyro board avr raw c.imu c.pos).1
          pos := pos0 + (j + 1) * n.toNat
          best_diff := diffNorm sqrt (roundAverage raw n pos0) j
          best_avg := roundAverage raw n pos0 j
          last_average := roundAverage raw n pos0 j }
      else if diffNorm sqrt (roundAverage raw n pos0) j < thr then
        { c with
          imu := (zeroGyro board avr raw c.imu c.pos).1
          pos := pos0 + (j + 1) * n.toNat
          gyro_offset := Vector3f.blend (roundAverage raw n pos0 j)
            (lastAverage (roundAverage raw n pos0) j)
          converged := true
          num_converged := 1
          last_average := roundAverage raw n pos0 j }
      else if diffNorm sqrt (roundAverage raw n pos0) j < c.best_diff then
        { c with
          imu := (zeroGyro board avr raw c.imu c.pos).1
          pos := pos0 + (j + 1) * n.toNat
          best_diff := diffNorm sqrt (roundAverage raw n pos0) j
          best_avg := Vector3f.blend (roundAverage raw n pos0 j)
            (lastAverage (roundAverage raw n pos0) j)
          last_average := roundAverage raw n pos0 j }
      else
        { c with
          imu := (zeroGyro board avr raw c.imu c.pos).1
          pos := pos0 + (j + 1) * n.toNat
          last_average := roundAverage raw n pos0 j } := by
  obtain ⟨hconv, hnum, hlast, hpos, hn⟩ := h
  have hz := zeroGyro_spec board avr raw c.imu pos0 j
  rw [hn, ← hpos] at hz
  obtain ⟨hz1, -, hz3⟩ := hz
  have hx := congrArg Vector3f.x hz3
  have hy := congrArg Vector3f.y hz3
  have hzz := congrArg Vector3f.z hz3
  simp only at hx hy hzz
  simp only [initGyrosRound, hconv, hnum, hlast, hz1, hz3, hx, hy, hzz, diffNorm,
    Bool.false_eq_true, if_false, zero_add]


/-- Once a round has converged the loop of `initGyros` exits. -/
theorem initGyrosLoop_done (board : Board) (avr : Bool) (sqrt : F → F) (thr : F)
    (raw : Nat → RawSample F) (fuel j : Nat) (c : GyroCal F)
    (h : ¬ (j ≤ 10 ∧ c.num_converged < num_gyros)) :
    initGyrosLoop board avr sqrt thr raw fuel j c = some c := by
  cases fuel <;> simp only [initGyrosLoop, h, if_false]

/-- The loop of `initGyros` from round `j ≥ 1` follows `calTail` on the round averages. -/
theorem initGyrosLoop_tail (board : Board) (avr : Bool) (sqrt : F → F) (thr : F)
    (raw : Nat → RawSample F) (n : Int) (pos0 : Nat) :
    ∀ (k fuel j : Nat) (c : GyroCal F), 1 ≤ j → j + k = 11 → k ≤ fuel →
      CalInv raw n pos0 j c →
      ∃ c', initGyrosLoop board avr sqrt thr raw fuel j c = some c' ∧
        c'.pos = pos0 +
          (calTail sqrt thr (roundAverage raw n pos0) k j c.best_diff c.best_avg).1 * n.toNat ∧
        (∀ off, (calTail sqrt thr (roundAverage raw n pos0) k j c.best_diff c.best_avg).2.1
            = some off → c'.num_converged = 1 ∧ c'.gyro_offset = off) ∧
        ((calTail sqrt thr (roundAverage raw n pos0) k j c.best_diff c.best_avg).2.1 = none →
          c'.num_converged = 0 ∧ c'.converged = false ∧
          c'.best_avg =
            (calTail sqrt thr (roundAverage raw n pos0) k j c.best_diff c.best_avg).2.2) := by
  intro k
  induction k with
  | zero =>
    intro fuel j c _ hjk _ h
    have hj : ¬ (j ≤ 10 ∧ c.num_converged < num_gyros) := by omega
    refine ⟨c, initGyrosLoop_done board avr sqrt thr raw fuel j c hj, ?_, ?_, ?_⟩
    · simp only [calTail]; exact h.2.2.2.1
    · intro off hoff; simp [calTail] at hoff
    · intro _; exact ⟨h.2.1, h.1, rfl⟩
  | succ k ih =>
    intro fuel j c hj1 hjk hfuel h
    obtain ⟨f, rfl⟩ : ∃ f, fuel = f + 1 := ⟨fuel - 1, by omega⟩
    have hcond : j ≤ 10 ∧ c.num_converged < num_gyros := by
      refine ⟨by omega, ?_⟩
      rw [h.2.1]; decide
    have hj0 : j ≠ 0 := by omega
    have hround := initGyrosRound_eq board avr sqrt thr raw n pos0 j c h
    simp only [hj0, if_false] at hround
    simp only [initGyrosLoop, hcond, and_self, if_true, calTail]
    by_cases hconv : diffNorm sqrt (roundAverage raw n pos0) j < thr
    · simp only [hconv, if_true] at hround ⊢
      refine ⟨_, initGyrosLoop_done board avr sqrt thr raw f (j + 1) _ ?_, ?_, ?_, ?_⟩
      · rw [hround]; simp [num_gyros]
      · rw [hround]
      · intro off hoff
        rw [hround]
        simp only [Option.some.injEq] at hoff
        exact ⟨rfl, hoff⟩
      · intro hnone; simp at hnone
    · simp only [hconv, if_false] at hround ⊢
      by_cases hbest : diffNorm sqrt (roundAverage raw n pos0) j < c.best_diff
      · simp only [hbest, if_true] at hround ⊢
        have hinv : CalInv raw n pos0 (j + 1) (initGyrosRound board avr sqrt thr raw j c) := by
          rw [hround]
          exact ⟨h.1, h.2.1, rfl, rfl, by
            have := (zeroGyro_spec board avr raw c.imu pos0 j).2.1
            rw [h.2.2.2.2, ← h.2.2.2.1] at this
            exact this⟩
        obtain ⟨c', hc', hp, hs, hn⟩ := ih f (j + 1)
          (initGyrosRound board avr sqrt thr raw j c) (by omega) (by omega) (by omega) hinv
        refine ⟨c', hc', ?_, ?_, ?_⟩
        · rw [hp, hround]
        · intro off hoff
          apply hs
          rw [hround]; exact hoff
        · intro hnone
          have := hn (by rw [hround]; exact hnone)
          rw [hround] at this
          exact this
      · simp only [hbest, if_false] at hround ⊢
        have hinv : CalInv raw n pos0 (j + 1) (initGyrosRound board avr sqrt thr raw j c) := by
          rw [hround]
          exact ⟨h.1, h.2.1, rfl, rfl, by
            have := (zeroGyro_spec board avr raw c.imu pos0 j).2.1
            rw [h.2.2.2.2, ← h.2.2.2.1] at this
            exact this⟩
        obtain ⟨c', hc', hp, hs, hn⟩ := ih f (j + 1)
          (initGyrosRound board avr sqrt thr raw j c) (by omega) (by omega) (by omega) hinv
        refine ⟨c', hc', ?_, ?_, ?_⟩
        · rw [hp, hround]
        · intro off hoff
          apply hs
          rw [hround]; exact hoff
        · intro hnone
          have := hn (by rw [hround]; exact hnone)
          rw [hround] at this
          exact this

end Cal

section Cal2
variable {F : Type} [LinearOrderedField F]

/-- Exit counter and converged offset of `calTail`, by the first converging round. -/
theorem calTail_converged (sqrt : F → F) (thr : F) (a : Nat → Vector3f F) :
    ∀ (k j : Nat) (bd : F) (ba : Vector3f F),
      (calTail sqrt thr a k j bd ba).1 =
        (match (List.range' j k).find? (fun i => decide (diffNorm sqrt a i < thr)) with
          | some i => i + 1
          | none => j + k) ∧
      (calTail sqrt thr a k j bd ba).2.1 =
        ((List.range' j k).find? (fun i => decide (diffNorm sqrt a i < thr))).map
          (fun i => Vector3f.blend (a i) (lastAverage a i)) := by
  intro k
  induction k with
  | zero => intro j bd ba; simp [calTail]
  | succ k ih =>
    intro j bd ba
    simp only [calTail, List.range'_succ, List.find?_cons]
    by_cases hc : diffNorm sqrt a j < thr
    · simp [hc]
    · by_cases hb : diffNorm sqrt a j < bd
      · simp only [hc, hb, if_true, if_false, decide_False]
        obtain ⟨h1, h2⟩ := ih (j + 1) (diffNorm sqrt a j)
          (Vector3f.blend (a j) (lastAverage a j))
        refine ⟨?_, h2⟩
        rw [h1]
        generalize (List.range' (j + 1) k).find? (fun i => decide (diffNorm sqrt a i < thr)) = o
        cases o with
        | none => show j + 1 + k = j + (k + 1); omega
        | some i => rfl
      · simp only [hc, hb, if_false, decide_False]
        obtain ⟨h1, h2⟩ := ih (j + 1) bd ba
        refine ⟨?_, h2⟩
        rw [h1]
        generalize (List.range' (j + 1) k).find? (fun i => decide (diffNorm sqrt a i < thr)) = o
        cases o with
        | none => show j + 1 + k = j + (k + 1); omega
        | some i => rfl

/-- The best difference seen never increases. -/
theorem bestDiffSeen_antitone (sqrt : F → F) (a : Nat → Vector3f F) (i j : Nat) (h : i ≤ j) :
    bestDiffSeen sqrt a j ≤ bestDiffSeen sqrt a i := by
  induction j with
  | zero =>
    have : i = 0 := by omega
    rw [this]
  | succ j ih =>
    by_cases hij : i = j + 1
    · rw [hij]
    · exact le_trans (min_le_left _ _) (ih (by omega))

/-- A round improves exactly when it beats the best difference of the round before. -/
theorem improves_succ_iff (sqrt : F → F) (a : Nat → Vector3f F) (j : Nat) :
    improves sqrt a (j + 1) ↔ diffNorm sqrt a (j + 1) < bestDiffSeen sqrt a j := by
  constructor
  · intro h; exact h j (by omega)
  · intro h i hi
    exact lt_of_lt_of_le h (bestDiffSeen_antitone sqrt a i j (by omega))

/-- Without a converging round, `calTail` ends with the best average of all its rounds. -/
theorem calTail_best (sqrt : F → F) (thr : F) (a : Nat → Vector3f F) :
    ∀ (k j : Nat),
      (List.range' (j + 1) k).find? (fun i => decide (diffNorm sqrt a i < thr)) = none →
      (calTail sqrt thr a k (j + 1) (bestDiffSeen sqrt a j) (bestAverage sqrt a j)).2.2 =
        bestAverage sqrt a (j + k) := by
  intro k
  induction k with
  | zero => intro j _; simp [calTail]
  | succ k ih =>
    intro j hnone
    simp only [List.range'_succ, List.find?_cons] at hnone
    by_cases hc : diffNorm sqrt a (j + 1) < thr
    · simp [hc] at hnone
    · simp only [hc, decide_False] at hnone
      have hrest := ih (j + 1) hnone
      simp only [calTail, hc, if_false]
      by_cases hb : diffNorm sqrt a (j + 1) < bestDiffSeen sqrt a j
      · have himp : improves sqrt a (j + 1) := (improves_succ_iff sqrt a j).mpr hb
        have hbd : bestDiffSeen sqrt a (j + 1) = diffNorm sqrt a (j + 1) := by
          simp only [bestDiffSeen]; exact min_eq_right hb.le
        have hba : bestAverage sqrt a (j + 1) =
            Vector3f.blend (a (j + 1)) (lastAverage a (j + 1)) := by
          simp only [bestAverage, lastImproving, himp, if_true]
        simp only [hb, if_true]
        rw [← hbd, ← hba, hrest]
        congr 1; omega
      · have himp : ¬ improves sqrt a (j + 1) := fun h => hb ((improves_succ_iff sqrt a j).mp h)
        have hbd : bestDiffSeen sqrt a (j + 1) = bestDiffSeen sqrt a j := by
          simp only [bestDiffSeen]; exact min_eq_left (not_lt.mp hb)
        have hba : bestAverage sqrt a (j + 1) = bestAverage sqrt a j := by
          simp only [bestAverage, lastImproving, himp, if_false]
        simp only [hb, if_false]
        rw [← hbd, ← hba, hrest]
        congr 1; omega

end Cal2

section Cal3
variable {F : Type} [LinearOrderedField F] [FloorRing F]

/-- `initGyros` returns for every fuel of at least 11; it consumes `specRounds` windows of the
stream and stores the truncation of `specBias` in the `int16_t` members. -/
theorem initGyros_eq_spec (board : Board) (avr : Bool) (sqrt : F → F) (thr : F)
    (raw : Nat → RawSample F) (best0 : Vector3f F) (fuel : Nat) (hfuel : 11 ≤ fuel)
    (s : FreeIMU F) (pos : Nat) :
    ∃ s' : FreeIMU F,
      initGyros board avr sqrt thr raw best0 fuel s pos =
        some (s', pos + specRounds sqrt thr (roundAverage raw s.nsamples pos)
          * s.nsamples.toNat) ∧
      s'.gyro_off_x = floatToInt16 (specBias sqrt thr (roundAverage raw s.nsamples pos)).x ∧
      s'.gyro_off_y = floatToInt16 (specBias sqrt thr (roundAverage raw s.nsamples pos)).y ∧
      s'.gyro_off_z = floatToInt16 (specBias sqrt thr (roundAverage raw s.nsamples pos)).z := by
  obtain ⟨f, rfl⟩ : ∃ f, fuel = f + 1 := ⟨fuel - 1, by omega⟩
  have hinv0 : CalInv raw s.nsamples pos 0
      { imu := s, pos := pos, last_average := { x := 0, y := 0, z := 0 }, best_avg := best0
        gyro_offset := { x := 0, y := 0, z := 0 }, best_diff := 0, converged := false
        num_converged := 0 } := ⟨rfl, rfl, rfl, by simp, rfl⟩
  have hround := initGyrosRound_eq board avr sqrt thr raw s.nsamples pos 0 _ hinv0
  simp only [if_true] at hround
  have hinv1 : CalInv raw s.nsamples pos 1
      (initGyrosRound board avr sqrt thr raw 0
        { imu := s, pos := pos, last_average := { x := 0, y := 0, z := 0 }, best_avg := best0
          gyro_offset := { x := 0, y := 0, z := 0 }, best_diff := 0, converged := false
          num_converged := 0 }) := by
    rw [hround]
    have hns := (zeroGyro_spec board avr raw s pos 0).2.1
    simp only [zero_mul, add_zero] at hns
    exact ⟨rfl, rfl, rfl, rfl, hns⟩
  obtain ⟨c', hc', hpos, hsome, hnone⟩ := initGyrosLoop_tail board avr sqrt thr raw s.nsamples
    pos 10 f 1 _ (le_refl 1) rfl (by omega) hinv1
  rw [hround] at hpos hsome hnone
  simp only at hpos hsome hnone
  obtain ⟨ht1, ht2⟩ := calTail_converged sqrt thr (roundAverage raw s.nsamples pos) 10 1
    (diffNorm sqrt (roundAverage raw s.nsamples pos) 0) (roundAverage raw s.nsamples pos 0)
  have hloop : initGyrosLoop board avr sqrt thr raw (f + 1) 0
      { imu := s, pos := pos, last_average := { x := 0, y := 0, z := 0 }, best_avg := best0
        gyro_offset := { x := 0, y := 0, z := 0 }, best_diff := 0, converged := false
        num_converged := 0 } = some c' := by
    rw [← hc']
    simp [initGyrosLoop, num_gyros]
  have hrounds : (calTail sqrt thr (roundAverage raw s.nsamples pos) 10 1
      (diffNorm sqrt (roundAverage raw s.nsamples pos) 0)
      (roundAverage raw s.nsamples pos 0)).1 =
      specRounds sqrt thr (roundAverage raw s.nsamples pos) := by
    rw [ht1]; rfl
  rw [hrounds] at hpos
  simp only [initGyros, hloop, hpos]
  refine ⟨_, rfl, ?_⟩
  cases hfc : firstConverged sqrt thr (roundAverage raw s.nsamples pos) with
  | some i =>
    have hoff : (calTail sqrt thr (roundAverage raw s.nsamples pos) 10 1
        (diffNorm sqrt (roundAverage raw s.nsamples pos) 0)
        (roundAverage raw s.nsamples pos 0)).2.1 =
        some (Vector3f.blend (roundAverage raw s.nsamples pos i)
          (lastAverage (roundAverage raw s.nsamples pos) i)) := by
      rw [ht2]
      simp only [firstConverged] at hfc
      rw [hfc]; rfl
    obtain ⟨hn, ho⟩ := hsome _ hoff
    simp only [specBias, hfc, hn, num_gyros, if_true, ho, and_self]
  | none =>
    have hoff : (calTail sqrt thr (roundAverage raw s.nsamples pos) 10 1
        (diffNorm sqrt (roundAverage raw s.nsamples pos) 0)
        (roundAverage raw s.nsamples pos 0)).2.1 = none := by
      rw [ht2]
      simp only [firstConverged] at hfc
      rw [hfc]; rfl
    obtain ⟨hn, hcv, hb⟩ := hnone hoff
    have hbest := calTail_best sqrt thr (roundAverage raw s.nsamples pos) 10 0 (by
      simp only [firstConverged] at hfc
      simpa using hfc)
    have hb0 : bestAverage sqrt (roundAverage raw s.nsamples pos) 0
        = roundAverage raw s.nsamples pos 0 := rfl
    have hd0 : bestDiffSeen sqrt (roundAverage raw s.nsamples pos) 0
        = diffNorm sqrt (roundAverage raw s.nsamples pos) 0 := rfl
    rw [hb0, hd0] at hbest
    simp only [zero_add] at hbest
    rw [hbest] at hb
    simp only [specBias, hfc, hn, hcv, num_gyros, hb]
    exact ⟨rfl, rfl, rfl⟩

end Cal3

section Cal4
variable {F : Type} [LinearOrderedField F]

/-- More fuel does not change a result of the loop of `initGyros`. -/
theorem initGyrosLoop_succ (board : Board) (avr : Bool) (sqrt : F → F) (thr : F)
    (raw : Nat → RawSample F) :
    ∀ (fuel j : Nat) (c c' : GyroCal F),
      initGyrosLoop board avr sqrt thr raw fuel j c = some c' →
      initGyrosLoop board avr sqrt thr raw (fuel + 1) j c = some c' := by
  intro fuel
  induction fuel with
  | zero =>
    intro j c c' h
    simp only [initGyrosLoop] at h ⊢
    split_ifs at h ⊢ with hc
    exact h
  | succ fuel ih =>
    intro j c c' h
    rw [initGyrosLoop] at h ⊢
    split_ifs at h ⊢ with hc
    · exact ih _ _ _ h
    · exact h

/-- Any fuel above a sufficient one gives the same result of the loop of `initGyros`. -/
theorem initGyrosLoop_mono (board : Board) (avr : Bool) (sqrt : F → F) (thr : F)
    (raw : Nat → RawSample F) (fuel fuel' j : Nat) (c c' : GyroCal F) (hle : fuel ≤ fuel')
    (h : initGyrosLoop board avr sqrt thr raw fuel j c = some c') :
    initGyrosLoop board avr sqrt thr raw fuel' j c = some c' := by
  induction hle with
  | refl => exact h
  | step _ ih => exact initGyrosLoop_succ board avr sqrt thr raw _ j c c' ih

/-- The first element of `range' j k` that satisfies `p`. -/
theorem find_range_eq_some (p : Nat → Bool) :
    ∀ (k j i : Nat), (List.range' j k).find? p = some i ↔
      (j ≤ i ∧ i < j + k ∧ p i = true ∧ ∀ m, j ≤ m → m < i → p m = false) := by
  intro k
  induction k with
  | zero =>
    intro j i
    simp only [List.range'_zero, List.find?_nil, add_zero]
    constructor
    · intro h; exact absurd h (by simp)
    · rintro ⟨h1, h2, -, -⟩; omega
  | succ k ih =>
    intro j i
    simp only [List.range'_succ, List.find?_cons]
    cases hp : p j with
    | true =>
      simp only [Option.some.injEq]
      constructor
      · rintro rfl
        exact ⟨le_refl _, by omega, hp, fun m h1 h2 => by omega⟩
      · rintro ⟨h1, _, _, h4⟩
        by_contra hne
        have := h4 j (le_refl _) (by omega)
        rw [hp] at this
        exact absurd this (by decide)
    | false =>
      simp only
      rw [ih (j + 1) i]
      constructor
      · rintro ⟨h1, h2, h3, h4⟩
        refine ⟨by omega, by omega, h3, fun m hm1 hm2 => ?_⟩
        by_cases hmj : m = j
        · rw [hmj]; exact hp
        · exact h4 m (by omega) hm2
      · rintro ⟨h1, h2, h3, h4⟩
        have hij : i ≠ j := by
          rintro rfl
          rw [hp] at h3
          exact absurd h3 (by decide)
        exact ⟨by omega, by omega, h3, fun m hm1 hm2 => h4 m (by omega) hm2⟩

/-- No element of `range' j k` satisfies `p`. -/
theorem find_range_eq_none (p : Nat → Bool) (k j : Nat) :
    (List.range' j k).find? p = none ↔ ∀ m, j ≤ m → m < j + k → p m = false := by
  rw [List.find?_eq_none]
  constructor
  · intro h m h1 h2
    have := h m (by rw [List.mem_range'_1]; exact ⟨h1, h2⟩)
    simpa using this
  · intro h m hm
    rw [List.mem_range'_1] at hm
    simp [h m hm.1 hm.2]

/-- The first converged round is the first round in 1..10 below the threshold. -/
theorem firstConverged_eq_some (sqrt : F → F) (thr : F) (a : Nat → Vector3f F) (j : Nat) :
    firstConverged sqrt thr a = some j ↔
      (1 ≤ j ∧ j ≤ 10 ∧ diffNorm sqrt a j < thr ∧
        ∀ m, 1 ≤ m → m < j → ¬ diffNorm sqrt a m < thr) := by
  simp only [firstConverged, find_range_eq_some, decide_eq_true_eq, decide_eq_false_iff_not]
  constructor
  · rintro ⟨h1, h2, h3, h4⟩; exact ⟨h1, by omega, h3, h4⟩
  · rintro ⟨h1, h2, h3, h4⟩; exact ⟨h1, by omega, h3, h4⟩

/-- No round converges exactly when no round in 1..10 is below the threshold. -/
theorem firstConverged_eq_none (sqrt : F → F) (thr : F) (a : Nat → Vector3f F) :
    firstConverged sqrt thr a = none ↔
      ∀ m, 1 ≤ m → m ≤ 10 → ¬ diffNorm sqrt a m < thr := by
  simp only [firstConverged, find_range_eq_none, decide_eq_false_iff_not]
  constructor
  · intro h m h1 h2; exact h m h1 (by omega)
  · intro h m h1 h2; exact h m h1 (by omega)

/-- The result of `initGyros` does not depend on the fuel once it is at least 11. -/
theorem initGyros_fuel [FloorRing F] (board : Board) (avr : Bool) (sqrt : F → F) (thr : F)
    (raw : Nat → RawSample F) (best0 : Vector3f F) (fuel : Nat) (hfuel : 11 ≤ fuel)
    (s : FreeIMU F) (pos : Nat) :
    initGyros board avr sqrt thr raw best0 fuel s pos =
      initGyros board avr sqrt thr raw best0 11 s pos := by
  obtain ⟨s', h11, -⟩ := initGyros_eq_spec board avr sqrt thr raw best0 11 (le_refl _) s pos
  simp only [initGyros] at h11 ⊢
  cases hl : initGyrosLoop board avr sqrt thr raw 11 0
      { imu := s, pos := pos, last_average := { x := 0, y := 0, z := 0 }, best_avg := best0
        gyro_offset := { x := 0, y := 0, z := 0 }, best_diff := 0, converged := false
        num_converged := 0 } with
  | none => rw [hl] at h11; simp at h11
  | some c =>
    rw [initGyrosLoop_mono board avr sqrt thr raw 11 fuel 0 _ c hfuel hl]

end Cal4

section Streams
variable {F : Type}

/-- Window sum of a stream that is constant on the window. -/
theorem windowSum_const (raw : Nat → RawSample F) (vx vy vz : Int) :
    ∀ (n pos : Nat),
      (∀ i, pos ≤ i → i < pos + n → (raw i).gx = vx ∧ (raw i).gy = vy ∧ (raw i).gz = vz) →
      windowSum raw pos n = ((n : Int) * vx, (n : Int) * vy, (n : Int) * vz) := by
  intro n
  induction n with
  | zero => intro pos _; simp [windowSum]
  | succ n ih =>
    intro pos h
    have h0 := h pos (le_refl _) (by omega)
    have hrest := ih (pos + 1) (fun i h1 h2 => h i (by omega) (by omega))
    simp only [windowSum, hrest, h0.1, h0.2.1, h0.2.2, Prod.mk.injEq]
    push_cast
    refine ⟨?_, ?_, ?_⟩ <;> ring

variable [LinearOrderedField F]

/-- Round averages of `parityStream`. -/
theorem roundAverage_parityStream (j : Nat) :
    roundAverage (parityStream : Nat → RawSample F) 75 0 j =
      { x := ((10 + j % 2 : Nat) : F), y := 0, z := 0 } := by
  have hw := windowSum_const (parityStream : Nat → RawSample F) ((10 + j % 2 : Nat) : Int) 0 0
    75 (0 + j * 75) (by
      intro i h1 h2
      have : i / 75 = j := by omega
      simp [parityStream, this])
  have h75 : (75 : Int).toNat = 75 := rfl
  simp only [roundAverage, h75, hw]
  have e1 : Int.tdiv (((75 : Nat) : Int) * ((10 + j % 2 : Nat) : Int)) 75
      = ((10 + j % 2 : Nat) : Int) := Int.mul_tdiv_cancel_left _ (by decide)
  have e2 : Int.tdiv (((75 : Nat) : Int) * 0) 75 = 0 := by simp
  rw [e1, e2]
  simp only [Int.cast_natCast, Int.cast_zero]

/-- Window sums of `alternatingStream` over an even number of samples. -/
theorem windowSum_alternating_even :
    ∀ (m pos : Nat), windowSum (alternatingStream : Nat → RawSample F) pos (2 * m)
      = ((m : Int), (m : Int), (m : Int)) := by
  intro m
  induction m with
  | zero => intro pos; simp [windowSum]
  | succ m ih =>
    intro pos
    have h2 : 2 * (m + 1) = (2 * m + 1) + 1 := by ring
    rw [h2]
    simp only [windowSum, ih (pos + 1 + 1), alternatingStream, Prod.mk.injEq]
    refine ⟨?_, ?_, ?_⟩ <;> omega

/-- Round averages of `alternatingStream`: every window mean truncates to zero. -/
theorem roundAverage_alternatingStream (j : Nat) :
    roundAverage (alternatingStream : Nat → RawSample F) 75 0 j = { x := 0, y := 0, z := 0 } := by
  have h75 : (75 : Int).toNat = 2 * 37 + 1 := rfl
  have hstep : windowSum (alternatingStream : Nat → RawSample F) (0 + j * 75) (2 * 37 + 1) =
      ((((0 + j * 75) % 2 : Nat) : Int) + ((37 : Nat) : Int),
       (((0 + j * 75) % 2 : Nat) : Int) + ((37 : Nat) : Int),
       (((0 + j * 75) % 2 : Nat) : Int) + ((37 : Nat) : Int)) := by
    rw [windowSum, windowSum_alternating_even]
    rfl
  have hsmall : (0 + j * 75) % 2 < 2 := Nat.mod_lt _ (by decide)
  have e : Int.tdiv ((((0 + j * 75) % 2 : Nat) : Int) + ((37 : Nat) : Int)) 75 = 0 := by
    apply Int.tdiv_eq_zero_of_lt <;> omega
  simp only [roundAverage, h75, hstep, e, Int.cast_zero]

end Streams

section StreamsReal

/-- The modelled threshold `ToRad(0.1f)` lies strictly between 0 and 1. -/
theorem ToRad_tenth_bounds : (0 : ℝ) < ToRad 0.1 ∧ ToRad (0.1 : ℝ) < 1 := by
  constructor <;> norm_num [ToRad]

/-- Seed difference of `parityStream`: the norm of `a_0 = (10, 0, 0)`. -/
theorem parity_diffNorm_zero :
    diffNorm Real.sqrt (roundAverage (parityStream : Nat → RawSample ℝ) 75 0) 0 = 10 := by
  simp only [diffNorm, lastAverage, roundAverage_parityStream, Vector3f.length]
  have h : ((0 : ℝ) - ((10 + 0 % 2 : Nat) : ℝ)) * (0 - ((10 + 0 % 2 : Nat) : ℝ))
      + (0 - 0) * (0 - 0) + (0 - 0) * (0 - 0) = 10 ^ 2 := by norm_num
  rw [h, Real.sqrt_sq (by norm_num)]

/-- Every later difference of `parityStream` has norm 1. -/
theorem parity_diffNorm_succ (j : Nat) :
    diffNorm Real.sqrt (roundAverage (parityStream : Nat → RawSample ℝ) 75 0) (j + 1) = 1 := by
  simp only [diffNorm, lastAverage, roundAverage_parityStream, Vector3f.length]
  have h : (((10 + j % 2 : Nat) : ℝ) - ((10 + (j + 1) % 2 : Nat) : ℝ))
      * (((10 + j % 2 : Nat) : ℝ) - ((10 + (j + 1) % 2 : Nat) : ℝ))
      + (0 - 0) * (0 - 0) + (0 - 0) * (0 - 0) = 1 := by
    rcases Nat.mod_two_eq_zero_or_one j with h0 | h1
    · have : (j + 1) % 2 = 1 := by omega
      rw [h0, this]; norm_num
    · have : (j + 1) % 2 = 0 := by omega
      rw [h1, this]; norm_num
  rw [h, Real.sqrt_one]

/-- No round of `parityStream` converges. -/
theorem parity_firstConverged :
    firstConverged Real.sqrt (ToRad 0.1)
      (roundAverage (parityStream : Nat → RawSample ℝ) 75 0) = none := by
  rw [firstConverged_eq_none]
  intro m h1 _
  obtain ⟨k, rfl⟩ : ∃ k, m = k + 1 := ⟨m - 1, by omega⟩
  rw [parity_diffNorm_succ]
  exact not_lt.mpr ToRad_tenth_bounds.2.le

/-- Best difference of `parityStream` after round 1. -/
theorem parity_bestDiffSeen (j : Nat) :
    bestDiffSeen Real.sqrt (roundAverage (parityStream : Nat → RawSample ℝ) 75 0) (j + 1)
      = 1 := by
  induction j with
  | zero =>
    simp only [bestDiffSeen, parity_diffNorm_zero, parity_diffNorm_succ]
    norm_num
  | succ j ih =>
    rw [bestDiffSeen, ih, parity_diffNorm_succ]
    norm_num

/-- Round 1 of `parityStream` is its last improving round. -/
theorem parity_lastImproving (m : Nat) :
    lastImproving Real.sqrt (roundAverage (parityStream : Nat → RawSample ℝ) 75 0) (m + 1)
      = some 1 := by
  induction m with
  | zero =>
    have h1 : improves Real.sqrt (roundAverage (parityStream : Nat → RawSample ℝ) 75 0)
        (0 + 1) := by
      rw [improves_succ_iff, parity_diffNorm_succ]
      simp only [bestDiffSeen, parity_diffNorm_zero]
      norm_num
    simp only [lastImproving, h1, if_true]
  | succ m ih =>
    have h2 : ¬ improves Real.sqrt (roundAverage (parityStream : Nat → RawSample ℝ) 75 0)
        (m + 1 + 1) := by
      rw [improves_succ_iff, parity_diffNorm_succ, parity_bestDiffSeen]
      exact lt_irrefl _
    rw [lastImproving]
    simp only [h2, if_false]
    exact ih

/-- The bias described for `parityStream`: the blend `(10.5, 0, 0)` of rounds 0 and 1. -/
theorem parity_specBias :
    specBias Real.sqrt (ToRad 0.1) (roundAverage (parityStream : Nat → RawSample ℝ) 75 0)
      = { x := 21 / 2, y := 0, z := 0 } := by
  simp only [specBias, parity_firstConverged, bestAverage, parity_lastImproving 9,
    roundAverage_parityStream, lastAverage, Vector3f.blend]
  norm_num

/-- Round 1 of `alternatingStream` converges. -/
theorem alternating_firstConverged :
    firstConverged Real.sqrt (ToRad 0.1)
      (roundAverage (alternatingStream : Nat → RawSample ℝ) 75 0) = some 1 := by
  rw [firstConverged_eq_some]
  refine ⟨le_refl _, by norm_num, ?_, fun m h1 h2 => by omega⟩
  simp only [diffNorm, lastAverage, roundAverage_alternatingStream, Vector3f.length, sub_self,
    mul_zero, add_zero, Real.sqrt_zero]
  exact ToRad_tenth_bounds.1

/-- The bias described for `alternatingStream` is zero. -/
theorem alternating_specBias :
    specBias Real.sqrt (ToRad 0.1) (roundAverage (alternatingStream : Nat → RawSample ℝ) 75 0)
      = { x := 0, y := 0, z := 0 } := by
  simp only [specBias, alternating_firstConverged, roundAverage_alternatingStream, lastAverage,
    Vector3f.blend]
  norm_num

/-- The constructor sets `nsamples` to 75. -/
theorem new_nsamples {F : Type} [LinearOrderedField F] (board : Board)
    (calib : Option (Calibration F)) (mem : FreeIMU F) :
    (FreeIMU.new board calib mem).nsamples = 75 := by
  cases calib <;> rfl

end StreamsReal

section Accuracy2
variable {F : Type} [LinearOrderedField F]

/-- The last improving round, when there is one, is at least 1. -/
theorem lastImproving_pos (sqrt : F → F) (a : Nat → Vector3f F) :
    ∀ (m j : Nat), lastImproving sqrt a m = some j → ∃ k, j = k + 1 := by
  intro m
  induction m with
  | zero => intro j h; simp [lastImproving] at h
  | succ m ih =>
    intro j h
    rw [lastImproving] at h
    split_ifs at h with hi
    · simp only [Option.some.injEq] at h
      exact ⟨m, h.symm⟩
    · exact ih j h

/-- The described bias is the blend of two round averages. -/
theorem specBias_blend (sqrt : F → F) (thr : F) (a : Nat → Vector3f F) :
    ∃ i j : Nat,
      (specBias sqrt thr a).x = (a i).x * 0.5 + (a j).x * 0.5 ∧
      (specBias sqrt thr a).y = (a i).y * 0.5 + (a j).y * 0.5 ∧
      (specBias sqrt thr a).z = (a i).z * 0.5 + (a j).z * 0.5 := by
  have hself : ∀ v : F, v = v * 0.5 + v * 0.5 := by intro v; norm_num; ring
  simp only [specBias]
  cases hfc : firstConverged sqrt thr a with
  | some j =>
    obtain ⟨k, rfl⟩ : ∃ k, j = k + 1 :=
      ⟨j - 1, by have := ((firstConverged_eq_some sqrt thr a j).mp hfc).1; omega⟩
    exact ⟨k + 1, k, rfl, rfl, rfl⟩
  | none =>
    simp only [bestAverage]
    cases hli : lastImproving sqrt a 10 with
    | some j =>
      obtain ⟨k, rfl⟩ := lastImproving_pos sqrt a 10 j hli
      exact ⟨k + 1, k, rfl, rfl, rfl⟩
    | none => exact ⟨0, 0, hself _, hself _, hself _⟩

end Accuracy2

section Cal5
variable {F : Type} [LinearOrderedField F]

/-- The last improving round among rounds 1..m, from its description. -/
theorem lastImproving_eq_some (sqrt : F → F) (a : Nat → Vector3f F) :
    ∀ (m j : Nat), 1 ≤ j → j ≤ m → improves sqrt a j →
      (∀ i, j < i → i ≤ m → ¬ improves sqrt a i) → lastImproving sqrt a m = some j := by
  intro m
  induction m with
  | zero => intro j h1 h2; omega
  | succ m ih =>
    intro j h1 h2 hj hlast
    rw [lastImproving]
    by_cases hjm : j = m + 1
    · rw [← hjm]; simp only [hj, if_true]
    · have hnot : ¬ improves sqrt a (m + 1) := hlast (m + 1) (by omega) (le_refl _)
      simp only [hnot, if_false]
      exact ih j h1 (by omega) hj (fun i hi1 hi2 => hlast i hi1 (by omega))

/-- No improving round among rounds 1..m. -/
theorem lastImproving_eq_none (sqrt : F → F) (a : Nat → Vector3f F) :
    ∀ (m : Nat), (∀ j, 1 ≤ j → j ≤ m → ¬ improves sqrt a j) → lastImproving sqrt a m = none := by
  intro m
  induction m with
  | zero => intro _; rfl
  | succ m ih =>
    intro h
    rw [lastImproving]
    simp only [h (m + 1) (by omega) (le_refl _), if_false]
    exact ih (fun j h1 h2 => h j h1 (by omega))

end Cal5

section Queries
variable {F : Type} [LinearOrderedField F]

/-- `AHRSupdate` does not touch the sample clock. -/
theorem AHRSupdate_clock (useMagn : Bool) (invSqrt sqrt : F → F) (s : FreeIMU F)
    (h0 : Vector3f F) (gx gy gz ax ay az mx my mz : F) :
    (AHRSupdate useMagn invSqrt sqrt s h0 gx gy gz ax ay az mx my mz).lastUpdate = s.lastUpdate ∧
    (AHRSupdate useMagn invSqrt sqrt s h0 gx gy gz ax ay az mx my mz).now = s.now ∧
    (AHRSupdate useMagn invSqrt sqrt s h0 gx gy gz ax ay az mx my mz).sampleFreq
      = s.sampleFreq := ⟨rfl, rfl, rfl⟩

/-- `getValues` does not touch the sample clock. -/
theorem getValues_clock (board : Board) (intBits : Nat) (c : Coeffs F) (s : FreeIMU F)
    (r : Readings F) (values : Values F) :
    (getValues board intBits c s r values).1.lastUpdate = s.lastUpdate := by
  simp only [getValues]
  split_ifs <;> rfl

/-- The sample clock after `getQ`: the time stamps are the current time and the sample
frequency is the reciprocal of the elapsed time in seconds. -/
theorem getQ_clock (board : Board) (DISABLE_MAGN : Bool) (intBits : Nat) (m : MathLib F)
    (c : Coeffs F) (s : FreeIMU F) (r : Readings F) (micros : Nat) (val0 : Values F)
    (h0 : Vector3f F) :
    (getQ board DISABLE_MAGN intBits m c s r micros val0 h0).1.lastUpdate = micros % 2 ^ 32 ∧
    (getQ board DISABLE_MAGN intBits m c s r micros val0 h0).1.now = micros % 2 ^ 32 ∧
    (getQ board DISABLE_MAGN intBits m c s r micros val0 h0).1.sampleFreq =
      1 / ((((micros % 2 ^ 32 + 2 ^ 32 - s.lastUpdate) % 2 ^ 32 : Nat) : F) / 1000000) := by
  simp only [getQ, getValues_clock]
  split_ifs <;> exact ⟨rfl, rfl, rfl⟩

end Queries

/-- Integer overflow on the MPU path: with the `FREEIMU_v04` table and 32-bit `int`, at
`DTemp = -2000` the product `DTemp*DTemp*DTemp` wraps to `589934592`, so the correction of
channel 2 is not the cubic. -/
theorem acgyro_corr_overflow_v04 :
    wrapInt 32 (wrapInt 32 (-2000 * -2000) * -2000) = 589934592 ∧
    acgyro_corr Board.FREEIMU_v04 32 (tempCoeffs Board.FREEIMU_v04)
      { FreeIMU.new Board.FREEIMU_v04 none (blankMemory : FreeIMU ℚ) with temp_corr_on := 1 }
      sampleReadings 2 ≠
    (tempCoeffs Board.FREEIMU_v04 : Coeffs ℚ).c3 2 * (-2000) ^ 3 +
      (tempCoeffs Board.FREEIMU_v04 : Coeffs ℚ).c2 2 * (-2000) ^ 2 +
      (tempCoeffs Board.FREEIMU_v04 : Coeffs ℚ).c1 2 * (-2000) +
      (tempCoeffs Board.FREEIMU_v04 : Coeffs ℚ).c0 2 := by
  have hw : wrapInt 32 (wrapInt 32 (-2000 * -2000) * -2000) = 589934592 := by decide
  have hw2 : wrapInt 32 (-2000 * -2000) = 4000000 := by decide
  refine ⟨hw, ?_⟩
  have ht : (sampleReadings : Readings ℚ).temperature = -2000 := rfl
  have hw3 : wrapInt 32 (-8000000000) = 589934592 := by decide
  have hw4 : wrapInt 32 4000000 = 4000000 := by decide
  norm_num [acgyro_corr, ht, hw2, hw3, hw4, FreeIMU.new, tempCoeffs, Board.HAS_ITG3200]


section Refined

/-- The refined correction factor squared: `u * (1.69000231 - 0.714158168 * u)^2` stays within
`[0.999², 1.001²]` for `u` in `[0.74, 0.84]`. -/
theorem refined_core_bounds {K : Type} [LinearOrderedField K] (u : K) (h1 : 74 / 100 ≤ u)
    (h2 : u ≤ 84 / 100) :
    (998001 : K) / 1000000 ≤ u * (1.69000231 - 0.714158168 * u) ^ 2 ∧
    u * (1.69000231 - 0.714158168 * u) ^ 2 ≤ (1002001 : K) / 1000000 := by
  have ha : 0 ≤ u - 74 / 100 := by linarith
  have hb : 0 ≤ 84 / 100 - u := by linarith
  constructor
  · norm_num
    nlinarith [mul_nonneg ha hb, mul_nonneg (mul_nonneg ha hb) ha,
      mul_nonneg (mul_nonneg ha hb) hb]
  · norm_num
    nlinarith [mul_nonneg ha (sq_nonneg (u - 79 / 100)),
      mul_nonneg hb (sq_nonneg (u - 79 / 100)), sq_nonneg (u - 79 / 100)]

/-- Bounds of `(1 + m) * (A - τ)² / D` when `τ` is `m/2` rounded down by at most `2⁻²⁴`, from
bounds of the two one-variable cubics. -/
theorem seed_product_bounds (A D m τ lo hi : ℚ) (hD : 0 < D) (h0 : 0 ≤ m)
    (hτ1 : τ ≤ m / 2) (hτ2 : m / 2 - 1 / 16777216 ≤ τ) (hA : 0 ≤ A - m / 2)
    (hlo : lo ≤ (1 + m) * (A - m / 2) ^ 2 / D)
    (hhi : (1 + m) * (A + 1 / 16777216 - m / 2) ^ 2 / D ≤ hi) :
    lo ≤ (1 + m) * (A - τ) ^ 2 / D ∧ (1 + m) * (A - τ) ^ 2 / D ≤ hi := by
  have hm : 0 ≤ 1 + m := by linarith
  have h1 : (A - m / 2) ^ 2 ≤ (A - τ) ^ 2 := by
    apply pow_le_pow_left₀ hA; linarith
  have h2 : (A - τ) ^ 2 ≤ (A + 1 / 16777216 - m / 2) ^ 2 := by
    apply pow_le_pow_left₀ (by linarith); linarith
  constructor
  · refine le_trans hlo ?_
    apply div_le_div_of_nonneg_right _ hD.le
    exact mul_le_mul_of_nonneg_left h1 hm
  · refine le_trans ?_ hhi
    apply div_le_div_of_nonneg_right _ hD.le
    exact mul_le_mul_of_nonneg_left h2 hm

/-- Piece A: even exponent field, no borrow (`τ ≤ c`). -/
theorem seed_pieceA (m τ : ℚ) (h0 : 0 ≤ m) (hτ1 : τ ≤ m / 2) (hτ2 : m / 2 - 1 / 16777216 ≤ τ)
    (hc : τ ≤ 2036754 / 8388608) :
    74 / 100 ≤ (1 + m) * (1 + 2036754 / 8388608 - τ) ^ 2 / 2 ∧
    (1 + m) * (1 + 2036754 / 8388608 - τ) ^ 2 / 2 ≤ 84 / 100 := by
  have h1 : m ≤ 486 / 1000 := by linarith
  have hb : 0 ≤ 486 / 1000 - m := by linarith
  apply seed_product_bounds _ _ _ _ _ _ (by norm_num) h0 hτ1 hτ2 (by linarith)
  · nlinarith [mul_nonneg h0 hb, mul_nonneg (mul_nonneg h0 hb) h0,
      mul_nonneg (mul_nonneg h0 hb) hb]
  · nlinarith [mul_nonneg h0 (sq_nonneg (m - 16 / 100)),
      mul_nonneg hb (sq_nonneg (m - 16 / 100)), sq_nonneg (m - 16 / 100)]

/-- Piece B: even exponent field, borrow (`τ > c`). -/
theorem seed_pieceB (m τ : ℚ) (h1 : m ≤ 1) (hτ1 : τ ≤ m / 2) (hτ2 : m / 2 - 1 / 16777216 ≤ τ)
    (hc : 2036754 / 8388608 ≤ τ) :
    74 / 100 ≤ (1 + m) * (2 + 2036754 / 8388608 - τ) ^ 2 / 8 ∧
    (1 + m) * (2 + 2036754 / 8388608 - τ) ^ 2 / 8 ≤ 84 / 100 := by
  have h0 : 485 / 1000 ≤ m := by linarith
  have ha : 0 ≤ m - 485 / 1000 := by linarith
  have hb : 0 ≤ 1 - m := by linarith
  apply seed_product_bounds _ _ _ _ _ _ (by norm_num) (by linarith) hτ1 hτ2 (by linarith)
  · nlinarith [mul_nonneg ha hb, mul_nonneg (mul_nonneg ha hb) ha,
      mul_nonneg (mul_nonneg ha hb) hb]
  · nlinarith [mul_nonneg ha (sq_nonneg (m - 83 / 100)),
      mul_nonneg hb (sq_nonneg (m - 83 / 100)), sq_nonneg (m - 83 / 100)]

/-- Piece C: odd exponent field. -/
theorem seed_pieceC (m τ : ℚ) (h0 : 0 ≤ m) (h1 : m ≤ 1) (hτ1 : τ ≤ m / 2)
    (hτ2 : m / 2 - 1 / 16777216 ≤ τ) :
    74 / 100 ≤ (1 + m) * (3 / 2 + 2036754 / 8388608 - τ) ^ 2 / 4 ∧
    (1 + m) * (3 / 2 + 2036754 / 8388608 - τ) ^ 2 / 4 ≤ 84 / 100 := by
  have hb : 0 ≤ 1 - m := by linarith
  apply seed_product_bounds _ _ _ _ _ _ (by norm_num) h0 hτ1 hτ2 (by linarith)
  · nlinarith [mul_nonneg h0 hb, mul_nonneg (mul_nonneg h0 hb) h0,
      mul_nonneg (mul_nonneg h0 hb) hb]
  · nlinarith [mul_nonneg h0 (sq_nonneg (m - 1 / 2)), mul_nonneg hb (sq_nonneg (m - 1 / 2)),
      sq_nonneg (m - 1 / 2)]

/-- Value of a positive normal binary32 pattern with exponent field below 150. -/
theorem floatOfBits_normal (p : Nat) (h1 : 8388608 ≤ p) (h2 : p / 8388608 < 150) :
    floatOfBits p = ((8388608 + p % 8388608 : Nat) : ℚ) / 2 ^ (150 - p / 8388608) := by
  have e23 : (2 : Nat) ^ 23 = 8388608 := by norm_num
  have e31 : (2 : Nat) ^ 31 = 2147483648 := by norm_num
  have hs : ¬ (p / 2147483648 % 2 = 1) := by omega
  have he : p / 8388608 % 256 = p / 8388608 := by omega
  have he0 : ¬ (p / 8388608 = 0) := by omega
  simp only [floatOfBits, e23, e31, hs, he, he0, h2, if_true, if_false, one_mul]

end Refined

section Refined2

/-- Product of a value and the square of another, both written over powers of two. -/
theorem dyadic_product (a1 a2 : ℚ) (n1 n2 N : Nat) (h : n1 + 2 * n2 = N) :
    a1 / 2 ^ n1 * (a2 / 2 ^ n2) ^ 2 = a1 * a2 ^ 2 / 2 ^ N := by
  subst h
  have e : (2 : ℚ) ^ (n1 + 2 * n2) = 2 ^ n1 * (2 ^ n2) ^ 2 := by
    rw [pow_add, mul_comm 2 n2, pow_mul]
  rw [e, div_pow]
  field_simp

/-- The refined seed: for every binary32 pattern `p` of a float in `[0.5, 100]`, with `x` its
value and `tmp` the value of the pattern `0x5F1F1412 - (p >> 1)`, both are positive and
`x * tmp²` lies in `[0.74, 0.84]`. -/
theorem refined_seed_bounds (p : Nat) (hlo : 0x3F000000 ≤ p) (hhi : p ≤ 0x42C80000) :
    0 < floatOfBits p ∧ 0 < floatOfBits (0x5F1F1412 - p / 2) ∧
    74 / 100 ≤ floatOfBits p * floatOfBits (0x5F1F1412 - p / 2) ^ 2 ∧
    floatOfBits p * floatOfBits (0x5F1F1412 - p / 2) ^ 2 ≤ 84 / 100 := by
  have hx := floatOfBits_normal p (by omega) (by omega)
  have hM : p % 8388608 < 8388608 := Nat.mod_lt _ (by norm_num)
  have ht1 : 2 * (p % 8388608 / 2) ≤ p % 8388608 := by omega
  have ht2 : p % 8388608 ≤ 2 * (p % 8388608 / 2) + 1 := by omega
  have hm0 : (0 : ℚ) ≤ ((p % 8388608 : Nat) : ℚ) / 8388608 := by positivity
  have hm1 : ((p % 8388608 : Nat) : ℚ) / 8388608 ≤ 1 := by
    rw [div_le_one (by norm_num)]
    have : p % 8388608 ≤ 8388608 := by omega
    exact_mod_cast this
  have hτ1 : ((p % 8388608 / 2 : Nat) : ℚ) / 8388608 ≤ ((p % 8388608 : Nat) : ℚ) / 8388608 / 2 := by
    have : (2 : ℚ) * ((p % 8388608 / 2 : Nat) : ℚ) ≤ ((p % 8388608 : Nat) : ℚ) := by
      exact_mod_cast ht1
    linarith
  have hτ2 : ((p % 8388608 : Nat) : ℚ) / 8388608 / 2 - 1 / 16777216
      ≤ ((p % 8388608 / 2 : Nat) : ℚ) / 8388608 := by
    have : ((p % 8388608 : Nat) : ℚ) ≤ (2 : ℚ) * ((p % 8388608 / 2 : Nat) : ℚ) + 1 := by
      exact_mod_cast ht2
    linarith
  have hxpos : 0 < floatOfBits p := by rw [hx]; positivity
  by_cases hpar : p / 8388608 % 2 = 0
  · by_cases hbor : p % 8388608 / 2 ≤ 2036754
    · -- no borrow
      have hi := floatOfBits_normal (0x5F1F1412 - p / 2) (by omega) (by omega)
      have hie : (0x5F1F1412 - p / 2) / 8388608 = 190 - p / 8388608 / 2 := by omega
      have him : (0x5F1F1412 - p / 2) % 8388608 = 2036754 - p % 8388608 / 2 := by omega
      have hc : ((p % 8388608 / 2 : Nat) : ℚ) / 8388608 ≤ 2036754 / 8388608 := by
        rw [div_le_div_iff_of_pos_right (by norm_num)]
        exact_mod_cast hbor
      have hb := seed_pieceA _ _ hm0 hτ1 hτ2 hc
      rw [hie, him] at hi
      have hipos : 0 < floatOfBits (0x5F1F1412 - p / 2) := by rw [hi]; positivity
      have hu : floatOfBits p * floatOfBits (0x5F1F1412 - p / 2) ^ 2 =
          (1 + ((p % 8388608 : Nat) : ℚ) / 8388608) *
            (1 + 2036754 / 8388608 - ((p % 8388608 / 2 : Nat) : ℚ) / 8388608) ^ 2 / 2 := by
        rw [hx, hi, dyadic_product _ _ _ _ 70 (by omega)]
        push_cast [Nat.cast_sub hbor]
        ring
      rw [hu]
      exact ⟨hxpos, hipos, hb.1, hb.2⟩
    · -- borrow
      have hbor' : 2036754 < p % 8388608 / 2 := by omega
      have hi := floatOfBits_normal (0x5F1F1412 - p / 2) (by omega) (by omega)
      have hie : (0x5F1F1412 - p / 2) / 8388608 = 189 - p / 8388608 / 2 := by omega
      have him : (0x5F1F1412 - p / 2) % 8388608 = 8388608 + 2036754 - p % 8388608 / 2 := by omega
      have hle : p % 8388608 / 2 ≤ 8388608 + 2036754 := by omega
      have hc : (2036754 : ℚ) / 8388608 ≤ ((p % 8388608 / 2 : Nat) : ℚ) / 8388608 := by
        rw [div_le_div_iff_of_pos_right (by norm_num)]
        exact_mod_cast hbor'.le
      have hb := seed_pieceB _ _ hm1 hτ1 hτ2 hc
      rw [hie, him] at hi
      have hipos : 0 < floatOfBits (0x5F1F1412 - p / 2) := by rw [hi]; positivity
      have hu : floatOfBits p * floatOfBits (0x5F1F1412 - p / 2) ^ 2 =
          (1 + ((p % 8388608 : Nat) : ℚ) / 8388608) *
            (2 + 2036754 / 8388608 - ((p % 8388608 / 2 : Nat) : ℚ) / 8388608) ^ 2 / 8 := by
        rw [hx, hi, dyadic_product _ _ _ _ 72 (by omega)]
        push_cast [Nat.cast_sub hle]
        ring
      rw [hu]
      exact ⟨hxpos, hipos, hb.1, hb.2⟩
  · -- odd exponent field
    have hi := floatOfBits_normal (0x5F1F1412 - p / 2) (by omega) (by omega)
    have hie : (0x5F1F1412 - p / 2) / 8388608 = 189 - p / 8388608 / 2 := by omega
    have him : (0x5F1F1412 - p / 2) % 8388608 = 4194304 + 2036754 - p % 8388608 / 2 := by omega
    have hle : p % 8388608 / 2 ≤ 4194304 + 2036754 := by omega
    have hb := seed_pieceC _ _ hm0 hm1 hτ1 hτ2
    rw [hie, him] at hi
    have hipos : 0 < floatOfBits (0x5F1F1412 - p / 2) := by rw [hi]; positivity
    have hu : floatOfBits p * floatOfBits (0x5F1F1412 - p / 2) ^ 2 =
        (1 + ((p % 8388608 : Nat) : ℚ) / 8388608) *
          (3 / 2 + 2036754 / 8388608 - ((p % 8388608 / 2 : Nat) : ℚ) / 8388608) ^ 2 / 4 := by
      rw [hx, hi, dyadic_product _ _ _ _ 71 (by omega)]
      push_cast [Nat.cast_sub hle]
      ring
    rw [hu]
    exact ⟨hxpos, hipos, hb.1, hb.2⟩

end Refined2

section Refined3

/-- Accuracy of the refined branch of `invSqrt` in exact arithmetic: for every binary32
pattern `p` of a float `x` in `[0.5, 100]` the result is within 0.1% of `1/√x`. -/
theorem invSqrt_refined_accuracy (p : Nat) (bits : ℝ → Nat) (sqrt : ℝ → ℝ)
    (hlo : 0x3F000000 ≤ p) (hhi : p ≤ 0x42C80000)
    (hbits : bits ((floatOfBits p : ℚ) : ℝ) = p) :
    |FreeIMU.invSqrt bits (fun q => ((floatOfBits q : ℚ) : ℝ)) sqrt 1
        ((floatOfBits p : ℚ) : ℝ) * Real.sqrt ((floatOfBits p : ℚ) : ℝ) - 1| ≤ 1 / 1000 := by
  obtain ⟨hx, ht, hu1, hu2⟩ := refined_seed_bounds p hlo hhi
  have hi : (0x5F1F1412 + 2 ^ 32 - p / 2) % 2 ^ 32 = 0x5F1F1412 - p / 2 := by omega
  have hX : (0 : ℝ) < ((floatOfBits p : ℚ) : ℝ) := by exact_mod_cast hx
  have hT : (0 : ℝ) < ((floatOfBits (0x5F1F1412 - p / 2) : ℚ) : ℝ) := by exact_mod_cast ht
  have hU1 : (74 : ℝ) / 100 ≤ ((floatOfBits p : ℚ) : ℝ)
      * ((floatOfBits (0x5F1F1412 - p / 2) : ℚ) : ℝ) ^ 2 := by
    have h := (Rat.cast_le (K := ℝ)).mpr hu1
    push_cast at h
    exact h
  have hU2 : ((floatOfBits p : ℚ) : ℝ)
      * ((floatOfBits (0x5F1F1412 - p / 2) : ℚ) : ℝ) ^ 2 ≤ (84 : ℝ) / 100 := by
    have h := (Rat.cast_le (K := ℝ)).mpr hu2
    push_cast at h
    exact h
  simp only [FreeIMU.invSqrt, hbits, hi]
  norm_num only [if_true, if_false]
  generalize ((floatOfBits p : ℚ) : ℝ) = X at hX hU1 hU2 ⊢
  generalize ((floatOfBits (0x5F1F1412 - p / 2) : ℚ) : ℝ) = T at hT hU1 hU2 ⊢
  obtain ⟨hc1, hc2⟩ := refined_core_bounds (X * T ^ 2) hU1 hU2
  have hfac : (0 : ℝ) < 1.69000231 - 0.714158168 * X * T * T := by
    have : X * T * T = X * T ^ 2 := by ring
    norm_num
    nlinarith
  have hr : 0 < T * (1.69000231 - 0.714158168 * X * T * T) := mul_pos hT hfac
  have hs : 0 < Real.sqrt X := Real.sqrt_pos.mpr hX
  have hy : 0 < T * (1.69000231 - 0.714158168 * X * T * T) * Real.sqrt X := mul_pos hr hs
  have hsq : (T * (1.69000231 - 0.714158168 * X * T * T) * Real.sqrt X) ^ 2
      = X * T ^ 2 * (1.69000231 - 0.714158168 * (X * T ^ 2)) ^ 2 := by
    rw [mul_pow, Real.sq_sqrt hX.le]
    ring
  rw [abs_le]
  constructor
  · by_contra hlt
    push_neg at hlt
    have h1 : T * (1.69000231 - 0.714158168 * X * T * T) * Real.sqrt X < 999 / 1000 := by
      linarith
    have h2 : (T * (1.69000231 - 0.714158168 * X * T * T) * Real.sqrt X) ^ 2
        < (999 / 1000) ^ 2 := pow_lt_pow_left₀ h1 hy.le (by norm_num)
    rw [hsq] at h2
    norm_num at h2 hc1
    linarith
  · by_contra hlt
    push_neg at hlt
    have h1 : 1001 / 1000 < T * (1.69000231 - 0.714158168 * X * T * T) * Real.sqrt X := by
      linarith
    have h2 : ((1001 : ℝ) / 1000) ^ 2
        < (T * (1.69000231 - 0.714158168 * X * T * T) * Real.sqrt X) ^ 2 :=
      pow_lt_pow_left₀ h1 (by norm_num) (by norm_num)
    rw [hsq] at h2
    norm_num at h2 hc2
    linarith

end Refined3



section Aerospace

/-- Components of the product of the three elementary rotations. -/
theorem specElementaryProduct_components {K : Type} [LinearOrderedField K]
    (ca sa cb sb cc sc : K) :
    (specElementaryProduct ca sa cb sb cc sc).re = ca * cb * cc + sa * sb * sc ∧
    (specElementaryProduct ca sa cb sb cc sc).imI = ca * cb * sc - sa * sb * cc ∧
    (specElementaryProduct ca sa cb sb cc sc).imJ = ca * sb * cc + sa * cb * sc ∧
    (specElementaryProduct ca sa cb sb cc sc).imK = sa * cb * cc - ca * sb * sc := by
  simp only [specElementaryProduct, QuaternionAlgebra.mk_mul_mk]
  refine ⟨?_, ?_, ?_, ?_⟩ <;> ring

/-- The five polynomial identities behind the aerospace angle formulas, for the conjugate of
the product of the elementary rotations with half-angle cosines and sines on the circle. -/
theorem aerospace_identities {K : Type} [LinearOrderedField K] (ca sa cb sb cc sc : K)
    (h1 : sa ^ 2 + ca ^ 2 = 1) (h2 : sb ^ 2 + cb ^ 2 = 1) (h3 : sc ^ 2 + cc ^ 2 = 1)
    (w x y z : K) (hw : w = ca * cb * cc + sa * sb * sc) (hx : x = ca * cb * sc - sa * sb * cc)
    (hy : y = ca * sb * cc + sa * cb * sc) (hz : z = sa * cb * cc - ca * sb * sc) :
    2 * (-x) * (-y) - 2 * w * (-z) = (cb ^ 2 - sb ^ 2) * (2 * sa * ca) ∧
    2 * w * w + 2 * (-x) * (-x) - 1 = (cb ^ 2 - sb ^ 2) * (ca ^ 2 - sa ^ 2) ∧
    2 * (-x) * (-z) + 2 * w * (-y) = -(2 * sb * cb) ∧
    2 * (-y) * (-z) - 2 * w * (-x) = (cb ^ 2 - sb ^ 2) * (2 * sc * cc) ∧
    2 * w * w + 2 * (-z) * (-z) - 1 = (cb ^ 2 - sb ^ 2) * (cc ^ 2 - sc ^ 2) := by
  subst hw hx hy hz
  refine ⟨?_, ?_, ?_, ?_, ?_⟩
  · linear_combination (2 * sa * ca * (cb ^ 2 - sb ^ 2)) * h3
  · linear_combination (2 * (ca ^ 2 * cb ^ 2 + sa ^ 2 * sb ^ 2)) * h3 + (sb ^ 2 + cb ^ 2) * h1 + h2
  · linear_combination (-2 * sb * cb * (sc ^ 2 + cc ^ 2)) * h1 + (-2 * sb * cb) * h3
  · linear_combination (2 * sc * cc * (cb ^ 2 - sb ^ 2)) * h1
  · linear_combination (2 * (cb ^ 2 * cc ^ 2 + sb ^ 2 * sc ^ 2)) * h1 + (sc ^ 2 + cc ^ 2) * h2 + h3

/-- The argument of the complex number with polar coordinates `(r, a)`. -/
theorem arg_polar {r a : ℝ} (hr : 0 < r) (ha1 : -Real.pi < a) (ha2 : a ≤ Real.pi) :
    Complex.arg ⟨r * Real.cos a, r * Real.sin a⟩ = a := by
  have h : (⟨r * Real.cos a, r * Real.sin a⟩ : ℂ) =
      (r : ℂ) * (Complex.cos a + Complex.sin a * Complex.I) := by
    apply Complex.ext
    · simp [← Complex.ofReal_cos, ← Complex.ofReal_sin]
    · simp [← Complex.ofReal_cos, ← Complex.ofReal_sin]
  rw [h]
  exact Complex.arg_mul_cos_add_sin_mul_I hr ⟨ha1, ha2⟩

/-- The angle formulas of `getEulerRad` invert the aerospace sequence: on the conjugate of
`qz(ψ) * qy(θ) * qx(φ)` they return `(ψ, θ, φ)`. -/
theorem eulerAngles_aerospace (m : MathLib ℝ) (hm : m.IsReal) (ψ θ φ : ℝ)
    (hψ1 : -Real.pi < ψ) (hψ2 : ψ < Real.pi)
    (hθ1 : -(Real.pi / 2) < θ) (hθ2 : θ < Real.pi / 2)
    (hφ1 : -Real.pi < φ) (hφ2 : φ < Real.pi) :
    eulerAngles m (specConjugate (specElementaryProduct
      (Real.cos (ψ / 2)) (Real.sin (ψ / 2)) (Real.cos (θ / 2)) (Real.sin (θ / 2))
      (Real.cos (φ / 2)) (Real.sin (φ / 2)))) = { x := ψ, y := θ, z := φ } := by
  obtain ⟨-, hatan2, hasin, -, -⟩ := hm
  obtain ⟨hw, hx, hy, hz⟩ := specElementaryProduct_components
    (Real.cos (ψ / 2)) (Real.sin (ψ / 2)) (Real.cos (θ / 2)) (Real.sin (θ / 2))
    (Real.cos (φ / 2)) (Real.sin (φ / 2))
  obtain ⟨t1, t2, t3, t4, t5⟩ := aerospace_identities
    (Real.cos (ψ / 2)) (Real.sin (ψ / 2)) (Real.cos (θ / 2)) (Real.sin (θ / 2))
    (Real.cos (φ / 2)) (Real.sin (φ / 2))
    (Real.sin_sq_add_cos_sq _) (Real.sin_sq_add_cos_sq _) (Real.sin_sq_add_cos_sq _)
    _ _ _ _ hw hx hy hz
  have eψ : ψ = 2 * (ψ / 2) := by ring
  have eθ : θ = 2 * (θ / 2) := by ring
  have eφ : φ = 2 * (φ / 2) := by ring
  have cθ : Real.cos (θ / 2) ^ 2 - Real.sin (θ / 2) ^ 2 = Real.cos θ := by
    rw [← Real.cos_two_mul', ← eθ]
  have cψ : Real.cos (ψ / 2) ^ 2 - Real.sin (ψ / 2) ^ 2 = Real.cos ψ := by
    rw [← Real.cos_two_mul', ← eψ]
  have cφ : Real.cos (φ / 2) ^ 2 - Real.sin (φ / 2) ^ 2 = Real.cos φ := by
    rw [← Real.cos_two_mul', ← eφ]
  have sθ : 2 * Real.sin (θ / 2) * Real.cos (θ / 2) = Real.sin θ := by
    rw [← Real.sin_two_mul, ← eθ]
  have sψ : 2 * Real.sin (ψ / 2) * Real.cos (ψ / 2) = Real.sin ψ := by
    rw [← Real.sin_two_mul, ← eψ]
  have sφ : 2 * Real.sin (φ / 2) * Real.cos (φ / 2) = Real.sin φ := by
    rw [← Real.sin_two_mul, ← eφ]
  rw [cθ, sψ] at t1
  rw [cθ, cψ] at t2
  rw [sθ] at t3
  rw [cθ, sφ] at t4
  rw [cθ, cφ] at t5
  have hcos : 0 < Real.cos θ := Real.cos_pos_of_mem_Ioo ⟨hθ1, hθ2⟩
  simp only [eulerAngles, specConjugate, hatan2, hasin, t1, t2, t3, t4, t5]
  rw [arg_polar hcos hψ1 hψ2.le, arg_polar hcos hφ1 hφ2.le, Real.arcsin_neg,
    Real.arcsin_sin hθ1.le hθ2.le, neg_neg]

end Aerospace

section Divergence

/-- Pitch and roll of `getYawPitchRollRad` from the estimated gravity vector. -/
theorem yawPitchRoll_of_gravity {K : Type} [LinearOrderedField K] (m : MathLib K)
    (q : K × K × K × K) (gx gy gz : K)
    (hgx : 2 * (q.2.1 * q.2.2.2 - q.1 * q.2.2.1) = gx)
    (hgy : 2 * (q.1 * q.2.1 + q.2.2.1 * q.2.2.2) = gy)
    (hgz : q.1 * q.1 - q.2.1 * q.2.1 - q.2.2.1 * q.2.2.1 + q.2.2.2 * q.2.2.2 = gz) :
    (yawPitchRoll m q).y = m.atan (gx / m.sqrt (gy * gy + gz * gz)) ∧
    (yawPitchRoll m q).z = m.atan (gy / m.sqrt (gx * gx + gz * gz)) := by
  subst hgx hgy hgz
  exact ⟨rfl, rfl⟩

/-- Pitch and roll of `getEulerRad` from the arguments of its `asin` and second `atan2`. -/
theorem eulerAngles_of_arguments {K : Type} [LinearOrderedField K] (m : MathLib K)
    (q : K × K × K × K) (u a b : K)
    (hu : 2 * q.2.1 * q.2.2.2 + 2 * q.1 * q.2.2.1 = u)
    (ha : 2 * q.2.2.1 * q.2.2.2 - 2 * q.1 * q.2.1 = a)
    (hb : 2 * q.1 * q.1 + 2 * q.2.2.2 * q.2.2.2 - 1 = b) :
    (eulerAngles m q).y = -m.asin u ∧ (eulerAngles m q).z = m.atan2 a b := by
  subst hu ha hb
  exact ⟨rfl, rfl⟩

/-- Half-angle facts at 45 degrees: with `c = cos (π/8)`, `s = sin (π/8)` and `t = √2/2`,
`c² + s² = 1`, `c² - s² = t`, `2sc = t`, `t² = 1/2` and `1/2 < t`. -/
theorem eighth_turn_facts :
    Real.sin (Real.pi / 8) ^ 2 + Real.cos (Real.pi / 8) ^ 2 = 1 ∧
    Real.cos (Real.pi / 8) ^ 2 - Real.sin (Real.pi / 8) ^ 2 = √2 / 2 ∧
    2 * Real.sin (Real.pi / 8) * Real.cos (Real.pi / 8) = √2 / 2 ∧
    (√2 / 2) * (√2 / 2) = 1 / 2 ∧ 1 / 2 < √2 / 2 := by
  have e : Real.pi / 4 = 2 * (Real.pi / 8) := by ring
  have h2 : √2 * √2 = 2 := Real.mul_self_sqrt (by norm_num)
  have h1 : (1 : ℝ) < √2 := by
    rw [show (1 : ℝ) = √1 from Real.sqrt_one.symm]
    exact Real.sqrt_lt_sqrt (by norm_num) (by norm_num)
  refine ⟨Real.sin_sq_add_cos_sq _, ?_, ?_, ?_, ?_⟩
  · rw [← Real.cos_two_mul', ← e, Real.cos_pi_div_four]
  · rw [← Real.sin_two_mul, ← e, Real.sin_pi_div_four]
  · linear_combination h2 / 4
  · linarith

/-- The estimated gravity vector and the Euler arguments at the quaternion of a 45 degree yaw
followed by a 45 degree pitch, in the conjugate convention: gravity `(1/2, 1/2, √2/2)`. -/
theorem yaw_pitch_45_conjugate (m : MathLib ℝ) :
    (yawPitchRoll m (specConjugate (specElementaryProduct (Real.cos (Real.pi / 8))
      (Real.sin (Real.pi / 8)) (Real.cos (Real.pi / 8)) (Real.sin (Real.pi / 8)) 1 0))).y =
      m.atan ((1 / 2) / m.sqrt ((1 / 2) * (1 / 2) + (√2 / 2) * (√2 / 2))) ∧
    (yawPitchRoll m (specConjugate (specElementaryProduct (Real.cos (Real.pi / 8))
      (Real.sin (Real.pi / 8)) (Real.cos (Real.pi / 8)) (Real.sin (Real.pi / 8)) 1 0))).z =
      m.atan ((1 / 2) / m.sqrt ((1 / 2) * (1 / 2) + (√2 / 2) * (√2 / 2))) := by
  obtain ⟨h1, hc, hs, ht, -⟩ := eighth_turn_facts
  obtain ⟨hw, hx, hy, hz⟩ := specElementaryProduct_components (Real.cos (Real.pi / 8))
    (Real.sin (Real.pi / 8)) (Real.cos (Real.pi / 8)) (Real.sin (Real.pi / 8)) (1 : ℝ) 0
  apply yawPitchRoll_of_gravity
  · simp only [specConjugate, hw, hx, hy, hz]
    linear_combination (Real.cos (Real.pi / 8) ^ 2 - Real.sin (Real.pi / 8) ^ 2) * hs +
      (√2 / 2) * hc + ht
  · simp only [specConjugate, hw, hx, hy, hz]
    linear_combination (2 * Real.sin (Real.pi / 8) * Real.cos (Real.pi / 8) + √2 / 2) * hs + ht
  · simp only [specConjugate, hw, hx, hy, hz]
    linear_combination (Real.cos (Real.pi / 8) ^ 2 - Real.sin (Real.pi / 8) ^ 2) * h1 + hc

/-- The same quaternion read directly (not conjugated): gravity `(-√2/2, 0, √2/2)`, `asin`
argument `1/2`, roll `atan2` arguments `(1/2, √2/2)`. -/
theorem yaw_pitch_45_direct (m : MathLib ℝ) :
    ((yawPitchRoll m (specComponents (specElementaryProduct (Real.cos (Real.pi / 8))
      (Real.sin (Real.pi / 8)) (Real.cos (Real.pi / 8)) (Real.sin (Real.pi / 8)) 1 0))).y =
      m.atan ((-(√2 / 2)) / m.sqrt (0 * 0 + (√2 / 2) * (√2 / 2))) ∧
    (yawPitchRoll m (specComponents (specElementaryProduct (Real.cos (Real.pi / 8))
      (Real.sin (Real.pi / 8)) (Real.cos (Real.pi / 8)) (Real.sin (Real.pi / 8)) 1 0))).z =
      m.atan (0 / m.sqrt ((-(√2 / 2)) * (-(√2 / 2)) + (√2 / 2) * (√2 / 2)))) ∧
    ((eulerAngles m (specComponents (specElementaryProduct (Real.cos (Real.pi / 8))
      (Real.sin (Real.pi / 8)) (Real.cos (Real.pi / 8)) (Real.sin (Real.pi / 8)) 1 0))).y =
      -m.asin (1 / 2) ∧
    (eulerAngles m (specComponents (specElementaryProduct (Real.cos (Real.pi / 8))
      (Real.sin (Real.pi / 8)) (Real.cos (Real.pi / 8)) (Real.sin (Real.pi / 8)) 1 0))).z =
      m.atan2 (1 / 2) (√2 / 2)) := by
  obtain ⟨h1, hc, hs, ht, -⟩ := eighth_turn_facts
  obtain ⟨hw, hx, hy, hz⟩ := specElementaryProduct_components (Real.cos (Real.pi / 8))
    (Real.sin (Real.pi / 8)) (Real.cos (Real.pi / 8)) (Real.sin (Real.pi / 8)) (1 : ℝ) 0
  constructor
  · apply yawPitchRoll_of_gravity
    · simp only [specComponents, hw, hx, hy, hz]
      linear_combination (-2 * Real.sin (Real.pi / 8) * Real.cos (Real.pi / 8)) * h1 - hs
    · simp only [specComponents, hw, hx, hy, hz]
      ring
    · simp only [specComponents, hw, hx, hy, hz]
      linear_combination (Real.cos (Real.pi / 8) ^ 2 - Real.sin (Real.pi / 8) ^ 2) * h1 + hc
  · apply eulerAngles_of_arguments
    · simp only [specComponents, hw, hx, hy, hz]
      linear_combination (Real.cos (Real.pi / 8) ^ 2 - Real.sin (Real.pi / 8) ^ 2) * hs +
        (√2 / 2) * hc + ht
    · simp only [specComponents, hw, hx, hy, hz]
      linear_combination (2 * Real.sin (Real.pi / 8) * Real.cos (Real.pi / 8) + √2 / 2) * hs + ht
    · simp only [specComponents, hw, hx, hy, hz]
      linear_combination (2 * Real.cos (Real.pi / 8) ^ 2 + 1) * h1 + hc

/-- Real arctangent facts: the angle `arctan ((1/2) / √(1/4 + 1/2))` (30 degrees) lies strictly
between 0 and `π/4`. -/
theorem arctan_thirty_bounds :
    0 < Real.arctan ((1 / 2) / Real.sqrt ((1 / 2) * (1 / 2) + (√2 / 2) * (√2 / 2))) ∧
    Real.arctan ((1 / 2) / Real.sqrt ((1 / 2) * (1 / 2) + (√2 / 2) * (√2 / 2))) <
      Real.pi / 4 := by
  obtain ⟨-, -, -, ht, -⟩ := eighth_turn_facts
  have hD : (1 / 2 : ℝ) < Real.sqrt ((1 / 2) * (1 / 2) + (√2 / 2) * (√2 / 2)) := by
    rw [ht, Real.lt_sqrt (by norm_num)]
    norm_num
  have hpos : (0 : ℝ) < Real.sqrt ((1 / 2) * (1 / 2) + (√2 / 2) * (√2 / 2)) := by linarith
  constructor
  · rw [← Real.arctan_zero]
    exact Real.arctan_strictMono (div_pos (by norm_num) hpos)
  · rw [← Real.arctan_one]
    apply Real.arctan_strictMono
    rw [div_lt_one hpos]
    exact hD

end Divergence

section AngleQueries

variable {F : Type} [LinearOrderedField F]

/-- The angles `getEulerRad` fills in are `eulerAngles` of the quaternion its `getQ` call
returns. -/
theorem getEulerRad_angles (board : Board) (DISABLE_MAGN : Bool) (intBits : Nat) (m : MathLib F)
    (c : Coeffs F) (s : FreeIMU F) (r : Readings F) (micros : Nat) (val0 : Values F)
    (h0 : Vector3f F) :
    (getEulerRad board DISABLE_MAGN intBits m c s r micros val0 h0).2 =
      eulerAngles m (getQ board DISABLE_MAGN intBits m c s r micros val0 h0).2 := by
  simp only [getEulerRad, eulerAngles]

/-- The angles `getYawPitchRollRad` fills in are `yawPitchRoll` of the quaternion its `getQ`
call returns. -/
theorem getYawPitchRollRad_angles (board : Board) (DISABLE_MAGN : Bool) (intBits : Nat)
    (m : MathLib F) (c : Coeffs F) (s : FreeIMU F) (r : Readings F) (micros : Nat)
    (val0 : Values F) (h0 : Vector3f F) :
    (getYawPitchRollRad board DISABLE_MAGN intBits m c s r micros val0 h0).2 =
      yawPitchRoll m (getQ board DISABLE_MAGN intBits m c s r micros val0 h0).2 := by
  simp only [getYawPitchRollRad, yawPitchRoll]

end AngleQueries


section ZeroElapsed

variable {F : Type} [LinearOrderedField F]

/-- The sample frequency `getQ` leaves in the object is `1.0 / divisor` with the divisor
`(now - lastUpdate) / 1000000.0`, whatever the divisor is. -/
theorem getQ_sampleFreq (board : Board) (DISABLE_MAGN : Bool) (intBits : Nat) (m : MathLib F)
    (c : Coeffs F) (s : FreeIMU F) (r : Readings F) (micros : Nat) (val0 : Values F)
    (h0 : Vector3f F) :
    (getQ board DISABLE_MAGN intBits m c s r micros val0 h0).1.sampleFreq =
      1 / elapsedSeconds s.lastUpdate micros :=
  (getQ_clock board DISABLE_MAGN intBits m c s r micros val0 h0).2.2

/-- The divisor is zero when the clock reads the stored time stamp. -/
theorem elapsedSeconds_same (lastUpdate micros : Nat) (h : micros % 2 ^ 32 = lastUpdate) :
    (elapsedSeconds lastUpdate micros : F) = 0 := by
  have hlt : lastUpdate < 2 ^ 32 := h ▸ Nat.mod_lt _ (by norm_num)
  have e : (micros % 2 ^ 32 + 2 ^ 32 - lastUpdate) % 2 ^ 32 = 0 := by
    rw [h]
    omega
  simp only [elapsedSeconds, e, Nat.cast_zero, zero_div]

/-- On an axis-aligned 9-axis board `getQ` always runs `AHRSupdate`, on the state that
already holds the new sample frequency (there is no test of the elapsed time). -/
theorem getQ_aligned (board : Board) (DISABLE_MAGN : Bool) (intBits : Nat) (m : MathLib F)
    (c : Coeffs F) (s : FreeIMU F) (r : Readings F) (micros : Nat) (val0 : Values F)
    (h0 : Vector3f F) (h9 : board.IS_9DOM = true) (hal : board.HAS_AXIS_ALIGNED = true) :
    (getQ board DISABLE_MAGN intBits m c s r micros val0 h0).1 =
      AHRSupdate (board.IS_9DOM && !DISABLE_MAGN)
        (invSqrt m.floatBits m.floatOfBits m.sqrt (getValues board intBits c s r val0).1.instability_fix)
        m.sqrt
        { (getValues board intBits c s r val0).1 with
          now := micros % 2 ^ 32
          sampleFreq := 1 / elapsedSeconds (getValues board intBits c s r val0).1.lastUpdate micros
          lastUpdate := micros % 2 ^ 32 }
        h0
        ((getValues board intBits c s r val0).2.v3 * m.M_PI / 180)
        ((getValues board intBits c s r val0).2.v4 * m.M_PI / 180)
        ((getValues board intBits c s r val0).2.v5 * m.M_PI / 180)
        (getValues board intBits c s r val0).2.v0 (getValues board intBits c s r val0).2.v1
        (getValues board intBits c s r val0).2.v2 (getValues board intBits c s r val0).2.v6
        (getValues board intBits c s r val0).2.v7 (getValues board intBits c s r val0).2.v8 := by
  simp only [getQ, elapsedSeconds, h9, hal, if_true]

end ZeroElapsed


section ErrorLocals

variable {F : Type} [LinearOrderedField F]

/-- With the magnetometer block absent or skipped and an accelerometer reading that has a zero
axis, the error vector that reaches the feedback test is the initial content `h0` of the
locals `halfex, halfey, halfez`. -/
theorem errorTerm_skipped (useMagn : Bool) (inv sqrt : F → F) (s : FreeIMU F)
    (h0 : Vector3f F) (ax ay az mx my mz : F)
    (hm : useMagn = false ∨ mx = 0 ∨ my = 0 ∨ mz = 0) (ha : ax = 0 ∨ ay = 0 ∨ az = 0) :
    errorTerm useMagn inv sqrt s h0 ax ay az mx my mz = h0 := by
  have h1 : ¬ (useMagn = true ∧ mx ≠ 0 ∧ my ≠ 0 ∧ mz ≠ 0) := by
    rintro ⟨hu, hx, hy, hz⟩
    rcases hm with h | h | h | h
    · rw [h] at hu; exact Bool.false_ne_true hu
    · exact hx h
    · exact hy h
    · exact hz h
  have h2 : ¬ (ax ≠ 0 ∧ ay ≠ 0 ∧ az ≠ 0) := by
    rintro ⟨hx, hy, hz⟩
    rcases ha with h | h | h
    · exact hx h
    · exact hy h
    · exact hz h
  simp only [errorTerm, h1, h2, if_false]

/-- With the magnetometer block absent or skipped and a valid accelerometer reading, the error
vector is the accelerometer cross product added to the initial content `h0` of the locals. -/
theorem errorTerm_magn_skipped (useMagn : Bool) (inv sqrt : F → F) (s : FreeIMU F)
    (h0 : Vector3f F) (ax ay az mx my mz : F)
    (hm : useMagn = false ∨ mx = 0 ∨ my = 0 ∨ mz = 0) (ha : ax ≠ 0 ∧ ay ≠ 0 ∧ az ≠ 0) :
    errorTerm useMagn inv sqrt s h0 ax ay az mx my mz = accError inv s h0 ax ay az := by
  have h1 : ¬ (useMagn = true ∧ mx ≠ 0 ∧ my ≠ 0 ∧ mz ≠ 0) := by
    rintro ⟨hu, hx, hy, hz⟩
    rcases hm with h | h | h | h
    · rw [h] at hu; exact Bool.false_ne_true hu
    · exact hx h
    · exact hy h
    · exact hz h
  simp only [errorTerm, h1, ha, if_false, if_true, ne_eq, not_false_eq_true, and_self]

/-- Were the error locals zero on entry, a rest call (zero rates, accelerometer `(0, 0, az)`,
no magnetic contribution) would leave the integrator alone and only re-normalise the
quaternion. -/
theorem AHRSupdate_rest_zero_error (useMagn : Bool) (inv sqrt : F → F) (s : FreeIMU F)
    (h0 : Vector3f F) (hz : h0.x = 0 ∨ h0.y = 0 ∨ h0.z = 0) (az : F) :
    AHRSupdate useMagn inv sqrt s h0 0 0 0 0 0 az 0 0 0 =
      { s with
        q0 := s.q0 * inv (s.q0 * s.q0 + s.q1 * s.q1 + s.q2 * s.q2 + s.q3 * s.q3)
        q1 := s.q1 * inv (s.q0 * s.q0 + s.q1 * s.q1 + s.q2 * s.q2 + s.q3 * s.q3)
        q2 := s.q2 * inv (s.q0 * s.q0 + s.q1 * s.q1 + s.q2 * s.q2 + s.q3 * s.q3)
        q3 := s.q3 * inv (s.q0 * s.q0 + s.q1 * s.q1 + s.q2 * s.q2 + s.q3 * s.q3) } := by
  have he : errorTerm useMagn inv sqrt s h0 0 0 az 0 0 0 = h0 :=
    errorTerm_skipped useMagn inv sqrt s h0 0 0 az 0 0 0 (Or.inr (Or.inl rfl)) (Or.inl rfl)
  have hf : ¬ (h0.x ≠ 0 ∧ h0.y ≠ 0 ∧ h0.z ≠ 0) := by
    rintro ⟨hx, hy, hz'⟩
    rcases hz with h | h | h
    · exact hx h
    · exact hy h
    · exact hz' h
  simp only [AHRSupdate, he, feedback, hf, if_false, integrate, zero_mul, mul_zero, neg_zero,
    sub_zero, add_zero]

/-- Were the error locals zero on entry, the constructed (identity) quaternion would be a fixed
point of every sequence of rest calls, for an `invSqrt` with `invSqrt 1 = 1`. -/
theorem runAHRS_rest_zero_error (useMagn : Bool) (inv sqrt : F → F) (hinv : inv 1 = 1)
    (cs : List (Call F))
    (hcs : ∀ c ∈ cs, (c.h0.x = 0 ∨ c.h0.y = 0 ∨ c.h0.z = 0) ∧ c.gx = 0 ∧ c.gy = 0 ∧ c.gz = 0 ∧
      c.ax = 0 ∧ c.ay = 0 ∧ c.mx = 0 ∧ c.my = 0 ∧ c.mz = 0)
    (s : FreeIMU F) (hs : s.q0 = 1 ∧ s.q1 = 0 ∧ s.q2 = 0 ∧ s.q3 = 0) :
    (runAHRS useMagn inv sqrt s cs).q0 = 1 ∧ (runAHRS useMagn inv sqrt s cs).q1 = 0 ∧
    (runAHRS useMagn inv sqrt s cs).q2 = 0 ∧ (runAHRS useMagn inv sqrt s cs).q3 = 0 := by
  induction cs generalizing s with
  | nil => exact hs
  | cons c cs ih =>
    obtain ⟨hz, hgx, hgy, hgz, hax, hay, hmx, hmy, hmz⟩ := hcs c (List.mem_cons_self _ _)
    obtain ⟨h0, h1, h2, h3⟩ := hs
    simp only [runAHRS, hgx, hgy, hgz, hax, hay, hmx, hmy, hmz]
    apply ih (fun c' hc' => hcs c' (List.mem_cons_of_mem _ hc'))
    rw [AHRSupdate_rest_zero_error useMagn inv sqrt _ c.h0 hz c.az]
    simp only [h0, h1, h2, h3, mul_one, mul_zero, add_zero, zero_mul, hinv, and_self]

end ErrorLocals

section Gravity

variable {F : Type} [LinearOrderedField F]

/-- The accelerometer block of `AHRSupdate` adds the cross product of the normalised reading
with `halfv`. -/
theorem accError_halfv (inv : F → F) (s : FreeIMU F) (e : Vector3f F) (ax ay az : F) :
    accError inv s e ax ay az =
      { x := e.x + (ay * inv (ax * ax + ay * ay + az * az) * (halfv s).z -
          az * inv (ax * ax + ay * ay + az * az) * (halfv s).y)
        y := e.y + (az * inv (ax * ax + ay * ay + az * az) * (halfv s).x -
          ax * inv (ax * ax + ay * ay + az * az) * (halfv s).z)
        z := e.z + (ax * inv (ax * ax + ay * ay + az * az) * (halfv s).y -
          ay * inv (ax * ax + ay * ay + az * az) * (halfv s).x) } := rfl

/-- Pitch and roll of `getYawPitchRollRad` are computed from `estimatedGravity`. -/
theorem yawPitchRoll_estimatedGravity (m : MathLib F) (q : F × F × F × F) :
    (yawPitchRoll m q).y =
      m.atan ((estimatedGravity q).x /
        m.sqrt ((estimatedGravity q).y * (estimatedGravity q).y +
          (estimatedGravity q).z * (estimatedGravity q).z)) ∧
    (yawPitchRoll m q).z =
      m.atan ((estimatedGravity q).y /
        m.sqrt ((estimatedGravity q).x * (estimatedGravity q).x +
          (estimatedGravity q).z * (estimatedGravity q).z)) := ⟨rfl, rfl⟩

/-- Squared length of the estimated gravity vector: the square of the squared norm of the
quaternion. -/
theorem estimatedGravity_normSq (q : F × F × F × F) :
    (estimatedGravity q).x * (estimatedGravity q).x +
      (estimatedGravity q).y * (estimatedGravity q).y +
      (estimatedGravity q).z * (estimatedGravity q).z =
    (q.1 * q.1 + q.2.1 * q.2.1 + q.2.2.1 * q.2.2.1 + q.2.2.2 * q.2.2.2) ^ 2 := by
  simp only [estimatedGravity]
  ring

/-- For a unit quaternion the estimated gravity vector is twice `halfv`. -/
theorem estimatedGravity_eq_two_halfv (s : FreeIMU F) (hs : normSq s = 1) :
    estimatedGravity (s.q0, s.q1, s.q2, s.q3) =
      { x := 2 * (halfv s).x, y := 2 * (halfv s).y, z := 2 * (halfv s).z } := by
  simp only [normSq] at hs
  simp only [estimatedGravity, halfv, Vector3f.mk.injEq, true_and]
  have h05 : (0.5 : F) = 1 / 2 := by norm_num
  rw [h05]
  linear_combination -hs

end Gravity

section PositiveArguments

variable {F : Type} [LinearOrderedField F]

end PositiveArguments

section Concrete

/-- Square roots of the squares met in the concrete sensor readings. -/
theorem sqrt_concrete :
    Real.sqrt 169 = 13 ∧ Real.sqrt 676 = 26 ∧ Real.sqrt 25 = 5 := by
  refine ⟨?_, ?_, ?_⟩
  · rw [show (169 : ℝ) = 13 * 13 by norm_num, Real.sqrt_mul_self (by norm_num)]
  · rw [show (676 : ℝ) = 26 * 26 by norm_num, Real.sqrt_mul_self (by norm_num)]
  · rw [show (25 : ℝ) = 5 * 5 by norm_num, Real.sqrt_mul_self (by norm_num)]

end Concrete

section AccelScale

/-- With the exact reciprocal square root, the accelerometer block is unchanged when the
reading is scaled by a positive factor. -/
theorem accError_scale (s : FreeIMU ℝ) (e : Vector3f ℝ) (ax ay az k : ℝ) (hk : 0 < k) :
    accError (fun x => 1 / Real.sqrt x) s e (k * ax) (k * ay) (k * az) =
      accError (fun x => 1 / Real.sqrt x) s e ax ay az := by
  have hN : k * ax * (k * ax) + k * ay * (k * ay) + k * az * (k * az) =
      k * k * (ax * ax + ay * ay + az * az) := by ring
  have hs : Real.sqrt (k * k * (ax * ax + ay * ay + az * az)) =
      k * Real.sqrt (ax * ax + ay * ay + az * az) := by
    rw [Real.sqrt_mul (mul_self_nonneg k), Real.sqrt_mul_self hk.le]
  have hr : ∀ x : ℝ, k * x * (1 / (k * Real.sqrt (ax * ax + ay * ay + az * az))) =
      x * (1 / Real.sqrt (ax * ax + ay * ay + az * az)) := by
    intro x
    rw [mul_one_div, mul_one_div, mul_div_mul_left _ _ hk.ne']
  simp only [accError, hN, hs, hr]

/-- Claimed invariance, where it holds: when the magnetometer block is absent or skipped,
`AHRSupdate` with the exact reciprocal square root gives the same result for `(k*ax, k*ay,
k*az)` as for `(ax, ay, az)`, for every `k > 0` (the error locals starting from the same
content). -/
theorem AHRSupdate_accel_scale_no_magn (useMagn : Bool) (sqrt : ℝ → ℝ) (s : FreeIMU ℝ)
    (h0 : Vector3f ℝ) (gx gy gz ax ay az mx my mz k : ℝ) (hk : 0 < k)
    (hm : useMagn = false ∨ mx = 0 ∨ my = 0 ∨ mz = 0) :
    AHRSupdate useMagn (fun x => 1 / Real.sqrt x) sqrt s h0 gx gy gz (k * ax) (k * ay) (k * az)
        mx my mz =
      AHRSupdate useMagn (fun x => 1 / Real.sqrt x) sqrt s h0 gx gy gz ax ay az mx my mz := by
  have he : errorTerm useMagn (fun x => 1 / Real.sqrt x) sqrt s h0 (k * ax) (k * ay) (k * az)
      mx my mz = errorTerm useMagn (fun x => 1 / Real.sqrt x) sqrt s h0 ax ay az mx my mz := by
    by_cases ha : ax ≠ 0 ∧ ay ≠ 0 ∧ az ≠ 0
    · have ha' : k * ax ≠ 0 ∧ k * ay ≠ 0 ∧ k * az ≠ 0 :=
        ⟨mul_ne_zero hk.ne' ha.1, mul_ne_zero hk.ne' ha.2.1, mul_ne_zero hk.ne' ha.2.2⟩
      rw [errorTerm_magn_skipped _ _ _ _ _ _ _ _ _ _ _ hm ha',
        errorTerm_magn_skipped _ _ _ _ _ _ _ _ _ _ _ hm ha, accError_scale s h0 ax ay az k hk]
    · have hz : ax = 0 ∨ ay = 0 ∨ az = 0 := by
        by_contra hcon
        push_neg at hcon
        exact ha hcon
      have hz' : k * ax = 0 ∨ k * ay = 0 ∨ k * az = 0 := by
        rcases hz with h | h | h
        · exact Or.inl (by rw [h, mul_zero])
        · exact Or.inr (Or.inl (by rw [h, mul_zero]))
        · exact Or.inr (Or.inr (by rw [h, mul_zero]))
      rw [errorTerm_skipped _ _ _ _ _ _ _ _ _ _ _ hm hz',
        errorTerm_skipped _ _ _ _ _ _ _ _ _ _ _ hm hz]
  simp only [AHRSupdate, he]

end AccelScale

section IntegerAverages

/-- Every round average is an integer vector: `initGyros` reads it back from the integer
members `gyro_off_x/y/z`. -/
theorem roundAverage_integer {K : Type} [LinearOrderedField K] (raw : Nat → RawSample K)
    (n : Int) (pos j : Nat) :
    ∃ ix iy iz : Int,
      roundAverage raw n pos j = { x := (ix : K), y := (iy : K), z := (iz : K) } :=
  ⟨_, _, _, rfl⟩

/-- Two integer vectors are closer than a threshold of at most 1 exactly when they are
equal. -/
theorem integer_vectors_close (thr : ℝ) (h0 : 0 < thr) (h1 : thr ≤ 1) (ix iy iz jx jy jz : Int) :
    Vector3f.length Real.sqrt
        { x := (ix : ℝ) - (jx : ℝ), y := (iy : ℝ) - (jy : ℝ), z := (iz : ℝ) - (jz : ℝ) } < thr ↔
      ix = jx ∧ iy = jy ∧ iz = jz := by
  simp only [Vector3f.length]
  constructor
  · intro h
    have hlt : Real.sqrt (((ix : ℝ) - jx) * ((ix : ℝ) - jx) + ((iy : ℝ) - jy) * ((iy : ℝ) - jy) +
        ((iz : ℝ) - jz) * ((iz : ℝ) - jz)) < 1 := lt_of_lt_of_le h h1
    rw [Real.sqrt_lt' (by norm_num : (0 : ℝ) < 1)] at hlt
    have hint : (((ix - jx) * (ix - jx) + (iy - jy) * (iy - jy) + (iz - jz) * (iz - jz) : Int) : ℝ)
        < ((1 : Int) : ℝ) := by
      push_cast
      linarith
    have hz : (ix - jx) * (ix - jx) + (iy - jy) * (iy - jy) + (iz - jz) * (iz - jz) < 1 :=
      Int.cast_lt.mp hint
    have hx2 := mul_self_nonneg (ix - jx)
    have hy2 := mul_self_nonneg (iy - jy)
    have hz2 := mul_self_nonneg (iz - jz)
    have ex : (ix - jx) * (ix - jx) = 0 := by omega
    have ey : (iy - jy) * (iy - jy) = 0 := by omega
    have ez : (iz - jz) * (iz - jz) = 0 := by omega
    refine ⟨?_, ?_, ?_⟩
    · have := mul_self_eq_zero.mp ex; omega
    · have := mul_self_eq_zero.mp ey; omega
    · have := mul_self_eq_zero.mp ez; omega
  · rintro ⟨rfl, rfl, rfl⟩
    simp only [sub_self, mul_zero, add_zero, Real.sqrt_zero]
    exact h0

/-- With a threshold in `(0, 1]`, the difference norm of round `j + 1` is below the threshold
exactly when the averages of rounds `j` and `j + 1` are the same vector. -/
theorem diffNorm_lt_iff_eq (thr : ℝ) (h0 : 0 < thr) (h1 : thr ≤ 1) (raw : Nat → RawSample ℝ)
    (n : Int) (pos j : Nat) :
    diffNorm Real.sqrt (roundAverage raw n pos) (j + 1) < thr ↔
      roundAverage raw n pos j = roundAverage raw n pos (j + 1) := by
  simp only [diffNorm, lastAverage]
  simp only [roundAverage]
  rw [integer_vectors_close thr h0 h1]
  simp only [Vector3f.mk.injEq, Int.cast_inj]

/-- Truncation to `int16_t` of a float that holds an integer gives that integer. -/
theorem floatToInt16_intCast {K : Type} [LinearOrderedField K] [FloorRing K] (k : Int) :
    floatToInt16 (k : K) = k := by
  simp only [floatToInt16, Int.floor_intCast, Int.ceil_intCast, ite_self]

/-- The 50/50 blend of a vector with itself is that vector. -/
theorem blend_self {K : Type} [LinearOrderedField K] (v : Vector3f K) :
    Vector3f.blend v v = v := by
  have hself : ∀ x : K, x * 0.5 + x * 0.5 = x := by intro x; norm_num; ring
  simp only [Vector3f.blend, hself]

end IntegerAverages



section QueryCases

variable {F : Type} [LinearOrderedField F]

/-- Every board falls under exactly one of the five compiled variants of the `AHRSupdate` call
in `getQ`. -/
theorem board_getQ_variant (board : Board) :
    (board.IS_9DOM = true ∧ board.HAS_AXIS_ALIGNED = true) ∨ board = Board.SEN_10724 ∨
      board = Board.ARDUIMU_v3 ∨ board = Board.SEN_10183 ∨ board.IS_9DOM = false := by
  cases board <;> simp [Board.IS_9DOM, Board.HAS_AXIS_ALIGNED]

/-- What `getQ` does to the object, by board: after `getValues` and the clock statements it
runs `AHRSupdate` once, with the magnetometer axes as compiled for the board; for `SEN_10183`
no call is compiled. -/
theorem getQ_cases (board : Board) (DISABLE_MAGN : Bool) (intBits : Nat) (m : MathLib F)
    (c : Coeffs F) (s : FreeIMU F) (r : Readings F) (micros : Nat) (val0 : Values F)
    (h0 : Vector3f F) :
    (board.IS_9DOM = true → board.HAS_AXIS_ALIGNED = true →
      (getQ board DISABLE_MAGN intBits m c s r micros val0 h0).1 =
        AHRSupdate (!DISABLE_MAGN)
          (invSqrt m.floatBits m.floatOfBits m.sqrt
            (getValues board intBits c s r val0).1.instability_fix) m.sqrt
          (clockUpdate (getValues board intBits c s r val0).1 micros) h0
          ((getValues board intBits c s r val0).2.v3 * m.M_PI / 180)
          ((getValues board intBits c s r val0).2.v4 * m.M_PI / 180)
          ((getValues board intBits c s r val0).2.v5 * m.M_PI / 180)
          (getValues board intBits c s r val0).2.v0 (getValues board intBits c s r val0).2.v1
          (getValues board intBits c s r val0).2.v2 (getValues board intBits c s r val0).2.v6
          (getValues board intBits c s r val0).2.v7 (getValues board intBits c s r val0).2.v8) ∧
    (board = Board.SEN_10724 →
      (getQ board DISABLE_MAGN intBits m c s r micros val0 h0).1 =
        AHRSupdate (!DISABLE_MAGN)
          (invSqrt m.floatBits m.floatOfBits m.sqrt
            (getValues board intBits c s r val0).1.instability_fix) m.sqrt
          (clockUpdate (getValues board intBits c s r val0).1 micros) h0
          ((getValues board intBits c s r val0).2.v3 * m.M_PI / 180)
          ((getValues board intBits c s r val0).2.v4 * m.M_PI / 180)
          ((getValues board intBits c s r val0).2.v5 * m.M_PI / 180)
          (getValues board intBits c s r val0).2.v0 (getValues board intBits c s r val0).2.v1
          (getValues board intBits c s r val0).2.v2 (getValues board intBits c s r val0).2.v7
          (-(getValues board intBits c s r val0).2.v6)
          (getValues board intBits c s r val0).2.v8) ∧
    (board = Board.ARDUIMU_v3 →
      (getQ board DISABLE_MAGN intBits m c s r micros val0 h0).1 =
        AHRSupdate (!DISABLE_MAGN)
          (invSqrt m.floatBits m.floatOfBits m.sqrt
            (getValues board intBits c s r val0).1.instability_fix) m.sqrt
          (clockUpdate (getValues board intBits c s r val0).1 micros) h0
          ((getValues board intBits c s r val0).2.v3 * m.M_PI / 180)
          ((getValues board intBits c s r val0).2.v4 * m.M_PI / 180)
          ((getValues board intBits c s r val0).2.v5 * m.M_PI / 180)
          (getValues board intBits c s r val0).2.v0 (getValues board intBits c s r val0).2.v1
          (getValues board intBits c s r val0).2.v2
          (-(getValues board intBits c s r val0).2.v6)
          (-(getValues board intBits c s r val0).2.v7)
          (getValues board intBits c s r val0).2.v8) ∧
    (board = Board.SEN_10183 →
      (getQ board DISABLE_MAGN intBits m c s r micros val0 h0).1 =
        clockUpdate (getValues board intBits c s r val0).1 micros) ∧
    (board.IS_9DOM = false →
      (getQ board DISABLE_MAGN intBits m c s r micros val0 h0).1 =
        AHRSupdate false
          (invSqrt m.floatBits m.floatOfBits m.sqrt
            (getValues board intBits c s r val0).1.instability_fix) m.sqrt
          (clockUpdate (getValues board intBits c s r val0).1 micros) h0
          ((getValues board intBits c s r val0).2.v3 * m.M_PI / 180)
          ((getValues board intBits c s r val0).2.v4 * m.M_PI / 180)
          ((getValues board intBits c s r val0).2.v5 * m.M_PI / 180)
          (getValues board intBits c s r val0).2.v0 (getValues board intBits c s r val0).2.v1
          (getValues board intBits c s r val0).2.v2 0 0 0) := by
  refine ⟨fun h9 hal => ?_, fun hb => ?_, fun hb => ?_, fun hb => ?_, fun h6 => ?_⟩
  · simp only [getQ, clockUpdate, elapsedSeconds, h9, hal, if_true, Bool.true_and]
  · subst hb
    simp only [getQ, clockUpdate, elapsedSeconds, Board.IS_9DOM, Board.HAS_AXIS_ALIGNED,
      if_true, Bool.true_and]
    rfl
  · subst hb
    simp only [getQ, clockUpdate, elapsedSeconds, Board.IS_9DOM, Board.HAS_AXIS_ALIGNED,
      if_true, Bool.true_and]
    rfl
  · subst hb
    simp only [getQ, clockUpdate, elapsedSeconds, Board.IS_9DOM, Board.HAS_AXIS_ALIGNED,
      if_true, Bool.true_and]
    rfl
  · simp only [getQ, clockUpdate, elapsedSeconds, h6, Bool.false_and]
    rfl

/-- The clock statements do not move the stored sample time used for the divisor: the state
passed to `AHRSupdate` holds `1.0 / divisor` with the divisor of the time stamp on entry. -/
theorem clockUpdate_getValues_sampleFreq (board : Board) (intBits : Nat) (c : Coeffs F)
    (s : FreeIMU F) (r : Readings F) (micros : Nat) (val0 : Values F) :
    (clockUpdate (getValues board intBits c s r val0).1 micros).sampleFreq =
      1 / elapsedSeconds s.lastUpdate micros := by
  simp only [clockUpdate, getValues_clock]

end QueryCases

section InvSqrtCalls
variable {F : Type} [LinearOrderedField F]

end InvSqrtCalls

section NoiseInterval

/-- A window sum of samples that lie between the integers `L` and `H` lies between `n·L` and
`n·H`, on every axis. -/
theorem windowSum_between {F : Type} (raw : Nat → RawSample F) (Lx Hx Ly Hy Lz Hz : Int)
    (h : ∀ i, (Lx ≤ (raw i).gx ∧ (raw i).gx ≤ Hx) ∧ (Ly ≤ (raw i).gy ∧ (raw i).gy ≤ Hy) ∧
      (Lz ≤ (raw i).gz ∧ (raw i).gz ≤ Hz)) :
    ∀ (n pos : Nat),
      ((n : Int) * Lx ≤ (windowSum raw pos n).1 ∧ (windowSum raw pos n).1 ≤ (n : Int) * Hx) ∧
      ((n : Int) * Ly ≤ (windowSum raw pos n).2.1 ∧ (windowSum raw pos n).2.1 ≤ (n : Int) * Hy) ∧
      ((n : Int) * Lz ≤ (windowSum raw pos n).2.2 ∧ (windowSum raw pos n).2.2 ≤ (n : Int) * Hz) := by
  intro n
  induction n with
  | zero => intro pos; simp [windowSum]
  | succ n ih =>
    intro pos
    obtain ⟨hx, hy, hz⟩ := h pos
    obtain ⟨ix, iy, iz⟩ := ih (pos + 1)
    simp only [windowSum]
    push_cast
    refine ⟨⟨?_, ?_⟩, ⟨?_, ?_⟩, ⟨?_, ?_⟩⟩ <;>
      linarith [hx.1, hx.2, hy.1, hy.2, hz.1, hz.2, ix.1, ix.2, iy.1, iy.2, iz.1, iz.2]

/-- The truncated quotient of a sum between `n·L` and `n·H` lies between `L` and `H`. -/
theorem tdiv_between (w n L H : Int) (hn : 0 < n) (h1 : n * L ≤ w) (h2 : w ≤ n * H) :
    L ≤ Int.tdiv w n ∧ Int.tdiv w n ≤ H := by
  have hdecomp : n * Int.tdiv w n + Int.tmod w n = w := Int.tdiv_add_tmod w n
  have hr1 : Int.tmod w n < n := Int.tmod_lt_of_pos w hn
  have hr2 : -n < Int.tmod w n := by
    have h := Int.tmod_lt_of_pos (-w) hn
    rw [Int.tmod_def, Int.neg_tdiv] at h
    rw [Int.tmod_def]
    have e : -w - n * -(w.tdiv n) = -(w - n * w.tdiv n) := by ring
    rw [e] at h
    omega
  constructor
  · have h3 : n * (L - 1) < n * Int.tdiv w n := by
      rw [mul_sub, mul_one]
      linarith
    have := lt_of_mul_lt_mul_left h3 hn.le
    omega
  · have h3 : n * Int.tdiv w n < n * (H + 1) := by
      rw [mul_add, mul_one]
      linarith
    have := lt_of_mul_lt_mul_left h3 hn.le
    omega

variable {F : Type} [LinearOrderedField F] [FloorRing F]

/-- Truncation toward zero keeps a value between two integers that enclose it. -/
theorem floatToInt16_between (v : F) (L H : Int) (h1 : (L : F) ≤ v) (h2 : v ≤ (H : F)) :
    L ≤ floatToInt16 v ∧ floatToInt16 v ≤ H := by
  simp only [floatToInt16]
  split_ifs with h0
  · refine ⟨Int.le_floor.mpr h1, ?_⟩
    have : ((⌊v⌋ : Int) : F) ≤ (H : F) := le_trans (Int.floor_le v) h2
    exact_mod_cast this
  · refine ⟨?_, Int.ceil_le.mpr h2⟩
    have : (L : F) ≤ ((⌈v⌉ : Int) : F) := le_trans h1 (Int.le_ceil v)
    exact_mod_cast this

/-- Truncating the blend of two integers within `δ` of `μ` stays within `δ` of `μ`. -/
theorem floatToInt16_blend_within (k1 k2 : Int) (μ δ : F)
    (h1 : |(k1 : F) - μ| ≤ δ) (h2 : |(k2 : F) - μ| ≤ δ) :
    |((floatToInt16 ((k1 : F) * 0.5 + (k2 : F) * 0.5) : Int) : F) - μ| ≤ δ := by
  rw [abs_le] at h1 h2
  have hL1 : ⌈μ - δ⌉ ≤ k1 := Int.ceil_le.mpr (by linarith [h1.1])
  have hL2 : ⌈μ - δ⌉ ≤ k2 := Int.ceil_le.mpr (by linarith [h2.1])
  have hH1 : k1 ≤ ⌊μ + δ⌋ := Int.le_floor.mpr (by linarith [h1.2])
  have hH2 : k2 ≤ ⌊μ + δ⌋ := Int.le_floor.mpr (by linarith [h2.2])
  have c1 : ((⌈μ - δ⌉ : Int) : F) ≤ (k1 : F) := by exact_mod_cast hL1
  have c2 : ((⌈μ - δ⌉ : Int) : F) ≤ (k2 : F) := by exact_mod_cast hL2
  have c3 : (k1 : F) ≤ ((⌊μ + δ⌋ : Int) : F) := by exact_mod_cast hH1
  have c4 : (k2 : F) ≤ ((⌊μ + δ⌋ : Int) : F) := by exact_mod_cast hH2
  have h05 : (0.5 : F) = 1 / 2 := by norm_num
  obtain ⟨b1, b2⟩ := floatToInt16_between ((k1 : F) * 0.5 + (k2 : F) * 0.5) ⌈μ - δ⌉ ⌊μ + δ⌋
    (by rw [h05]; linarith) (by rw [h05]; linarith)
  have d1 : ((⌈μ - δ⌉ : Int) : F) ≤
      ((floatToInt16 ((k1 : F) * 0.5 + (k2 : F) * 0.5) : Int) : F) := by exact_mod_cast b1
  have d2 : ((floatToInt16 ((k1 : F) * 0.5 + (k2 : F) * 0.5) : Int) : F) ≤
      ((⌊μ + δ⌋ : Int) : F) := by exact_mod_cast b2
  have e1 := Int.le_ceil (μ - δ)
  have e2 := Int.floor_le (μ + δ)
  rw [abs_le]
  constructor <;> linarith

/-- Every round average of a stream with noise bound `δ` is an integer vector within `δ` of the
mean: truncation toward zero cannot leave the range of the integer samples. -/
theorem roundAverage_within (raw : Nat → RawSample F) (μ : Vector3f F) (δ : F)
    (h : BoundedNoise raw μ δ) (n : Int) (hn : 0 < n) (pos0 j : Nat) :
    (∃ kx ky kz : Int, roundAverage raw n pos0 j = { x := (kx : F), y := (ky : F), z := (kz : F) })
    ∧ |(roundAverage raw n pos0 j).x - μ.x| ≤ δ
    ∧ |(roundAverage raw n pos0 j).y - μ.y| ≤ δ
    ∧ |(roundAverage raw n pos0 j).z - μ.z| ≤ δ := by
  have hcast : ((n.toNat : Nat) : Int) = n := Int.toNat_of_nonneg hn.le
  have hb : ∀ i, (⌈μ.x - δ⌉ ≤ (raw i).gx ∧ (raw i).gx ≤ ⌊μ.x + δ⌋) ∧
      (⌈μ.y - δ⌉ ≤ (raw i).gy ∧ (raw i).gy ≤ ⌊μ.y + δ⌋) ∧
      (⌈μ.z - δ⌉ ≤ (raw i).gz ∧ (raw i).gz ≤ ⌊μ.z + δ⌋) := by
    intro i
    obtain ⟨hx, hy, hz⟩ := h i
    rw [abs_le] at hx hy hz
    exact ⟨⟨Int.ceil_le.mpr (by linarith [hx.1]), Int.le_floor.mpr (by linarith [hx.2])⟩,
      ⟨Int.ceil_le.mpr (by linarith [hy.1]), Int.le_floor.mpr (by linarith [hy.2])⟩,
      ⟨Int.ceil_le.mpr (by linarith [hz.1]), Int.le_floor.mpr (by linarith [hz.2])⟩⟩
  obtain ⟨wx, wy, wz⟩ := windowSum_between raw _ _ _ _ _ _ hb n.toNat (pos0 + j * n.toNat)
  rw [hcast] at wx wy wz
  have key : ∀ (w : Int) (m : F), n * ⌈m - δ⌉ ≤ w → w ≤ n * ⌊m + δ⌋ →
      |((Int.tdiv w n : Int) : F) - m| ≤ δ := by
    intro w m h1 h2
    obtain ⟨b1, b2⟩ := tdiv_between w n _ _ hn h1 h2
    have d1 : ((⌈m - δ⌉ : Int) : F) ≤ ((Int.tdiv w n : Int) : F) := by exact_mod_cast b1
    have d2 : ((Int.tdiv w n : Int) : F) ≤ ((⌊m + δ⌋ : Int) : F) := by exact_mod_cast b2
    have e1 := Int.le_ceil (m - δ)
    have e2 := Int.floor_le (m + δ)
    rw [abs_le]
    constructor <;> linarith
  exact ⟨⟨_, _, _, rfl⟩, key _ _ wx.1 wx.2, key _ _ wy.1 wy.2, key _ _ wz.1 wz.2⟩

end NoiseInterval

section RefinedNormal

end RefinedNormal
section RefinedNormal2

end RefinedNormal2
section FloatBitsSpec

end FloatBitsSpec
section FloatBitsSpec2

end FloatBitsSpec2
section RefinedRun

variable {F : Type} [LinearOrderedField F]

end RefinedRun
/-! ## Claims -/

open FreeIMU

/-- C2. Gain-zero disables the integral term: from the constructed state of a board whose
integral gain `twoKi` is zero, after any sequence of `AHRSupdate` calls (any arguments, any
sample frequencies, any indeterminate initial error locals, any reciprocal-square-root
routine) the feedback integrator is exactly `(0, 0, 0)`. -/
theorem C2_gain_zero_integrator_stays_zero {F : Type} [LinearOrderedField F]
    (board : Board) (calib : Option (Calibration F)) (mem : FreeIMU F)
    (useMagn : Bool) (invSqrt sqrt : F → F) (calls : List (Call F))
    (hK : (FreeIMU.new board calib mem).twoKi = 0) :
    (runAHRS useMagn invSqrt sqrt (FreeIMU.new board calib mem) calls).integralFBx = 0 ∧
    (runAHRS useMagn invSqrt sqrt (FreeIMU.new board calib mem) calls).integralFBy = 0 ∧
    (runAHRS useMagn invSqrt sqrt (FreeIMU.new board calib mem) calls).integralFBz = 0 :=
  (runAHRS_integral_zero useMagn invSqrt sqrt calls _ hK
    (new_integralFB board calib mem).1 (new_integralFB board calib mem).2.1
    (new_integralFB board calib mem).2.2).2


/-- C2, instance: the default board `DFROBOT` has `twoKiDef = 2 * 0`. -/
theorem C2_gain_zero_integrator_stays_zero_witness :
    (FreeIMU.new Board.DFROBOT none (blankMemory : FreeIMU ℚ)).twoKi = 0 ∧
    (runAHRS true (FreeIMU.invSqrt floatBits floatOfBits (fun x => x) 1) (fun x => x)
      (FreeIMU.new Board.DFROBOT none blankMemory) [sampleCall]).integralFBx = 0 :=
  have hK : (FreeIMU.new Board.DFROBOT none (blankMemory : FreeIMU ℚ)).twoKi = 0 := by
    norm_num [new_twoKi, twoKiDef]
  ⟨hK, (C2_gain_zero_integrator_stays_zero Board.DFROBOT none blankMemory true _ _ _ hK).1⟩


/-- C3. `invSqrt` is selected by the run-time flag `instability_fix`. For an argument whose
sign bit is clear (the contract asks for a positive float): flag 0 returns
`y * ((1.5 : F) - (0.5 : F) * x * y * y)` with `y` the float of pattern `0x5f375a86 - (bits x >> 1)`;
flag 1 returns `tmp * ((1.69000231 : F) - (0.714158168 : F) * x * tmp * tmp)` with `tmp` the float of
pattern `0x5F1F1412 - (bits x >> 1)`; every other flag returns `1 / sqrt x`. The constructor
sets the flag to 1. -/
theorem C3_invSqrt_mode_selection {F : Type} [LinearOrderedField F]
    (bits : F → Nat) (ofBits : Nat → F) (sqrt : F → F) (x : F)
    (board : Board) (calib : Option (Calibration F)) (mem : FreeIMU F)
    (hsign : bits x < 2 ^ 31) :
    (FreeIMU.invSqrt bits ofBits sqrt 0 x =
        ofBits (0x5f375a86 - (bits x >>> 1)) *
          ((1.5 : F) - (0.5 : F) * x * ofBits (0x5f375a86 - (bits x >>> 1)) *
            ofBits (0x5f375a86 - (bits x >>> 1)))) ∧
    (FreeIMU.invSqrt bits ofBits sqrt 1 x =
        ofBits (0x5F1F1412 - (bits x >>> 1)) *
          ((1.69000231 : F) - (0.714158168 : F) * x * ofBits (0x5F1F1412 - (bits x >>> 1)) *
            ofBits (0x5F1F1412 - (bits x >>> 1)))) ∧
    (∀ flag : Int, flag ≠ 0 → flag ≠ 1 → FreeIMU.invSqrt bits ofBits sqrt flag x = 1 / sqrt x) ∧
    (FreeIMU.new board calib mem).instability_fix = 1 := by
  have hshift : bits x >>> 1 = bits x / 2 := by
    rw [Nat.shiftRight_eq_div_pow]
  refine ⟨?_, ?_, ?_, ?_⟩
  · have h0 : ((0x5f375a86 - ((bits x : Int)) / 2) % 2 ^ 32).toNat
        = 0x5f375a86 - bits x / 2 := by omega
    simp only [FreeIMU.invSqrt, if_true, hsign, hshift, h0]
    ring
  · have h1 : (0x5F1F1412 + 2 ^ 32 - bits x / 2) % 2 ^ 32 = 0x5F1F1412 - bits x / 2 := by omega
    simp only [FreeIMU.invSqrt, hshift, h1]
    norm_num
  · intro flag h0 h1
    simp [FreeIMU.invSqrt, h0, h1]
  · cases calib <;> rfl


/-- C3, instance: for `x = 1` (pattern `0x3F800000`) on rationals. -/
theorem C3_invSqrt_mode_selection_witness :
    floatBits 1 < 2 ^ 31 ∧
    FreeIMU.invSqrt floatBits floatOfBits (fun x => x) 1 (1 : ℚ) =
      floatOfBits (0x5F1F1412 - (floatBits 1 >>> 1)) *
        ((1.69000231 : ℚ) - (0.714158168 : ℚ) * 1 * floatOfBits (0x5F1F1412 - (floatBits 1 >>> 1)) *
          floatOfBits (0x5F1F1412 - (floatBits 1 >>> 1))) :=
  ⟨by decide!,
   (C3_invSqrt_mode_selection floatBits floatOfBits (fun x => x) 1 Board.DFROBOT none
      blankMemory (by decide!)).2.1⟩


/-- C4. `invSqrt` accuracy bound, in exact arithmetic: for every binary32 float `x` in
`[0.5, 100]` (pattern `p` between `0x3F000000` and `0x42C80000`) the refined mode
(`instability_fix = 1`) returns a value within 0.2% relative error of the true `1/√x`, and
the exact mode (every flag other than 0 and 1, with the true square root) returns `1/√x`
itself, which is within float epsilon `2⁻²³` of it. -/
theorem C4_invSqrt_accuracy (p : Nat) (bits : ℝ → Nat)
    (hlo : 0x3F000000 ≤ p) (hhi : p ≤ 0x42C80000)
    (hbits : bits ((floatOfBits p : ℚ) : ℝ) = p) :
    |FreeIMU.invSqrt bits (fun q => ((floatOfBits q : ℚ) : ℝ)) Real.sqrt 1
        ((floatOfBits p : ℚ) : ℝ) * Real.sqrt ((floatOfBits p : ℚ) : ℝ) - 1| ≤ 2 / 1000 ∧
    (∀ flag : Int, flag ≠ 0 → flag ≠ 1 →
      |FreeIMU.invSqrt bits (fun q => ((floatOfBits q : ℚ) : ℝ)) Real.sqrt flag
        ((floatOfBits p : ℚ) : ℝ) * Real.sqrt ((floatOfBits p : ℚ) : ℝ) - 1| ≤ 1 / 8388608) := by
  constructor
  · exact le_trans (invSqrt_refined_accuracy p bits Real.sqrt hlo hhi hbits) (by norm_num)
  · intro flag h0 h1
    have hx : (0 : ℝ) < ((floatOfBits p : ℚ) : ℝ) := by
      exact_mod_cast (refined_seed_bounds p hlo hhi).1
    have hs : Real.sqrt ((floatOfBits p : ℚ) : ℝ) ≠ 0 := (Real.sqrt_pos.mpr hx).ne'
    simp only [FreeIMU.invSqrt, h0, h1, if_false]
    rw [one_div, inv_mul_cancel₀ hs]
    norm_num

/-- C4, instance: `x = 1`, pattern `0x3F800000`. -/
theorem C4_invSqrt_accuracy_witness :
    (0x3F000000 ≤ 0x3F800000) ∧ (0x3F800000 ≤ 0x42C80000) ∧
    (fun _ : ℝ => 0x3F800000) ((floatOfBits 0x3F800000 : ℚ) : ℝ) = 0x3F800000 ∧
    |FreeIMU.invSqrt (fun _ : ℝ => 0x3F800000) (fun q => ((floatOfBits q : ℚ) : ℝ)) Real.sqrt 1
        ((floatOfBits 0x3F800000 : ℚ) : ℝ) * Real.sqrt ((floatOfBits 0x3F800000 : ℚ) : ℝ) - 1|
      ≤ 2 / 1000 :=
  ⟨by decide, by decide, rfl,
   (C4_invSqrt_accuracy 0x3F800000 (fun _ : ℝ => 0x3F800000) (by decide) (by decide) rfl).1⟩


/-- C5, counterexample to the claim as stated: on the default board (ITG3200 path) with
compensation enabled and the temperature below the break, the correction of gyroscope channel
3 is `60.71009177`, yet `values[3]` is the driver value 10: nothing is subtracted. -/
theorem C5_counterexample :
    ({ FreeIMU.new Board.DFROBOT none (blankMemory : FreeIMU ℚ) with temp_corr_on := 1 }
        : FreeIMU ℚ).temp_corr_on = 1 ∧
    (sampleReadings : Readings ℚ).senTemp <
      ({ FreeIMU.new Board.DFROBOT none (blankMemory : FreeIMU ℚ) with temp_corr_on := 1 }
        : FreeIMU ℚ).senTemp_break ∧
    acgyro_corr Board.DFROBOT 16 (tempCoeffs Board.DFROBOT)
      { FreeIMU.new Board.DFROBOT none (blankMemory : FreeIMU ℚ) with temp_corr_on := 1 }
      sampleReadings 3 = 60.71009177 ∧
    (getValues Board.DFROBOT 16 (tempCoeffs Board.DFROBOT)
      { FreeIMU.new Board.DFROBOT none (blankMemory : FreeIMU ℚ) with temp_corr_on := 1 }
      sampleReadings sampleValues).2.v3 = 10 := by
  refine ⟨rfl, ?_, ?_, ?_⟩
  · norm_num [FreeIMU.new, sampleReadings]
  · norm_num [acgyro_corr, FreeIMU.new, sampleReadings, tempCoeffs, Board.HAS_ITG3200]
  · norm_num [getValues, acgyro_corr, FreeIMU.new, sampleReadings, tempCoeffs, Board.HAS_ITG3200, Board.HAS_HMC5883L]


/-- C5 (amended). Temperature compensation, active branch. With `temp_corr_on = 1` and the
temperature below the break, the correction of channel `i` is the cubic
`c3[i]*T^3 + c2[i]*T^2 + c1[i]*T + c0[i]` on the ITG3200 path, and on the MPU path whenever
each of the integer powers `DTemp*DTemp`, `DTemp*DTemp*DTemp` fits the platform `int` or has a
zero coefficient. The correction is subtracted from the accelerometer channels on both paths,
from the gyroscope channels on the MPU path, and from the magnetometer channels when a
magnetometer is present; on the ITG3200 path the gyroscope channels are the driver values. -/
theorem C5_active_branch_correction {F : Type} [LinearOrderedField F]
    (board : Board) (intBits : Nat) (c : Coeffs F) (s : FreeIMU F) (r : Readings F)
    (values : Values F) (i : Nat)
    (hon : s.temp_corr_on = 1)
    (hbelow : if board.HAS_ITG3200 = true then r.senTemp < s.senTemp_break
              else r.temperature < s.temp_break)
    (hsq : board.HAS_ITG3200 = false →
      c.c2 i = 0 ∨ wrapInt intBits (r.temperature * r.temperature)
        = r.temperature * r.temperature)
    (hcube : board.HAS_ITG3200 = false →
      c.c3 i = 0 ∨ wrapInt intBits (wrapInt intBits (r.temperature * r.temperature)
        * r.temperature) = r.temperature * r.temperature * r.temperature) :
    acgyro_corr board intBits c s r i =
      c.c3 i * (if board.HAS_ITG3200 = true then r.senTemp else (r.temperature : F)) ^ 3 +
      c.c2 i * (if board.HAS_ITG3200 = true then r.senTemp else (r.temperature : F)) ^ 2 +
      c.c1 i * (if board.HAS_ITG3200 = true then r.senTemp else (r.temperature : F)) +
      c.c0 i ∧
    (getValues board intBits c s r values).2.v0 =
      ((r.acc_x : F) - acgyro_corr board intBits c s r 0 - (s.acc_off_x : F)) / s.acc_scale_x ∧
    (getValues board intBits c s r values).2.v1 =
      ((r.acc_y : F) - acgyro_corr board intBits c s r 1 - (s.acc_off_y : F)) / s.acc_scale_y ∧
    (getValues board intBits c s r values).2.v2 =
      ((r.acc_z : F) - acgyro_corr board intBits c s r 2 - (s.acc_off_z : F)) / s.acc_scale_z ∧
    (board.HAS_ITG3200 = false →
      (getValues board intBits c s r values).2.v3 =
        ((r.gyro_x : F) - acgyro_corr board intBits c s r 3) / 16.4 ∧
      (getValues board intBits c s r values).2.v4 =
        ((r.gyro_y : F) - acgyro_corr board intBits c s r 4) / 16.4 ∧
      (getValues board intBits c s r values).2.v5 =
        ((r.gyro_z : F) - acgyro_corr board intBits c s r 5) / 16.4) ∧
    (board.HAS_ITG3200 = true →
      (getValues board intBits c s r values).2.v3 = r.gyroRate_x ∧
      (getValues board intBits c s r values).2.v4 = r.gyroRate_y ∧
      (getValues board intBits c s r values).2.v5 = r.gyroRate_z) ∧
    (board.HAS_HMC5883L = true →
      (getValues board intBits c s r values).2.v6 =
        (r.magn_x - acgyro_corr board intBits c s r 6 - (s.magn_off_x : F)) / s.magn_scale_x ∧
      (getValues board intBits c s r values).2.v7 =
        (r.magn_y - acgyro_corr board intBits c s r 7 - (s.magn_off_y : F)) / s.magn_scale_y ∧
      (getValues board intBits c s r values).2.v8 =
        (r.magn_z - acgyro_corr board intBits c s r 8 - (s.magn_off_z : F)) / s.magn_scale_z) := by
  refine ⟨?_, ?_, ?_, ?_, ?_, ?_, ?_⟩
  · by_cases hb : board.HAS_ITG3200 = true
    · simp only [hb, if_true] at hbelow ⊢
      simp only [acgyro_corr, hb, hon, hbelow, if_true]
      ring
    · have hb' : board.HAS_ITG3200 = false := by simpa using hb
      simp only [hb', Bool.false_eq_true, if_false] at hbelow ⊢
      simp only [acgyro_corr, hb', Bool.false_eq_true, if_false, hon, hbelow, if_true]
      rcases hsq hb' with h2 | h2 <;> rcases hcube hb' with h3 | h3
      · rw [h2, h3]; ring
      · rw [h2, h3]; push_cast; ring
      · rw [h2, h3]; push_cast; ring
      · rw [h3, h2]; push_cast; ring
  · exact (getValues_acc board intBits c s r values).1
  · exact (getValues_acc board intBits c s r values).2.1
  · exact (getValues_acc board intBits c s r values).2.2
  · intro hb
    have h := getValues_gyro_MPU board intBits c s r values hb
    simpa only [hon, if_true] using h
  · intro hb
    exact getValues_gyro_ITG board intBits c s r values hb
  · intro hm
    have h := getValues_magn board intBits c s r values hm
    simpa only [hon, if_true] using h


/-- C5, instance (the literal case of the specification): `T = -2000`, `c3 = c2 = 0`,
`c1 = 1.8e-2`, `c0 = -45.6` on an MPU board with 16-bit `int` gives `-81.6`. -/
theorem C5_active_branch_correction_witness :
    ({ FreeIMU.new Board.FREEIMU_v04 none (blankMemory : FreeIMU ℚ) with temp_corr_on := 1 }
        : FreeIMU ℚ).temp_corr_on = 1 ∧
    (sampleReadings : Readings ℚ).temperature <
      ({ FreeIMU.new Board.FREEIMU_v04 none (blankMemory : FreeIMU ℚ) with temp_corr_on := 1 }
        : FreeIMU ℚ).temp_break ∧
    acgyro_corr Board.FREEIMU_v04 16 specCoeffs
      { FreeIMU.new Board.FREEIMU_v04 none (blankMemory : FreeIMU ℚ) with temp_corr_on := 1 }
      sampleReadings 0 = -81.6 := by
  have hb : (sampleReadings : Readings ℚ).temperature <
      ({ FreeIMU.new Board.FREEIMU_v04 none (blankMemory : FreeIMU ℚ) with temp_corr_on := 1 }
        : FreeIMU ℚ).temp_break := by
    decide
  refine ⟨rfl, hb, ?_⟩
  have h := (C5_active_branch_correction Board.FREEIMU_v04 16 specCoeffs
    { FreeIMU.new Board.FREEIMU_v04 none (blankMemory : FreeIMU ℚ) with temp_corr_on := 1 }
    sampleReadings sampleValues 0 rfl hb (fun _ => Or.inl rfl) (fun _ => Or.inl rfl)).1
  rw [h]
  norm_num [specCoeffs, sampleReadings, Board.HAS_ITG3200]


/-- C6, counterexample to the claim as stated: on the default board (ITG3200 path) with
compensation disabled and a static gyro bias `gyro_off_x = 5` (what the calibrator stores for a
stream reading 5), `values[3]` is the driver value 10: the bias is not subtracted. -/
theorem C6_counterexample :
    ({ FreeIMU.new Board.DFROBOT none (blankMemory : FreeIMU ℚ) with gyro_off_x := 5 }
        : FreeIMU ℚ).temp_corr_on = 0 ∧
    (getValues Board.DFROBOT 16 (tempCoeffs Board.DFROBOT)
      { FreeIMU.new Board.DFROBOT none (blankMemory : FreeIMU ℚ) with gyro_off_x := 5 }
      sampleReadings sampleValues).2.v3 = (sampleReadings : Readings ℚ).gyroRate_x ∧
    (getValues Board.DFROBOT 16 (tempCoeffs Board.DFROBOT)
      { FreeIMU.new Board.DFROBOT none (blankMemory : FreeIMU ℚ) with gyro_off_x := 5 }
      sampleReadings sampleValues).2.v3 ≠ (sampleReadings : Readings ℚ).gyroRate_x - 5 := by
  have h := (getValues_gyro_ITG Board.DFROBOT 16 (tempCoeffs Board.DFROBOT)
    { FreeIMU.new Board.DFROBOT none (blankMemory : FreeIMU ℚ) with gyro_off_x := 5 }
    sampleReadings sampleValues rfl).1
  refine ⟨rfl, h, ?_⟩
  rw [h]
  norm_num [sampleReadings]


/-- C6 (amended). Temperature compensation, inactive branch: when compensation is disabled, or
enabled with the temperature not below the break, the polynomial correction of all nine
channels is zero, and the accelerometer and magnetometer values receive only the static
offset/scale calibration. When compensation is disabled, on the MPU path the amount
subtracted from each raw gyroscope channel is exactly the static gyro bias
`(gyro_off_x, gyro_off_y, gyro_off_z)`; on the ITG3200 path `getValues` subtracts nothing from
the gyroscope values the driver supplies. -/
theorem C6_inactive_branch {F : Type} [LinearOrderedField F]
    (board : Board) (intBits : Nat) (c : Coeffs F) (s : FreeIMU F) (r : Readings F)
    (values : Values F)
    (hoff : s.temp_corr_on ≠ 1 ∨
      (s.temp_corr_on = 1 ∧
        ¬ (if board.HAS_ITG3200 = true then r.senTemp < s.senTemp_break
           else r.temperature < s.temp_break))) :
    (∀ i, acgyro_corr board intBits c s r i = 0) ∧
    (getValues board intBits c s r values).2.v0 =
      ((r.acc_x : F) - (s.acc_off_x : F)) / s.acc_scale_x ∧
    (getValues board intBits c s r values).2.v1 =
      ((r.acc_y : F) - (s.acc_off_y : F)) / s.acc_scale_y ∧
    (getValues board intBits c s r values).2.v2 =
      ((r.acc_z : F) - (s.acc_off_z : F)) / s.acc_scale_z ∧
    (board.HAS_HMC5883L = true →
      (getValues board intBits c s r values).2.v6 =
        (r.magn_x - (s.magn_off_x : F)) / s.magn_scale_x ∧
      (getValues board intBits c s r values).2.v7 =
        (r.magn_y - (s.magn_off_y : F)) / s.magn_scale_y ∧
      (getValues board intBits c s r values).2.v8 =
        (r.magn_z - (s.magn_off_z : F)) / s.magn_scale_z) ∧
    (s.temp_corr_on ≠ 1 → board.HAS_ITG3200 = false →
      (getValues board intBits c s r values).2.v3 =
        ((r.gyro_x : F) - (s.gyro_off_x : F)) / 16.4 ∧
      (getValues board intBits c s r values).2.v4 =
        ((r.gyro_y : F) - (s.gyro_off_y : F)) / 16.4 ∧
      (getValues board intBits c s r values).2.v5 =
        ((r.gyro_z : F) - (s.gyro_off_z : F)) / 16.4) ∧
    (board.HAS_ITG3200 = true →
      (getValues board intBits c s r values).2.v3 = r.gyroRate_x ∧
      (getValues board intBits c s r values).2.v4 = r.gyroRate_y ∧
      (getValues board intBits c s r values).2.v5 = r.gyroRate_z) := by
  have hcorr : ∀ i, acgyro_corr board intBits c s r i = 0 := by
    intro i
    simp only [acgyro_corr]
    rcases hoff with h | ⟨h1, h2⟩
    · simp only [h, if_false]
      split_ifs <;> rfl
    · by_cases hb : board.HAS_ITG3200 = true
      · simp only [hb, if_true] at h2 ⊢
        simp only [h1, h2, if_true, if_false]
      · have hb' : board.HAS_ITG3200 = false := by simpa using hb
        simp only [hb', Bool.false_eq_true, if_false] at h2 ⊢
        simp only [h1, h2, if_true, if_false]
  have hacc := getValues_acc board intBits c s r values
  simp only [hcorr, sub_zero] at hacc
  refine ⟨hcorr, hacc.1, hacc.2.1, hacc.2.2, ?_, ?_, ?_⟩
  · intro hm
    have h := getValues_magn board intBits c s r values hm
    simp only [hcorr, sub_zero, ite_self] at h
    exact h
  · intro hon hb
    have h := getValues_gyro_MPU board intBits c s r values hb
    simp only [hon, if_false] at h
    exact h
  · intro hb
    exact getValues_gyro_ITG board intBits c s r values hb


/-- C6, instance: the constructed state of an MPU board (compensation is off by default). -/
theorem C6_inactive_branch_witness :
    ((FreeIMU.new Board.FREEIMU_v04 none (blankMemory : FreeIMU ℚ)).temp_corr_on ≠ 1 ∨
      ((FreeIMU.new Board.FREEIMU_v04 none (blankMemory : FreeIMU ℚ)).temp_corr_on = 1 ∧
        ¬ (if Board.FREEIMU_v04.HAS_ITG3200 = true then
            (sampleReadings : Readings ℚ).senTemp <
              (FreeIMU.new Board.FREEIMU_v04 none (blankMemory : FreeIMU ℚ)).senTemp_break
           else (sampleReadings : Readings ℚ).temperature <
              (FreeIMU.new Board.FREEIMU_v04 none (blankMemory : FreeIMU ℚ)).temp_break))) ∧
    (∀ i, acgyro_corr Board.FREEIMU_v04 32 (tempCoeffs Board.FREEIMU_v04)
      (FreeIMU.new Board.FREEIMU_v04 none (blankMemory : FreeIMU ℚ)) sampleReadings i = 0) :=
  have h : (FreeIMU.new Board.FREEIMU_v04 none (blankMemory : FreeIMU ℚ)).temp_corr_on ≠ 1 ∨
      ((FreeIMU.new Board.FREEIMU_v04 none (blankMemory : FreeIMU ℚ)).temp_corr_on = 1 ∧
        ¬ (if Board.FREEIMU_v04.HAS_ITG3200 = true then
            (sampleReadings : Readings ℚ).senTemp <
              (FreeIMU.new Board.FREEIMU_v04 none (blankMemory : FreeIMU ℚ)).senTemp_break
           else (sampleReadings : Readings ℚ).temperature <
              (FreeIMU.new Board.FREEIMU_v04 none (blankMemory : FreeIMU ℚ)).temp_break)) :=
    Or.inl (by decide)
  ⟨h, (C6_inactive_branch Board.FREEIMU_v04 32 (tempCoeffs Board.FREEIMU_v04)
    (FreeIMU.new Board.FREEIMU_v04 none blankMemory) sampleReadings sampleValues h).1⟩


/-- C7, counterexample to the claim as stated: on `parityStream`, whose consecutive window
averages always differ by one bit, `initGyros` from the constructed state reads
`825 = 11 * 75` samples, that is eleven calls of `zeroGyro` (rounds `j = 0..10`), not ten. -/
theorem C7_counterexample :
    (∃ s' : FreeIMU ℝ,
      initGyros Board.DFROBOT true Real.sqrt (ToRad 0.1) parityStream { x := 0, y := 0, z := 0 }
        11 (FreeIMU.new Board.DFROBOT none blankMemory) 0 = some (s', 825)) ∧
    (zeroGyro Board.DFROBOT true (parityStream : Nat → RawSample ℝ)
        (FreeIMU.new Board.DFROBOT none blankMemory) 0).2 = 75 ∧
    10 * 75 < 825 := by
  refine ⟨?_, ?_, by norm_num⟩
  · obtain ⟨s', h, -⟩ := initGyros_eq_spec Board.DFROBOT true Real.sqrt (ToRad 0.1)
      (parityStream : Nat → RawSample ℝ) { x := 0, y := 0, z := 0 } 11 (le_refl _)
      (FreeIMU.new Board.DFROBOT none blankMemory) 0
    refine ⟨s', ?_⟩
    rw [h, new_nsamples]
    simp only [specRounds, parity_firstConverged]
    rfl
  · have h := (zeroGyro_spec Board.DFROBOT true (parityStream : Nat → RawSample ℝ)
      (FreeIMU.new Board.DFROBOT none blankMemory) 0 0).1
    rw [new_nsamples] at h
    simpa using h


/-- C7 (amended). Calibration round bound: for every raw gyro stream `initGyros` terminates
(every fuel of at least 11 gives the same result) after at most 11 window-averaging rounds
(calls of `zeroGyro`, each reading `nsamples = 75` samples: the seeding round 0 and up to ten
comparison rounds 1..10); it stops right after the first round `j` in 1..10 whose difference
norm is below the threshold, having run `j + 1` rounds, and runs all 11 when there is none. -/
theorem C7_calibration_round_bound {F : Type} [LinearOrderedField F] [FloorRing F]
    (board : Board) (avr : Bool) (sqrt : F → F) (thr : F) (raw : Nat → RawSample F)
    (best0 : Vector3f F) (s : FreeIMU F) (pos : Nat) (hn : s.nsamples = 75) :
    ∃ (s' : FreeIMU F) (rounds : Nat),
      (∀ fuel, 11 ≤ fuel →
        initGyros board avr sqrt thr raw best0 fuel s pos = some (s', pos + rounds * 75)) ∧
      (zeroGyro board avr raw s pos).2 = pos + 75 ∧
      rounds ≤ 11 ∧
      (∀ j, 1 ≤ j → j ≤ 10 → diffNorm sqrt (roundAverage raw 75 pos) j < thr →
        (∀ m, 1 ≤ m → m < j → ¬ diffNorm sqrt (roundAverage raw 75 pos) m < thr) →
        rounds = j + 1) ∧
      ((∀ m, 1 ≤ m → m ≤ 10 → ¬ diffNorm sqrt (roundAverage raw 75 pos) m < thr) →
        rounds = 11) := by
  obtain ⟨s', h, -⟩ := initGyros_eq_spec board avr sqrt thr raw best0 11 (le_refl _) s pos
  rw [hn] at h
  refine ⟨s', specRounds sqrt thr (roundAverage raw 75 pos), ?_, ?_, ?_, ?_, ?_⟩
  · intro fuel hfuel
    rw [initGyros_fuel board avr sqrt thr raw best0 fuel hfuel, h]
    rfl
  · have hz := (zeroGyro_spec board avr raw s pos 0).1
    rw [hn] at hz
    simpa using hz
  · simp only [specRounds]
    cases hfc : firstConverged sqrt thr (roundAverage raw 75 pos) with
    | none => exact le_refl _
    | some j =>
      have := ((firstConverged_eq_some sqrt thr _ j).mp hfc).2.1
      simp only
      omega
  · intro j h1 h2 h3 h4
    have hfc := (firstConverged_eq_some sqrt thr (roundAverage raw 75 pos) j).mpr ⟨h1, h2, h3, h4⟩
    simp only [specRounds, hfc]
  · intro hall
    have hfc := (firstConverged_eq_none sqrt thr (roundAverage raw 75 pos)).mpr hall
    simp only [specRounds, hfc]


/-- C7, instance: the constructed state of the default board on `alternatingStream`. -/
theorem C7_calibration_round_bound_witness :
    (FreeIMU.new Board.DFROBOT none (blankMemory : FreeIMU ℝ)).nsamples = 75 ∧
    ∃ (s' : FreeIMU ℝ) (rounds : Nat),
      (∀ fuel, 11 ≤ fuel →
        initGyros Board.DFROBOT true Real.sqrt (ToRad 0.1) alternatingStream
          { x := 0, y := 0, z := 0 } fuel (FreeIMU.new Board.DFROBOT none blankMemory) 0
          = some (s', 0 + rounds * 75)) ∧
      rounds ≤ 11 :=
  ⟨new_nsamples _ _ _,
   (C7_calibration_round_bound Board.DFROBOT true Real.sqrt (ToRad 0.1) alternatingStream
      { x := 0, y := 0, z := 0 } (FreeIMU.new Board.DFROBOT none blankMemory) 0
      (new_nsamples _ _ _)).imp fun _ h => h.imp fun _ h' => ⟨h'.1, h'.2.2.1⟩⟩


/-- C8, counterexample to the claim as stated: on `parityStream` no round converges and the
best average is the blend `(10.5, 0, 0)` of rounds 0 and 1, but the bias that `initGyros`
stores in the `int16_t` member `gyro_off_x` is 10. -/
theorem C8_counterexample :
    ∃ (s' : FreeIMU ℝ) (p : Nat),
      initGyros Board.DFROBOT true Real.sqrt (ToRad 0.1) parityStream { x := 0, y := 0, z := 0 }
        11 (FreeIMU.new Board.DFROBOT none blankMemory) 0 = some (s', p) ∧
      firstConverged Real.sqrt (ToRad 0.1)
        (roundAverage (parityStream : Nat → RawSample ℝ) 75 0) = none ∧
      (bestAverage Real.sqrt (roundAverage (parityStream : Nat → RawSample ℝ) 75 0) 10).x
        = 21 / 2 ∧
      s'.gyro_off_x = 10 ∧ ((s'.gyro_off_x : Int) : ℝ) ≠ 21 / 2 := by
  obtain ⟨s', h, hx, -, -⟩ := initGyros_eq_spec Board.DFROBOT true Real.sqrt (ToRad 0.1)
    (parityStream : Nat → RawSample ℝ) { x := 0, y := 0, z := 0 } 11 (le_refl _)
    (FreeIMU.new Board.DFROBOT none blankMemory) 0
  rw [new_nsamples, parity_specBias] at hx
  have hfloor : floatToInt16 ((21 : ℝ) / 2) = 10 := by
    have hpos : (0 : ℝ) ≤ 21 / 2 := by norm_num
    simp only [floatToInt16, hpos, if_true]
    rw [Int.floor_eq_iff]; constructor <;> norm_num
  simp only at hx
  rw [hfloor] at hx
  have hb : (bestAverage Real.sqrt (roundAverage (parityStream : Nat → RawSample ℝ) 75 0) 10).x
      = 21 / 2 := by
    have := parity_specBias
    simp only [specBias, parity_firstConverged] at this
    rw [this]
  refine ⟨s', _, h, parity_firstConverged, hb, hx, ?_⟩
  rw [hx]; norm_num


/-- C8 (amended). Result of `initGyros` as a function of the round averages `a_0, a_1, …`:
round 0 seeds best-difference and best-average with its own values; if `j ≥ 1` is the first
round whose difference norm is below the threshold, no further round is run and the bias is
taken from the blend `(a_j + a_(j-1))/2`; if no round converges within rounds 1..10 the bias
is taken from the best average, which is the seed `a_0` or else the blend of the pair at the
last round whose difference norm was strictly smaller than every best difference seen
before. In both cases the value stored in the `int16_t` members `gyro_off_*` is that vector
truncated toward zero, and no failure is reported. -/
theorem C8_initGyros_result {F : Type} [LinearOrderedField F] [FloorRing F]
    (board : Board) (avr : Bool) (sqrt : F → F) (thr : F) (raw : Nat → RawSample F)
    (best0 : Vector3f F) (fuel : Nat) (s : FreeIMU F) (pos : Nat) (hfuel : 11 ≤ fuel) :
    ∃ (s' : FreeIMU F) (pos' : Nat) (bias : Vector3f F),
      initGyros board avr sqrt thr raw best0 fuel s pos = some (s', pos') ∧
      s'.gyro_off_x = floatToInt16 bias.x ∧ s'.gyro_off_y = floatToInt16 bias.y ∧
      s'.gyro_off_z = floatToInt16 bias.z ∧
      bestDiffSeen sqrt (roundAverage raw s.nsamples pos) 0
        = diffNorm sqrt (roundAverage raw s.nsamples pos) 0 ∧
      bestAverage sqrt (roundAverage raw s.nsamples pos) 0 = roundAverage raw s.nsamples pos 0 ∧
      (∀ j, 1 ≤ j → j ≤ 10 → diffNorm sqrt (roundAverage raw s.nsamples pos) j < thr →
        (∀ m, 1 ≤ m → m < j → ¬ diffNorm sqrt (roundAverage raw s.nsamples pos) m < thr) →
        bias = Vector3f.blend (roundAverage raw s.nsamples pos j)
          (roundAverage raw s.nsamples pos (j - 1)) ∧
        pos' = pos + (j + 1) * s.nsamples.toNat) ∧
      ((∀ m, 1 ≤ m → m ≤ 10 → ¬ diffNorm sqrt (roundAverage raw s.nsamples pos) m < thr) →
        pos' = pos + 11 * s.nsamples.toNat ∧
        (∀ j, 1 ≤ j → j ≤ 10 → improves sqrt (roundAverage raw s.nsamples pos) j →
          (∀ i, j < i → i ≤ 10 → ¬ improves sqrt (roundAverage raw s.nsamples pos) i) →
          bias = Vector3f.blend (roundAverage raw s.nsamples pos j)
            (roundAverage raw s.nsamples pos (j - 1))) ∧
        ((∀ j, 1 ≤ j → j ≤ 10 → ¬ improves sqrt (roundAverage raw s.nsamples pos) j) →
          bias = roundAverage raw s.nsamples pos 0)) := by
  obtain ⟨s', h, hx, hy, hz⟩ := initGyros_eq_spec board avr sqrt thr raw best0 fuel hfuel s pos
  refine ⟨s', _, specBias sqrt thr (roundAverage raw s.nsamples pos), h, hx, hy, hz, rfl, rfl,
    ?_, ?_⟩
  · intro j h1 h2 h3 h4
    have hfc := (firstConverged_eq_some sqrt thr _ j).mpr ⟨h1, h2, h3, h4⟩
    obtain ⟨k, rfl⟩ : ∃ k, j = k + 1 := ⟨j - 1, by omega⟩
    simp only [specBias, specRounds, hfc, lastAverage, Nat.add_sub_cancel, and_self]
  · intro hall
    have hfc := (firstConverged_eq_none sqrt thr _).mpr hall
    refine ⟨by simp only [specRounds, hfc], ?_, ?_⟩
    · intro j h1 h2 h3 h4
      obtain ⟨k, rfl⟩ : ∃ k, j = k + 1 := ⟨j - 1, by omega⟩
      simp only [specBias, hfc, bestAverage,
        lastImproving_eq_some sqrt _ 10 (k + 1) h1 h2 h3 h4, lastAverage, Nat.add_sub_cancel]
    · intro hnone
      simp only [specBias, hfc, bestAverage, lastImproving_eq_none sqrt _ 10 hnone]


/-- C8, instance: fuel 11 on `alternatingStream` from the constructed state. -/
theorem C8_initGyros_result_witness :
    (11 ≤ 11) ∧
    ∃ (s' : FreeIMU ℝ) (pos' : Nat) (bias : Vector3f ℝ),
      initGyros Board.DFROBOT true Real.sqrt (ToRad 0.1) alternatingStream
        { x := 0, y := 0, z := 0 } 11 (FreeIMU.new Board.DFROBOT none blankMemory) 0
        = some (s', pos') ∧
      s'.gyro_off_x = floatToInt16 bias.x :=
  ⟨le_refl _,
   (C8_initGyros_result Board.DFROBOT true Real.sqrt (ToRad 0.1) alternatingStream
      { x := 0, y := 0, z := 0 } 11 (FreeIMU.new Board.DFROBOT none blankMemory) 0
      (le_refl _)).imp fun _ h => h.imp fun _ h' => h'.imp fun _ h'' => ⟨h''.1, h''.2.1⟩⟩


/-- C9, counterexample to the claim as stated: `alternatingStream` is stationary with mean
one half on every axis and noise of half a bit, `initGyros` converges at round 1, and the bias
it stores is `(0, 0, 0)`: half a bit from the mean, not within 0.1. -/
theorem C9_counterexample :
    BoundedNoise (alternatingStream : Nat → RawSample ℝ) { x := 1 / 2, y := 1 / 2, z := 1 / 2 }
      (1 / 2) ∧
    ∃ (s' : FreeIMU ℝ) (p : Nat),
      initGyros Board.DFROBOT true Real.sqrt (ToRad 0.1) alternatingStream
        { x := 0, y := 0, z := 0 } 11 (FreeIMU.new Board.DFROBOT none blankMemory) 0
        = some (s', p) ∧
      s'.gyro_off_x = 0 ∧ ¬ |((s'.gyro_off_x : Int) : ℝ) - 1 / 2| ≤ 0.1 := by
  constructor
  · intro i
    have hmod : i % 2 = 0 ∨ i % 2 = 1 := Nat.mod_two_eq_zero_or_one i
    simp only [alternatingStream]
    rcases hmod with h | h <;> rw [h] <;> norm_num [abs_le]
  · obtain ⟨s', h, hx, -, -⟩ := initGyros_eq_spec Board.DFROBOT true Real.sqrt (ToRad 0.1)
      (alternatingStream : Nat → RawSample ℝ) { x := 0, y := 0, z := 0 } 11 (le_refl _)
      (FreeIMU.new Board.DFROBOT none blankMemory) 0
    rw [new_nsamples, alternating_specBias] at hx
    have h0 : floatToInt16 (0 : ℝ) = 0 := by simp [floatToInt16]
    simp only at hx
    rw [h0] at hx
    refine ⟨s', _, h, hx, ?_⟩
    rw [hx]
    norm_num [abs_le]


/-- C9 (amended). Calibration accuracy: for every raw gyro stream whose integer samples stay
within `δ` of a mean `μ` on every axis, `initGyros` returns within the round bound (at most 11
windows are read) and the bias it stores in `(gyro_off_x, gyro_off_y, gyro_off_z)` is within
`δ` raw bits of the mean on every axis: the noise bound of the stream, not the convergence
tolerance of 0.1. -/
theorem C9_calibration_accuracy {F : Type} [LinearOrderedField F] [FloorRing F]
    (board : Board) (avr : Bool) (sqrt : F → F) (thr : F) (raw : Nat → RawSample F)
    (best0 : Vector3f F) (s : FreeIMU F) (pos : Nat) (μ : Vector3f F) (δ : F)
    (hn : 0 < s.nsamples) (hnoise : BoundedNoise raw μ δ) :
    ∃ (s' : FreeIMU F) (pos' : Nat),
      (∀ fuel, 11 ≤ fuel → initGyros board avr sqrt thr raw best0 fuel s pos = some (s', pos')) ∧
      pos' ≤ pos + 11 * s.nsamples.toNat ∧
      |((s'.gyro_off_x : Int) : F) - μ.x| ≤ δ ∧
      |((s'.gyro_off_y : Int) : F) - μ.y| ≤ δ ∧
      |((s'.gyro_off_z : Int) : F) - μ.z| ≤ δ := by
  obtain ⟨s', h, hx, hy, hz⟩ := initGyros_eq_spec board avr sqrt thr raw best0 11 (le_refl _)
    s pos
  obtain ⟨i, j, bx, by', bz⟩ := specBias_blend sqrt thr (roundAverage raw s.nsamples pos)
  obtain ⟨⟨ix, iy, iz, hi⟩, cix, ciy, ciz⟩ :=
    roundAverage_within raw μ δ hnoise s.nsamples hn pos i
  obtain ⟨⟨jx, jy, jz, hj⟩, cjx, cjy, cjz⟩ :=
    roundAverage_within raw μ δ hnoise s.nsamples hn pos j
  rw [hi] at cix ciy ciz bx by' bz
  rw [hj] at cjx cjy cjz bx by' bz
  simp only at cix ciy ciz cjx cjy cjz bx by' bz
  refine ⟨s', pos + specRounds sqrt thr (roundAverage raw s.nsamples pos) * s.nsamples.toNat,
    ?_, ?_, ?_, ?_, ?_⟩
  · intro fuel hfuel
    rw [initGyros_fuel board avr sqrt thr raw best0 fuel hfuel, h]
  · have hr : specRounds sqrt thr (roundAverage raw s.nsamples pos) ≤ 11 := by
      simp only [specRounds]
      cases hfc : firstConverged sqrt thr (roundAverage raw s.nsamples pos) with
      | none => exact le_refl _
      | some j =>
        have := ((firstConverged_eq_some sqrt thr _ j).mp hfc).2.1
        simp only
        omega
    exact Nat.add_le_add_left (Nat.mul_le_mul_right _ hr) _
  · rw [hx, bx]; exact floatToInt16_blend_within ix jx μ.x δ cix cjx
  · rw [hy, by']; exact floatToInt16_blend_within iy jy μ.y δ ciy cjy
  · rw [hz, bz]; exact floatToInt16_blend_within iz jz μ.z δ ciz cjz


/-- C9, instance: `alternatingStream` with mean one half and noise bound one half, from the
constructed state of the default board: the stored bias is within one half of the mean. -/
theorem C9_calibration_accuracy_witness :
    (0 < (FreeIMU.new Board.DFROBOT none (blankMemory : FreeIMU ℝ)).nsamples) ∧
    BoundedNoise (alternatingStream : Nat → RawSample ℝ) { x := 1 / 2, y := 1 / 2, z := 1 / 2 }
      (1 / 2) ∧
    ∃ (s' : FreeIMU ℝ) (pos' : Nat),
      (∀ fuel, 11 ≤ fuel →
        initGyros Board.DFROBOT true Real.sqrt (ToRad 0.1) alternatingStream
          { x := 0, y := 0, z := 0 } fuel (FreeIMU.new Board.DFROBOT none blankMemory) 0
          = some (s', pos')) ∧
      |((s'.gyro_off_x : Int) : ℝ) - 1 / 2| ≤ 1 / 2 :=
  have hn : 0 < (FreeIMU.new Board.DFROBOT none (blankMemory : FreeIMU ℝ)).nsamples := by
    rw [new_nsamples]; decide
  have hb : BoundedNoise (alternatingStream : Nat → RawSample ℝ)
      { x := 1 / 2, y := 1 / 2, z := 1 / 2 } (1 / 2) := by
    intro i
    have hmod : i % 2 = 0 ∨ i % 2 = 1 := Nat.mod_two_eq_zero_or_one i
    simp only [alternatingStream]
    rcases hmod with h | h <;> rw [h] <;> norm_num [abs_le]
  ⟨hn, hb,
   (C9_calibration_accuracy Board.DFROBOT true Real.sqrt (ToRad 0.1) alternatingStream
      { x := 0, y := 0, z := 0 } (FreeIMU.new Board.DFROBOT none blankMemory) 0
      { x := 1 / 2, y := 1 / 2, z := 1 / 2 } (1 / 2) hn hb).imp
      fun _ h => h.imp fun _ h' => ⟨h'.1, h'.2.2.1⟩⟩


/-- C10, counterexample to the claim as stated: `getQ` on the constructed state of a 6-axis
board at time 10000 µs moves the sample clock (`lastUpdate` from 0 to 10000, `sampleFreq` to
100 Hz); the query is not free of effects on the state. -/
theorem C10_counterexample :
    (FreeIMU.new Board.GEN_MPU6050 none (blankMemory : FreeIMU ℚ)).lastUpdate = 0 ∧
    (getQ Board.GEN_MPU6050 false 16 sampleMathLib (tempCoeffs Board.GEN_MPU6050)
      (FreeIMU.new Board.GEN_MPU6050 none blankMemory) sampleReadings 10000 sampleValues
      { x := 0, y := 0, z := 0 }).1.lastUpdate = 10000 ∧
    (getQ Board.GEN_MPU6050 false 16 sampleMathLib (tempCoeffs Board.GEN_MPU6050)
      (FreeIMU.new Board.GEN_MPU6050 none blankMemory) sampleReadings 10000 sampleValues
      { x := 0, y := 0, z := 0 }).1.sampleFreq = 100 := by
  obtain ⟨h1, -, h3⟩ := getQ_clock Board.GEN_MPU6050 false 16 sampleMathLib
    (tempCoeffs Board.GEN_MPU6050) (FreeIMU.new Board.GEN_MPU6050 none blankMemory)
    sampleReadings 10000 sampleValues { x := 0, y := 0, z := 0 }
  refine ⟨rfl, ?_, ?_⟩
  · rw [h1]; norm_num
  · rw [h3]
    have : (FreeIMU.new Board.GEN_MPU6050 none (blankMemory : FreeIMU ℚ)).lastUpdate = 0 := rfl
    rw [this]
    norm_num


/-- C10 (amended). The derived-angle queries: `getQ` reads the sensors (`getValues`), sets
`lastUpdate` and `now` to the current time and `sampleFreq` to the reciprocal of the elapsed
seconds, then runs one `AHRSupdate` step on the sensor values, with the magnetometer axes as
compiled for the board (every board falls under one of five variants; for `SEN_10183` no call
is compiled and the quaternion and integrator stay as they were), and returns the quaternion
the object holds after the call; `getEulerRad` and `getYawPitchRollRad` have the state effect
of `getQ` and their angles are functions (`eulerAngles`, `yawPitchRoll`) of the quaternion
returned by that call alone; `getEuler` and `getYawPitchRoll` are their conversions to
degrees. -/
theorem C10_queries_follow_updated_quaternion {F : Type} [LinearOrderedField F]
    (board : Board) (DISABLE_MAGN : Bool) (intBits : Nat) (m : MathLib F) (c : Coeffs F)
    (s : FreeIMU F) (r : Readings F) (micros : Nat) (val0 : Values F) (h0 : Vector3f F) :
    (getQ board DISABLE_MAGN intBits m c s r micros val0 h0).2 =
      ((getQ board DISABLE_MAGN intBits m c s r micros val0 h0).1.q0,
       (getQ board DISABLE_MAGN intBits m c s r micros val0 h0).1.q1,
       (getQ board DISABLE_MAGN intBits m c s r micros val0 h0).1.q2,
       (getQ board DISABLE_MAGN intBits m c s r micros val0 h0).1.q3) ∧
    (getQ board DISABLE_MAGN intBits m c s r micros val0 h0).1.lastUpdate = micros % 2 ^ 32 ∧
    (getQ board DISABLE_MAGN intBits m c s r micros val0 h0).1.now = micros % 2 ^ 32 ∧
    getEulerRad board DISABLE_MAGN intBits m c s r micros val0 h0 =
      ((getQ board DISABLE_MAGN intBits m c s r micros val0 h0).1,
       eulerAngles m (getQ board DISABLE_MAGN intBits m c s r micros val0 h0).2) ∧
    getEuler board DISABLE_MAGN intBits m c s r micros val0 h0 =
      ((getQ board DISABLE_MAGN intBits m c s r micros val0 h0).1,
       arr3_rad_to_deg m
         (eulerAngles m (getQ board DISABLE_MAGN intBits m c s r micros val0 h0).2)) ∧
    getYawPitchRollRad board DISABLE_MAGN intBits m c s r micros val0 h0 =
      ((getQ board DISABLE_MAGN intBits m c s r micros val0 h0).1,
       yawPitchRoll m (getQ board DISABLE_MAGN intBits m c s r micros val0 h0).2) ∧
    getYawPitchRoll board DISABLE_MAGN intBits m c s r micros val0 h0 =
      ((getQ board DISABLE_MAGN intBits m c s r micros val0 h0).1,
       arr3_rad_to_deg m
         (yawPitchRoll m (getQ board DISABLE_MAGN intBits m c s r micros val0 h0).2)) ∧
    (getQ board DISABLE_MAGN intBits m c s r micros val0 h0).1.sampleFreq =
      1 / elapsedSeconds s.lastUpdate micros ∧
    (clockUpdate (getValues board intBits c s r val0).1 micros).sampleFreq =
      1 / elapsedSeconds s.lastUpdate micros ∧
    ((board.IS_9DOM = true ∧ board.HAS_AXIS_ALIGNED = true) ∨ board = Board.SEN_10724 ∨
      board = Board.ARDUIMU_v3 ∨ board = Board.SEN_10183 ∨ board.IS_9DOM = false) ∧
    (board.IS_9DOM = true → board.HAS_AXIS_ALIGNED = true →
      (getQ board DISABLE_MAGN intBits m c s r micros val0 h0).1 =
        AHRSupdate (!DISABLE_MAGN)
          (invSqrt m.floatBits m.floatOfBits m.sqrt
            (getValues board intBits c s r val0).1.instability_fix) m.sqrt
          (clockUpdate (getValues board intBits c s r val0).1 micros) h0
          ((getValues board intBits c s r val0).2.v3 * m.M_PI / 180)
          ((getValues board intBits c s r val0).2.v4 * m.M_PI / 180)
          ((getValues board intBits c s r val0).2.v5 * m.M_PI / 180)
          (getValues board intBits c s r val0).2.v0 (getValues board intBits c s r val0).2.v1
          (getValues board intBits c s r val0).2.v2 (getValues board intBits c s r val0).2.v6
          (getValues board intBits c s r val0).2.v7 (getValues board intBits c s r val0).2.v8) ∧
    (board = Board.SEN_10724 →
      (getQ board DISABLE_MAGN intBits m c s r micros val0 h0).1 =
        AHRSupdate (!DISABLE_MAGN)
          (invSqrt m.floatBits m.floatOfBits m.sqrt
            (getValues board intBits c s r val0).1.instability_fix) m.sqrt
          (clockUpdate (getValues board intBits c s r val0).1 micros) h0
          ((getValues board intBits c s r val0).2.v3 * m.M_PI / 180)
          ((getValues board intBits c s r val0).2.v4 * m.M_PI / 180)
          ((getValues board intBits c s r val0).2.v5 * m.M_PI / 180)
          (getValues board intBits c s r val0).2.v0 (getValues board intBits c s r val0).2.v1
          (getValues board intBits c s r val0).2.v2 (getValues board intBits c s r val0).2.v7
          (-(getValues board intBits c s r val0).2.v6)
          (getValues board intBits c s r val0).2.v8) ∧
    (board = Board.ARDUIMU_v3 →
      (getQ board DISABLE_MAGN intBits m c s r micros val0 h0).1 =
        AHRSupdate (!DISABLE_MAGN)
          (invSqrt m.floatBits m.floatOfBits m.sqrt
            (getValues board intBits c s r val0).1.instability_fix) m.sqrt
          (clockUpdate (getValues board intBits c s r val0).1 micros) h0
          ((getValues board intBits c s r val0).2.v3 * m.M_PI / 180)
          ((getValues board intBits c s r val0).2.v4 * m.M_PI / 180)
          ((getValues board intBits c s r val0).2.v5 * m.M_PI / 180)
          (getValues board intBits c s r val0).2.v0 (getValues board intBits c s r val0).2.v1
          (getValues board intBits c s r val0).2.v2
          (-(getValues board intBits c s r val0).2.v6)
          (-(getValues board intBits c s r val0).2.v7)
          (getValues board intBits c s r val0).2.v8) ∧
    (board = Board.SEN_10183 →
      (getQ board DISABLE_MAGN intBits m c s r micros val0 h0).1 =
        clockUpdate (getValues board intBits c s r val0).1 micros) ∧
    (board.IS_9DOM = false →
      (getQ board DISABLE_MAGN intBits m c s r micros val0 h0).1 =
        AHRSupdate false
          (invSqrt m.floatBits m.floatOfBits m.sqrt
            (getValues board intBits c s r val0).1.instability_fix) m.sqrt
          (clockUpdate (getValues board intBits c s r val0).1 micros) h0
          ((getValues board intBits c s r val0).2.v3 * m.M_PI / 180)
          ((getValues board intBits c s r val0).2.v4 * m.M_PI / 180)
          ((getValues board intBits c s r val0).2.v5 * m.M_PI / 180)
          (getValues board intBits c s r val0).2.v0 (getValues board intBits c s r val0).2.v1
          (getValues board intBits c s r val0).2.v2 0 0 0) := by
  obtain ⟨h1, h2, -⟩ := getQ_clock board DISABLE_MAGN intBits m c s r micros val0 h0
  refine ⟨rfl, h1, h2, rfl, rfl, ?_, ?_, getQ_sampleFreq _ _ _ _ _ _ _ _ _ _,
    clockUpdate_getValues_sampleFreq _ _ _ _ _ _ _, board_getQ_variant board,
    getQ_cases board DISABLE_MAGN intBits m c s r micros val0 h0⟩
  · simp only [getYawPitchRollRad, yawPitchRoll]
  · simp only [getYawPitchRoll, getYawPitchRollRad, yawPitchRoll]

/-- C10, instance: on board `SEN_10183` the call at 10000 µs from the constructed state only
reads the sensors and moves the clock. -/
theorem C10_queries_follow_updated_quaternion_witness :
    (Board.SEN_10183 = Board.SEN_10183) ∧
    (getQ Board.SEN_10183 false 16 sampleMathLib (tempCoeffs Board.SEN_10183)
      (FreeIMU.new Board.SEN_10183 none blankMemory) sampleReadings 10000 sampleValues
      { x := 0, y := 0, z := 0 }).1 =
      clockUpdate (getValues Board.SEN_10183 16 (tempCoeffs Board.SEN_10183)
        (FreeIMU.new Board.SEN_10183 none blankMemory) sampleReadings sampleValues).1 10000 :=
  ⟨rfl,
   (C10_queries_follow_updated_quaternion Board.SEN_10183 false 16 sampleMathLib
      (tempCoeffs Board.SEN_10183) (FreeIMU.new Board.SEN_10183 none blankMemory) sampleReadings
      10000 sampleValues { x := 0, y := 0, z := 0 }).2.2.2.2.2.2.2.2.2.2.2.2.2.1 rfl⟩


/-- C11. Euler extraction follows the aerospace Z-Y-X sequence: over the reals, for every yaw
`ψ` and roll `φ` in `(-π, π)` and every pitch `θ` in `(-π/2, π/2)`, the three angle formulas of
`getEulerRad`, applied to the conjugate `(w, -x, -y, -z)` of the Hamilton product
`qz(ψ) * qy(θ) * qx(φ)`, return exactly `(ψ, θ, φ)`; and `getEulerRad` applies these formulas
to the quaternion its `getQ` call returns. -/
theorem C11_euler_aerospace_sequence (m : MathLib ℝ) (hm : m.IsReal) (ψ θ φ : ℝ)
    (hψ : -Real.pi < ψ ∧ ψ < Real.pi) (hθ : -(Real.pi / 2) < θ ∧ θ < Real.pi / 2)
    (hφ : -Real.pi < φ ∧ φ < Real.pi) :
    eulerAngles m (specConjugate (specElementaryProduct
      (Real.cos (ψ / 2)) (Real.sin (ψ / 2)) (Real.cos (θ / 2)) (Real.sin (θ / 2))
      (Real.cos (φ / 2)) (Real.sin (φ / 2)))) = { x := ψ, y := θ, z := φ } ∧
    ∀ (board : Board) (DISABLE_MAGN : Bool) (intBits : Nat) (c : Coeffs ℝ) (s : FreeIMU ℝ)
      (r : Readings ℝ) (micros : Nat) (val0 : Values ℝ) (h0 : Vector3f ℝ),
      (getEulerRad board DISABLE_MAGN intBits m c s r micros val0 h0).2 =
        eulerAngles m (getQ board DISABLE_MAGN intBits m c s r micros val0 h0).2 :=
  ⟨eulerAngles_aerospace m hm ψ θ φ hψ.1 hψ.2 hθ.1 hθ.2 hφ.1 hφ.2,
   fun board DISABLE_MAGN intBits c s r micros val0 h0 =>
     getEulerRad_angles board DISABLE_MAGN intBits m c s r micros val0 h0⟩

/-- C11, instance: yaw 1, pitch 1/2, roll -1 (radians) with the real library. -/
theorem C11_euler_aerospace_sequence_witness :
    eulerAngles
      { sqrt := Real.sqrt, atan2 := fun y x => Complex.arg ⟨x, y⟩, asin := Real.arcsin
        atan := Real.arctan, M_PI := Real.pi, floatBits := fun _ => 0
        floatOfBits := fun _ => 0 }
      (specConjugate (specElementaryProduct
        (Real.cos ((1 : ℝ) / 2)) (Real.sin ((1 : ℝ) / 2)) (Real.cos ((1 / 2 : ℝ) / 2))
        (Real.sin ((1 / 2 : ℝ) / 2)) (Real.cos ((-1 : ℝ) / 2)) (Real.sin ((-1 : ℝ) / 2)))) =
      { x := 1, y := 1 / 2, z := -1 } :=
  (C11_euler_aerospace_sequence
    { sqrt := Real.sqrt, atan2 := fun y x => Complex.arg ⟨x, y⟩, asin := Real.arcsin
      atan := Real.arctan, M_PI := Real.pi, floatBits := fun _ => 0
      floatOfBits := fun _ => 0 }
    ⟨rfl, rfl, rfl, rfl, rfl⟩ 1 (1 / 2) (-1)
    ⟨by linarith [Real.pi_gt_three], by linarith [Real.pi_gt_three]⟩
    ⟨by linarith [Real.pi_gt_three], by linarith [Real.pi_gt_three]⟩
    ⟨by linarith [Real.pi_gt_three], by linarith [Real.pi_gt_three]⟩).1

/-- C12. Euler versus yaw-pitch-roll divergence: for the unit quaternion of a combined
45 degree yaw and 45 degree pitch rotation (`qz(π/4) * qy(π/4)`), the pitch and the roll of
the `getEulerRad` formulas both differ from the pitch and the roll of the
`getYawPitchRollRad` formulas, whether the array holds the conjugate (the convention in which
the Euler formulas return 45, 45, 0 degrees) or the product itself. -/
theorem C12_euler_differs_from_yawPitchRoll (m : MathLib ℝ) (hm : m.IsReal) :
    ((eulerAngles m (specConjugate (specElementaryProduct (Real.cos (Real.pi / 8))
        (Real.sin (Real.pi / 8)) (Real.cos (Real.pi / 8)) (Real.sin (Real.pi / 8)) 1 0))).y ≠
      (yawPitchRoll m (specConjugate (specElementaryProduct (Real.cos (Real.pi / 8))
        (Real.sin (Real.pi / 8)) (Real.cos (Real.pi / 8)) (Real.sin (Real.pi / 8)) 1 0))).y ∧
     (eulerAngles m (specConjugate (specElementaryProduct (Real.cos (Real.pi / 8))
        (Real.sin (Real.pi / 8)) (Real.cos (Real.pi / 8)) (Real.sin (Real.pi / 8)) 1 0))).z ≠
      (yawPitchRoll m (specConjugate (specElementaryProduct (Real.cos (Real.pi / 8))
        (Real.sin (Real.pi / 8)) (Real.cos (Real.pi / 8)) (Real.sin (Real.pi / 8)) 1 0))).z) ∧
    ((eulerAngles m (specComponents (specElementaryProduct (Real.cos (Real.pi / 8))
        (Real.sin (Real.pi / 8)) (Real.cos (Real.pi / 8)) (Real.sin (Real.pi / 8)) 1 0))).y ≠
      (yawPitchRoll m (specComponents (specElementaryProduct (Real.cos (Real.pi / 8))
        (Real.sin (Real.pi / 8)) (Real.cos (Real.pi / 8)) (Real.sin (Real.pi / 8)) 1 0))).y ∧
     (eulerAngles m (specComponents (specElementaryProduct (Real.cos (Real.pi / 8))
        (Real.sin (Real.pi / 8)) (Real.cos (Real.pi / 8)) (Real.sin (Real.pi / 8)) 1 0))).z ≠
      (yawPitchRoll m (specComponents (specElementaryProduct (Real.cos (Real.pi / 8))
        (Real.sin (Real.pi / 8)) (Real.cos (Real.pi / 8)) (Real.sin (Real.pi / 8)) 1 0))).z) := by
  have hpi := Real.pi_pos
  obtain ⟨-, -, -, ht, hlt⟩ := eighth_turn_facts
  have hE := eulerAngles_aerospace m hm (Real.pi / 4) (Real.pi / 4) 0 (by linarith)
    (by linarith) (by linarith) (by linarith) (by linarith) (by linarith)
  rw [show Real.pi / 4 / 2 = Real.pi / 8 by ring, zero_div, Real.cos_zero, Real.sin_zero] at hE
  obtain ⟨hAy, hAz⟩ := yaw_pitch_45_conjugate m
  obtain ⟨⟨hBy, hBz⟩, hBey, hBez⟩ := yaw_pitch_45_direct m
  obtain ⟨h30a, h30b⟩ := arctan_thirty_bounds
  obtain ⟨hsqrt, hatan2, hasin, hatan, -⟩ := hm
  refine ⟨⟨?_, ?_⟩, ?_, ?_⟩
  · rw [hE, hAy, hsqrt, hatan]
    exact h30b.ne'
  · rw [hE, hAz, hsqrt, hatan]
    exact h30a.ne
  · rw [hBey, hBy, hsqrt, hatan, hasin]
    have hs : Real.sqrt (0 * 0 + (√2 / 2) * (√2 / 2)) = √2 / 2 := by
      rw [zero_mul, zero_add, Real.sqrt_mul_self (by positivity)]
    have hne : (√2 / 2 : ℝ) ≠ 0 := by positivity
    rw [hs, neg_div, div_self hne, Real.arctan_neg, Real.arctan_one]
    have h : Real.arcsin (1 / 2) < Real.pi / 4 := by
      rw [Real.arcsin_lt_iff_lt_sin ⟨by norm_num, by norm_num⟩
        ⟨by linarith, by linarith⟩, Real.sin_pi_div_four]
      exact hlt
    intro h'
    linarith
  · rw [hBez, hBz, hatan, hatan2, zero_div, Real.arctan_zero]
    intro h
    have := (Complex.arg_eq_zero_iff.mp h).2
    norm_num at this

/-- C12, instance: the real library. -/
theorem C12_euler_differs_from_yawPitchRoll_witness :
    (eulerAngles
        { sqrt := Real.sqrt, atan2 := fun y x => Complex.arg ⟨x, y⟩, asin := Real.arcsin
          atan := Real.arctan, M_PI := Real.pi, floatBits := fun _ => 0
          floatOfBits := fun _ => 0 }
        (specConjugate (specElementaryProduct (Real.cos (Real.pi / 8))
          (Real.sin (Real.pi / 8)) (Real.cos (Real.pi / 8)) (Real.sin (Real.pi / 8)) 1 0))).y ≠
      (yawPitchRoll
        { sqrt := Real.sqrt, atan2 := fun y x => Complex.arg ⟨x, y⟩, asin := Real.arcsin
          atan := Real.arctan, M_PI := Real.pi, floatBits := fun _ => 0
          floatOfBits := fun _ => 0 }
        (specConjugate (specElementaryProduct (Real.cos (Real.pi / 8))
          (Real.sin (Real.pi / 8)) (Real.cos (Real.pi / 8)) (Real.sin (Real.pi / 8)) 1 0))).y :=
  (C12_euler_differs_from_yawPitchRoll
    { sqrt := Real.sqrt, atan2 := fun y x => Complex.arg ⟨x, y⟩, asin := Real.arcsin
      atan := Real.arctan, M_PI := Real.pi, floatBits := fun _ => 0
      floatOfBits := fun _ => 0 }
    ⟨rfl, rfl, rfl, rfl, rfl⟩).1.1


/-- C13. The constructor and `RESET` each establish quaternion `(1,0,0,0)`, feedback
integrator `(0,0,0)` (also the legacy `exInt, eyInt, ezInt`) and gains
`(twoKpDef, twoKiDef)`; `RESET`, applied to any state, leaves the calibration profile
(accelerometer/magnetometer offsets and scales, gyro bias), the temperature-compensation
settings, the `invSqrt` mode and the sample clock (`lastUpdate`, `now`, `sampleFreq`)
unchanged, as well as `nsamples`. -/
theorem C13_constructor_and_RESET {F : Type} [LinearOrderedField F] (board : Board)
    (calib : Option (Calibration F)) (mem s : FreeIMU F) :
    ((FreeIMU.new board calib mem).q0 = 1 ∧ (FreeIMU.new board calib mem).q1 = 0 ∧
      (FreeIMU.new board calib mem).q2 = 0 ∧ (FreeIMU.new board calib mem).q3 = 0 ∧
      (FreeIMU.new board calib mem).integralFBx = 0 ∧
      (FreeIMU.new board calib mem).integralFBy = 0 ∧
      (FreeIMU.new board calib mem).integralFBz = 0 ∧
      (FreeIMU.new board calib mem).exInt = 0 ∧ (FreeIMU.new board calib mem).eyInt = 0 ∧
      (FreeIMU.new board calib mem).ezInt = 0 ∧
      (FreeIMU.new board calib mem).twoKp = twoKpDef board ∧
      (FreeIMU.new board calib mem).twoKi = twoKiDef board) ∧
    ((RESET board s).q0 = 1 ∧ (RESET board s).q1 = 0 ∧ (RESET board s).q2 = 0 ∧
      (RESET board s).q3 = 0 ∧ (RESET board s).integralFBx = 0 ∧
      (RESET board s).integralFBy = 0 ∧ (RESET board s).integralFBz = 0 ∧
      (RESET board s).exInt = 0 ∧ (RESET board s).eyInt = 0 ∧ (RESET board s).ezInt = 0 ∧
      (RESET board s).twoKp = twoKpDef board ∧ (RESET board s).twoKi = twoKiDef board) ∧
    ((RESET board s).acc_off_x = s.acc_off_x ∧ (RESET board s).acc_off_y = s.acc_off_y ∧
      (RESET board s).acc_off_z = s.acc_off_z ∧ (RESET board s).magn_off_x = s.magn_off_x ∧
      (RESET board s).magn_off_y = s.magn_off_y ∧ (RESET board s).magn_off_z = s.magn_off_z ∧
      (RESET board s).acc_scale_x = s.acc_scale_x ∧ (RESET board s).acc_scale_y = s.acc_scale_y ∧
      (RESET board s).acc_scale_z = s.acc_scale_z ∧
      (RESET board s).magn_scale_x = s.magn_scale_x ∧
      (RESET board s).magn_scale_y = s.magn_scale_y ∧
      (RESET board s).magn_scale_z = s.magn_scale_z ∧
      (RESET board s).gyro_off_x = s.gyro_off_x ∧ (RESET board s).gyro_off_y = s.gyro_off_y ∧
      (RESET board s).gyro_off_z = s.gyro_off_z) ∧
    ((RESET board s).temp_corr_on = s.temp_corr_on ∧ (RESET board s).temp_break = s.temp_break ∧
      (RESET board s).senTemp_break = s.senTemp_break ∧ (RESET board s).rt = s.rt ∧
      (RESET board s).senTemp = s.senTemp ∧
      (RESET board s).instability_fix = s.instability_fix ∧
      (RESET board s).lastUpdate = s.lastUpdate ∧ (RESET board s).now = s.now ∧
      (RESET board s).sampleFreq = s.sampleFreq ∧ (RESET board s).nsamples = s.nsamples) := by
  refine ⟨?_, ?_, ?_, ?_⟩
  · cases calib <;>
      exact ⟨rfl, rfl, rfl, rfl, rfl, rfl, rfl, rfl, rfl, rfl, rfl, rfl⟩
  · exact ⟨rfl, rfl, rfl, rfl, rfl, rfl, rfl, rfl, rfl, rfl, rfl, rfl⟩
  · exact ⟨rfl, rfl, rfl, rfl, rfl, rfl, rfl, rfl, rfl, rfl, rfl, rfl, rfl, rfl, rfl⟩
  · exact ⟨rfl, rfl, rfl, rfl, rfl, rfl, rfl, rfl, rfl, rfl⟩


/-- C14, counterexample to the claim as stated: on a state whose feedback integrator holds
`(5, 6, 7)` and whose gains are `(3, 4)`, `RESET_Q` on the DFROBOT board zeroes the integrator
and sets the gains to `(1, 0)`. -/
theorem C14_counterexample :
    (RESET_Q Board.DFROBOT
      { (blankMemory : FreeIMU ℚ) with
        integralFBx := 5, integralFBy := 6, integralFBz := 7, twoKp := 3, twoKi := 4 }).integralFBx
      = 0 ∧
    (RESET_Q Board.DFROBOT
      { (blankMemory : FreeIMU ℚ) with
        integralFBx := 5, integralFBy := 6, integralFBz := 7, twoKp := 3, twoKi := 4 }).twoKp
      = 1 ∧
    ¬ ((RESET_Q Board.DFROBOT
        { (blankMemory : FreeIMU ℚ) with
          integralFBx := 5, integralFBy := 6, integralFBz := 7, twoKp := 3, twoKi := 4 }).integralFBx
        = 5 ∧
      (RESET_Q Board.DFROBOT
        { (blankMemory : FreeIMU ℚ) with
          integralFBx := 5, integralFBy := 6, integralFBz := 7, twoKp := 3, twoKi := 4 }).twoKp
        = 3) := by
  have h1 : (RESET_Q Board.DFROBOT
      { (blankMemory : FreeIMU ℚ) with
        integralFBx := 5, integralFBy := 6, integralFBz := 7, twoKp := 3, twoKi := 4 }).integralFBx
      = 0 := rfl
  have h2 : (RESET_Q Board.DFROBOT
      { (blankMemory : FreeIMU ℚ) with
        integralFBx := 5, integralFBy := 6, integralFBz := 7, twoKp := 3, twoKi := 4 }).twoKp
      = 1 := by
    show (2 * 0.5 : ℚ) = 1
    norm_num
  refine ⟨h1, h2, ?_⟩
  rw [h1]
  norm_num


/-- C14 (amended). `RESET_Q` makes the member assignments of `RESET`: applied to any filter
state it sets `(q0, q1, q2, q3)` to `(1,0,0,0)`, zeroes the feedback integrator
(`integralFBx/y/z`, `exInt/eyInt/ezInt`) and sets the gains to `(twoKpDef, twoKiDef)`; every
other field of the state is unchanged. -/
theorem C14_RESET_Q_effect {F : Type} [LinearOrderedField F] (board : Board) (s : FreeIMU F) :
    RESET_Q board s = RESET board s ∧
    ((RESET_Q board s).q0 = 1 ∧ (RESET_Q board s).q1 = 0 ∧ (RESET_Q board s).q2 = 0 ∧
      (RESET_Q board s).q3 = 0) ∧
    ((RESET_Q board s).integralFBx = 0 ∧ (RESET_Q board s).integralFBy = 0 ∧
      (RESET_Q board s).integralFBz = 0 ∧ (RESET_Q board s).exInt = 0 ∧
      (RESET_Q board s).eyInt = 0 ∧ (RESET_Q board s).ezInt = 0) ∧
    ((RESET_Q board s).twoKp = twoKpDef board ∧ (RESET_Q board s).twoKi = twoKiDef board) ∧
    RESET_Q board s =
      { s with
        q0 := (RESET_Q board s).q0, q1 := (RESET_Q board s).q1, q2 := (RESET_Q board s).q2
        q3 := (RESET_Q board s).q3, integralFBx := (RESET_Q board s).integralFBx
        integralFBy := (RESET_Q board s).integralFBy
        integralFBz := (RESET_Q board s).integralFBz
        exInt := (RESET_Q board s).exInt, eyInt := (RESET_Q board s).eyInt
        ezInt := (RESET_Q board s).ezInt, twoKp := (RESET_Q board s).twoKp
        twoKi := (RESET_Q board s).twoKi } :=
  ⟨rfl, ⟨rfl, rfl, rfl, rfl⟩, ⟨rfl, rfl, rfl, rfl, rfl, rfl⟩, ⟨rfl, rfl⟩, rfl⟩


/-- C15, the code at the failing input: DFROBOT board, constructed state, sample frequency
100 Hz, one rest call (zero rates, accelerometer `(0, 0, 1)`, zero magnetometer) entered while
the uninitialised locals `halfex, halfey, halfez` hold `(5, 6, 7)`. Both sensor blocks are
skipped, the feedback runs on the indeterminate error, and for every `invSqrt` the new
quaternion is proportional to `(1, 1/40, 3/100, 7/200)`: it is not within `10⁻³` of the
identity. -/
theorem C15_rest_state_drift {F : Type} [LinearOrderedField F] (inv sqrt : F → F) :
    (AHRSupdate true inv sqrt
      { FreeIMU.new Board.DFROBOT none (blankMemory : FreeIMU F) with sampleFreq := 100 }
      { x := 5, y := 6, z := 7 } 0 0 0 0 0 1 0 0 0).q1 =
      (1 / 40) * (AHRSupdate true inv sqrt
        { FreeIMU.new Board.DFROBOT none (blankMemory : FreeIMU F) with sampleFreq := 100 }
        { x := 5, y := 6, z := 7 } 0 0 0 0 0 1 0 0 0).q0 ∧
    ¬ (|(AHRSupdate true inv sqrt
        { FreeIMU.new Board.DFROBOT none (blankMemory : FreeIMU F) with sampleFreq := 100 }
        { x := 5, y := 6, z := 7 } 0 0 0 0 0 1 0 0 0).q0 - 1| ≤ 1 / 1000 ∧
      |(AHRSupdate true inv sqrt
        { FreeIMU.new Board.DFROBOT none (blankMemory : FreeIMU F) with sampleFreq := 100 }
        { x := 5, y := 6, z := 7 } 0 0 0 0 0 1 0 0 0).q1| ≤ 1 / 1000) := by
  have he : errorTerm true inv sqrt
      { FreeIMU.new Board.DFROBOT none (blankMemory : FreeIMU F) with sampleFreq := 100 }
      { x := 5, y := 6, z := 7 } 0 0 1 0 0 0 = { x := 5, y := 6, z := 7 } :=
    errorTerm_skipped _ _ _ _ _ _ _ _ _ _ _ (Or.inr (Or.inl rfl)) (Or.inl rfl)
  have hq : (AHRSupdate true inv sqrt
      { FreeIMU.new Board.DFROBOT none (blankMemory : FreeIMU F) with sampleFreq := 100 }
      { x := 5, y := 6, z := 7 } 0 0 0 0 0 1 0 0 0).q1 =
      (1 / 40) * (AHRSupdate true inv sqrt
        { FreeIMU.new Board.DFROBOT none (blankMemory : FreeIMU F) with sampleFreq := 100 }
        { x := 5, y := 6, z := 7 } 0 0 0 0 0 1 0 0 0).q0 := by
    simp only [AHRSupdate, he]
    simp only [feedback, integrate, FreeIMU.new, blankMemory, twoKpDef, twoKiDef]
    norm_num
  refine ⟨hq, ?_⟩
  rintro ⟨h0, h1⟩
  rw [hq] at h1
  rw [abs_le] at h0 h1
  linarith [h0.1, h1.2]


/-- C16, counterexample to the claim as stated: two `getQ` calls at the same clock value
1000 µs on the DFROBOT board. The first leaves `lastUpdate = 1000`; in the second the divisor
`(now - lastUpdate) / 1000000.0` is zero and the sample frequency is still computed as
`1.0 / divisor`. -/
theorem C16_counterexample :
    (getQ Board.DFROBOT false 16 sampleMathLib (tempCoeffs Board.DFROBOT)
      (FreeIMU.new Board.DFROBOT none blankMemory) sampleReadings 1000 sampleValues
      { x := 0, y := 0, z := 0 }).1.lastUpdate = 1000 ∧
    (elapsedSeconds
      (getQ Board.DFROBOT false 16 sampleMathLib (tempCoeffs Board.DFROBOT)
        (FreeIMU.new Board.DFROBOT none blankMemory) sampleReadings 1000 sampleValues
        { x := 0, y := 0, z := 0 }).1.lastUpdate 1000 : ℚ) = 0 ∧
    (getQ Board.DFROBOT false 16 sampleMathLib (tempCoeffs Board.DFROBOT)
      (getQ Board.DFROBOT false 16 sampleMathLib (tempCoeffs Board.DFROBOT)
        (FreeIMU.new Board.DFROBOT none blankMemory) sampleReadings 1000 sampleValues
        { x := 0, y := 0, z := 0 }).1
      sampleReadings 1000 sampleValues { x := 0, y := 0, z := 0 }).1.sampleFreq =
      1 / elapsedSeconds
        (getQ Board.DFROBOT false 16 sampleMathLib (tempCoeffs Board.DFROBOT)
          (FreeIMU.new Board.DFROBOT none blankMemory) sampleReadings 1000 sampleValues
          { x := 0, y := 0, z := 0 }).1.lastUpdate 1000 := by
  have h1 : (getQ Board.DFROBOT false 16 sampleMathLib (tempCoeffs Board.DFROBOT)
      (FreeIMU.new Board.DFROBOT none blankMemory) sampleReadings 1000 sampleValues
      { x := 0, y := 0, z := 0 }).1.lastUpdate = 1000 := by
    rw [(getQ_clock Board.DFROBOT false 16 sampleMathLib (tempCoeffs Board.DFROBOT)
      (FreeIMU.new Board.DFROBOT none blankMemory) sampleReadings 1000 sampleValues
      { x := 0, y := 0, z := 0 }).1]
    norm_num
  refine ⟨h1, ?_, getQ_sampleFreq _ _ _ _ _ _ _ _ _ _⟩
  rw [h1]
  exact elapsedSeconds_same 1000 1000 (by norm_num)


/-- C16 (amended). Zero elapsed time is not guarded: `getQ` always computes
`sampleFreq = 1.0 / ((now - lastUpdate) / 1000000.0)`; when `now` equals `lastUpdate` the
divisor is zero; and on every board for which a call is compiled (each of the four variants
other than `SEN_10183`) `AHRSupdate` is run on the state holding that sample frequency, with
no first-sample test and no clamp. -/
theorem C16_zero_elapsed_unguarded {F : Type} [LinearOrderedField F] (board : Board)
    (DISABLE_MAGN : Bool) (intBits : Nat) (m : MathLib F) (c : Coeffs F) (s : FreeIMU F)
    (r : Readings F) (micros : Nat) (val0 : Values F) (h0 : Vector3f F) :
    (getQ board DISABLE_MAGN intBits m c s r micros val0 h0).1.sampleFreq =
      1 / elapsedSeconds s.lastUpdate micros ∧
    (micros % 2 ^ 32 = s.lastUpdate → (elapsedSeconds s.lastUpdate micros : F) = 0) ∧
    (clockUpdate (getValues board intBits c s r val0).1 micros).sampleFreq =
      1 / elapsedSeconds s.lastUpdate micros ∧
    ((board.IS_9DOM = true ∧ board.HAS_AXIS_ALIGNED = true) ∨ board = Board.SEN_10724 ∨
      board = Board.ARDUIMU_v3 ∨ board = Board.SEN_10183 ∨ board.IS_9DOM = false) ∧
    (board.IS_9DOM = true → board.HAS_AXIS_ALIGNED = true →
      (getQ board DISABLE_MAGN intBits m c s r micros val0 h0).1 =
        AHRSupdate (!DISABLE_MAGN)
          (invSqrt m.floatBits m.floatOfBits m.sqrt
            (getValues board intBits c s r val0).1.instability_fix) m.sqrt
          (clockUpdate (getValues board intBits c s r val0).1 micros) h0
          ((getValues board intBits c s r val0).2.v3 * m.M_PI / 180)
          ((getValues board intBits c s r val0).2.v4 * m.M_PI / 180)
          ((getValues board intBits c s r val0).2.v5 * m.M_PI / 180)
          (getValues board intBits c s r val0).2.v0 (getValues board intBits c s r val0).2.v1
          (getValues board intBits c s r val0).2.v2 (getValues board intBits c s r val0).2.v6
          (getValues board intBits c s r val0).2.v7 (getValues board intBits c s r val0).2.v8) ∧
    (board = Board.SEN_10724 →
      (getQ board DISABLE_MAGN intBits m c s r micros val0 h0).1 =
        AHRSupdate (!DISABLE_MAGN)
          (invSqrt m.floatBits m.floatOfBits m.sqrt
            (getValues board intBits c s r val0).1.instability_fix) m.sqrt
          (clockUpdate (getValues board intBits c s r val0).1 micros) h0
          ((getValues board intBits c s r val0).2.v3 * m.M_PI / 180)
          ((getValues board intBits c s r val0).2.v4 * m.M_PI / 180)
          ((getValues board intBits c s r val0).2.v5 * m.M_PI / 180)
          (getValues board intBits c s r val0).2.v0 (getValues board intBits c s r val0).2.v1
          (getValues board intBits c s r val0).2.v2 (getValues board intBits c s r val0).2.v7
          (-(getValues board intBits c s r val0).2.v6)
          (getValues board intBits c s r val0).2.v8) ∧
    (board = Board.ARDUIMU_v3 →
      (getQ board DISABLE_MAGN intBits m c s r micros val0 h0).1 =
        AHRSupdate (!DISABLE_MAGN)
          (invSqrt m.floatBits m.floatOfBits m.sqrt
            (getValues board intBits c s r val0).1.instability_fix) m.sqrt
          (clockUpdate (getValues board intBits c s r val0).1 micros) h0
          ((getValues board intBits c s r val0).2.v3 * m.M_PI / 180)
          ((getValues board intBits c s r val0).2.v4 * m.M_PI / 180)
          ((getValues board intBits c s r val0).2.v5 * m.M_PI / 180)
          (getValues board intBits c s r val0).2.v0 (getValues board intBits c s r val0).2.v1
          (getValues board intBits c s r val0).2.v2
          (-(getValues board intBits c s r val0).2.v6)
          (-(getValues board intBits c s r val0).2.v7)
          (getValues board intBits c s r val0).2.v8) ∧
    (board = Board.SEN_10183 →
      (getQ board DISABLE_MAGN intBits m c s r micros val0 h0).1 =
        clockUpdate (getValues board intBits c s r val0).1 micros) ∧
    (board.IS_9DOM = false →
      (getQ board DISABLE_MAGN intBits m c s r micros val0 h0).1 =
        AHRSupdate false
          (invSqrt m.floatBits m.floatOfBits m.sqrt
            (getValues board intBits c s r val0).1.instability_fix) m.sqrt
          (clockUpdate (getValues board intBits c s r val0).1 micros) h0
          ((getValues board intBits c s r val0).2.v3 * m.M_PI / 180)
          ((getValues board intBits c s r val0).2.v4 * m.M_PI / 180)
          ((getValues board intBits c s r val0).2.v5 * m.M_PI / 180)
          (getValues board intBits c s r val0).2.v0 (getValues board intBits c s r val0).2.v1
          (getValues board intBits c s r val0).2.v2 0 0 0) :=
  ⟨getQ_sampleFreq _ _ _ _ _ _ _ _ _ _, elapsedSeconds_same _ _,
   clockUpdate_getValues_sampleFreq _ _ _ _ _ _ _, board_getQ_variant board,
   getQ_cases board DISABLE_MAGN intBits m c s r micros val0 h0⟩


/-- C16, instance: the DFROBOT board, stored time stamp 1000 and clock value 1000. -/
theorem C16_zero_elapsed_unguarded_witness :
    (1000 % 2 ^ 32 = ({ (FreeIMU.new Board.DFROBOT none blankMemory : FreeIMU ℚ) with
        lastUpdate := 1000 }).lastUpdate) ∧
    (elapsedSeconds ({ (FreeIMU.new Board.DFROBOT none blankMemory : FreeIMU ℚ) with
        lastUpdate := 1000 }).lastUpdate 1000 : ℚ) = 0 :=
  ⟨by decide,
   (C16_zero_elapsed_unguarded Board.DFROBOT false 16 sampleMathLib (tempCoeffs Board.DFROBOT)
      { (FreeIMU.new Board.DFROBOT none blankMemory : FreeIMU ℚ) with lastUpdate := 1000 }
      sampleReadings 1000 sampleValues { x := 0, y := 0, z := 0 }).2.1 (by decide)⟩


/-- C17, the code at the failing input: 6-axis board SEN_10121, constructed state, sample
frequency 100 Hz, the all-zero accelerometer triple, entered while the uninitialised locals
`halfex, halfey, halfez` hold `(5, 6, 7)`. The error vector is `(5, 6, 7)`, not zero; the
integrator moves from `(0, 0, 0)` to `(1/100, 3/250, 7/500)`; and the rates handed to the
integration are not the gyro rates. -/
theorem C17_invalid_accelerometer_feedback {F : Type} [LinearOrderedField F]
    (inv sqrt : F → F) (gx gy gz : F) :
    errorTerm false inv sqrt
      { FreeIMU.new Board.SEN_10121 none (blankMemory : FreeIMU F) with sampleFreq := 100 }
      { x := 5, y := 6, z := 7 } 0 0 0 0 0 0 = { x := 5, y := 6, z := 7 } ∧
    ((FreeIMU.new Board.SEN_10121 none (blankMemory : FreeIMU F)).integralFBx = 0 ∧
     (AHRSupdate false inv sqrt
      { FreeIMU.new Board.SEN_10121 none (blankMemory : FreeIMU F) with sampleFreq := 100 }
      { x := 5, y := 6, z := 7 } gx gy gz 0 0 0 0 0 0).integralFBx = 1 / 100 ∧
     (AHRSupdate false inv sqrt
      { FreeIMU.new Board.SEN_10121 none (blankMemory : FreeIMU F) with sampleFreq := 100 }
      { x := 5, y := 6, z := 7 } gx gy gz 0 0 0 0 0 0).integralFBy = 3 / 250 ∧
     (AHRSupdate false inv sqrt
      { FreeIMU.new Board.SEN_10121 none (blankMemory : FreeIMU F) with sampleFreq := 100 }
      { x := 5, y := 6, z := 7 } gx gy gz 0 0 0 0 0 0).integralFBz = 7 / 500) ∧
    (feedback
      { FreeIMU.new Board.SEN_10121 none (blankMemory : FreeIMU F) with sampleFreq := 100 }
      (errorTerm false inv sqrt
        { FreeIMU.new Board.SEN_10121 none (blankMemory : FreeIMU F) with sampleFreq := 100 }
        { x := 5, y := 6, z := 7 } 0 0 0 0 0 0)
      { x := gx, y := gy, z := gz }).2.x = gx + 501 / 100 := by
  have he : errorTerm false inv sqrt
      { FreeIMU.new Board.SEN_10121 none (blankMemory : FreeIMU F) with sampleFreq := 100 }
      { x := 5, y := 6, z := 7 } 0 0 0 0 0 0 = { x := 5, y := 6, z := 7 } :=
    errorTerm_skipped _ _ _ _ _ _ _ _ _ _ _ (Or.inl rfl) (Or.inl rfl)
  refine ⟨he, ⟨rfl, ?_, ?_, ?_⟩, ?_⟩
  · simp only [AHRSupdate, he]
    simp only [feedback, FreeIMU.new, blankMemory, twoKpDef, twoKiDef]
    norm_num
  · simp only [AHRSupdate, he]
    simp only [feedback, FreeIMU.new, blankMemory, twoKpDef, twoKiDef]
    norm_num
  · simp only [AHRSupdate, he]
    simp only [feedback, FreeIMU.new, blankMemory, twoKpDef, twoKiDef]
    norm_num
  · simp only [he]
    simp only [feedback, FreeIMU.new, blankMemory, twoKpDef, twoKiDef]
    norm_num
    ring


/-- C18, the code at the failing input: DFROBOT board (9-axis), constructed state,
magnetometer `(0, 30, -20)`, accelerometer `(3, 4, 12)`, entered while the uninitialised locals
`halfex, halfey, halfez` hold `(5, 6, 7)`. The magnetometer block is skipped and the
accelerometer block adds its cross product to the indeterminate values: the third component
of the error vector is 7 for every `invSqrt`, while that of the cross product alone is 0, and
the error vector changes with the content of the locals. -/
theorem C18_skipped_magnetometer_error {F : Type} [LinearOrderedField F] (inv sqrt : F → F) :
    (errorTerm true inv sqrt (FreeIMU.new Board.DFROBOT none (blankMemory : FreeIMU F))
      { x := 5, y := 6, z := 7 } 3 4 12 0 30 (-20)).z = 7 ∧
    (accError inv (FreeIMU.new Board.DFROBOT none (blankMemory : FreeIMU F))
      { x := 0, y := 0, z := 0 } 3 4 12).z = 0 ∧
    errorTerm true inv sqrt (FreeIMU.new Board.DFROBOT none (blankMemory : FreeIMU F))
      { x := 5, y := 6, z := 7 } 3 4 12 0 30 (-20) ≠
    errorTerm true inv sqrt (FreeIMU.new Board.DFROBOT none (blankMemory : FreeIMU F))
      { x := 0, y := 0, z := 0 } 3 4 12 0 30 (-20) := by
  have h1 : ∀ h0 : Vector3f F,
      (errorTerm true inv sqrt (FreeIMU.new Board.DFROBOT none (blankMemory : FreeIMU F))
        h0 3 4 12 0 30 (-20)).z = h0.z := by
    intro h0
    rw [errorTerm_magn_skipped true inv sqrt _ h0 3 4 12 0 30 (-20) (Or.inr (Or.inl rfl))
      ⟨by norm_num, by norm_num, by norm_num⟩]
    simp only [accError, FreeIMU.new, blankMemory]
    norm_num
  refine ⟨h1 _, ?_, ?_⟩
  · simp only [accError, FreeIMU.new, blankMemory]
    norm_num
  · intro h
    have := congrArg Vector3f.z h
    rw [h1, h1] at this
    norm_num at this


/-- C19. Feedback step of `AHRSupdate`, for the combined error vector `e` and the rates `g`:
feedback is applied exactly when `e` is non-zero on all three axes. Applied with `twoKi > 0`,
the integrator becomes `integralFB + twoKi * e * (1 / sampleFreq)` and the rate
`g + (new integralFB) + twoKp * e`; applied with `twoKi = 0`, the rate becomes `g + twoKp * e`;
when some component of `e` is zero, rate and integrator are unchanged. `AHRSupdate` stores the
integrator so obtained and integrates the rate so obtained. -/
theorem C19_feedback_step {F : Type} [LinearOrderedField F] (s : FreeIMU F)
    (e g : Vector3f F) :
    ((e.x ≠ 0 ∧ e.y ≠ 0 ∧ e.z ≠ 0) → 0 < s.twoKi →
      feedback s e g =
        ({ x := s.integralFBx + s.twoKi * e.x * (1 / s.sampleFreq)
           y := s.integralFBy + s.twoKi * e.y * (1 / s.sampleFreq)
           z := s.integralFBz + s.twoKi * e.z * (1 / s.sampleFreq) },
         { x := g.x + (s.integralFBx + s.twoKi * e.x * (1 / s.sampleFreq)) + s.twoKp * e.x
           y := g.y + (s.integralFBy + s.twoKi * e.y * (1 / s.sampleFreq)) + s.twoKp * e.y
           z := g.z + (s.integralFBz + s.twoKi * e.z * (1 / s.sampleFreq)) + s.twoKp * e.z })) ∧
    ((e.x ≠ 0 ∧ e.y ≠ 0 ∧ e.z ≠ 0) → s.twoKi = 0 →
      (feedback s e g).2 =
        { x := g.x + s.twoKp * e.x, y := g.y + s.twoKp * e.y, z := g.z + s.twoKp * e.z }) ∧
    (¬ (e.x ≠ 0 ∧ e.y ≠ 0 ∧ e.z ≠ 0) →
      feedback s e g = ({ x := s.integralFBx, y := s.integralFBy, z := s.integralFBz }, g)) ∧
    (∀ (useMagn : Bool) (inv sqrt : F → F) (h0 : Vector3f F) (ax ay az mx my mz : F),
      e = errorTerm useMagn inv sqrt s h0 ax ay az mx my mz →
      ((AHRSupdate useMagn inv sqrt s h0 g.x g.y g.z ax ay az mx my mz).integralFBx =
          (feedback s e g).1.x ∧
        (AHRSupdate useMagn inv sqrt s h0 g.x g.y g.z ax ay az mx my mz).integralFBy =
          (feedback s e g).1.y ∧
        (AHRSupdate useMagn inv sqrt s h0 g.x g.y g.z ax ay az mx my mz).integralFBz =
          (feedback s e g).1.z) ∧
      (AHRSupdate useMagn inv sqrt s h0 g.x g.y g.z ax ay az mx my mz).q0 =
        (integrate s (feedback s e g).2).1 *
          inv ((integrate s (feedback s e g).2).1 * (integrate s (feedback s e g).2).1 +
            (integrate s (feedback s e g).2).2.1 * (integrate s (feedback s e g).2).2.1 +
            (integrate s (feedback s e g).2).2.2.1 * (integrate s (feedback s e g).2).2.2.1 +
            (integrate s (feedback s e g).2).2.2.2 * (integrate s (feedback s e g).2).2.2.2)) := by
  refine ⟨fun he hk => ?_, fun he hk => ?_, fun he => ?_, ?_⟩
  · simp only [feedback, he, hk, if_true, ne_eq, not_false_eq_true, and_self, gt_iff_lt]
  · have hk' : ¬ (s.twoKi > 0) := by rw [hk]; exact lt_irrefl 0
    simp only [feedback, he, hk', if_true, if_false, ne_eq, not_false_eq_true, and_self]
  · simp only [feedback, he, if_false]
  · intro useMagn inv sqrt h0 ax ay az mx my mz he
    subst he
    exact ⟨⟨rfl, rfl, rfl⟩, rfl⟩

/-- C19, instance: board FREEIMU_v04 (`twoKp = 3/2`, `twoKi = 13/40`) at 100 Hz, error
`(1, 2, 3)`, zero rates: the first component of the rate after feedback is
`0 + (0 + twoKi * 1 * (1/100)) + twoKp * 1`. -/
theorem C19_feedback_step_witness :
    (((1 : ℚ) ≠ 0 ∧ (2 : ℚ) ≠ 0 ∧ (3 : ℚ) ≠ 0) ∧
      0 < ({ FreeIMU.new Board.FREEIMU_v04 none (blankMemory : FreeIMU ℚ) with
              sampleFreq := 100 }).twoKi) ∧
    feedback
      { FreeIMU.new Board.FREEIMU_v04 none (blankMemory : FreeIMU ℚ) with sampleFreq := 100 }
      { x := 1, y := 2, z := 3 } { x := 0, y := 0, z := 0 } =
      ({ x := 0 + 2 * 0.1625 * 1 * (1 / 100)
         y := 0 + 2 * 0.1625 * 2 * (1 / 100)
         z := 0 + 2 * 0.1625 * 3 * (1 / 100) },
       { x := 0 + (0 + 2 * 0.1625 * 1 * (1 / 100)) + 2 * 0.75 * 1
         y := 0 + (0 + 2 * 0.1625 * 2 * (1 / 100)) + 2 * 0.75 * 2
         z := 0 + (0 + 2 * 0.1625 * 3 * (1 / 100)) + 2 * 0.75 * 3 }) :=
  have hne : ((1 : ℚ) ≠ 0 ∧ (2 : ℚ) ≠ 0 ∧ (3 : ℚ) ≠ 0) := ⟨by norm_num, by norm_num, by norm_num⟩
  have hk : 0 < ({ FreeIMU.new Board.FREEIMU_v04 none (blankMemory : FreeIMU ℚ) with
      sampleFreq := 100 }).twoKi := by
    show (0 : ℚ) < 2 * 0.1625
    norm_num
  ⟨⟨hne, hk⟩,
   (C19_feedback_step
      { FreeIMU.new Board.FREEIMU_v04 none (blankMemory : FreeIMU ℚ) with sampleFreq := 100 }
      { x := 1, y := 2, z := 3 } { x := 0, y := 0, z := 0 }).1 hne hk⟩


/-- C20. Integration step of `AHRSupdate`: before re-normalisation the new quaternion is
`q + (1 / (2 * sampleFreq)) * (q ⊗ (0, gx, gy, gz))`, with `⊗` the Hamilton product, `q` the
quaternion held before the step in all four components and `(gx, gy, gz)` the rate after
feedback; `AHRSupdate` stores this quaternion scaled by `invSqrt` of its squared norm. -/
theorem C20_integration_step {F : Type} [LinearOrderedField F] (s : FreeIMU F)
    (g : Vector3f F) :
    integrate s g =
      specComponents ((⟨s.q0, s.q1, s.q2, s.q3⟩ : Quaternion F) +
        (1 / (2 * s.sampleFreq)) •
          ((⟨s.q0, s.q1, s.q2, s.q3⟩ : Quaternion F) * (⟨0, g.x, g.y, g.z⟩ : Quaternion F))) ∧
    (∀ (useMagn : Bool) (inv sqrt : F → F) (h0 : Vector3f F) (gx gy gz ax ay az mx my mz : F),
      g = (feedback s (errorTerm useMagn inv sqrt s h0 ax ay az mx my mz)
        { x := gx, y := gy, z := gz }).2 →
      ((AHRSupdate useMagn inv sqrt s h0 gx gy gz ax ay az mx my mz).q0,
       (AHRSupdate useMagn inv sqrt s h0 gx gy gz ax ay az mx my mz).q1,
       (AHRSupdate useMagn inv sqrt s h0 gx gy gz ax ay az mx my mz).q2,
       (AHRSupdate useMagn inv sqrt s h0 gx gy gz ax ay az mx my mz).q3) =
      ((integrate s g).1 * inv ((integrate s g).1 * (integrate s g).1 +
          (integrate s g).2.1 * (integrate s g).2.1 +
          (integrate s g).2.2.1 * (integrate s g).2.2.1 +
          (integrate s g).2.2.2 * (integrate s g).2.2.2),
       (integrate s g).2.1 * inv ((integrate s g).1 * (integrate s g).1 +
          (integrate s g).2.1 * (integrate s g).2.1 +
          (integrate s g).2.2.1 * (integrate s g).2.2.1 +
          (integrate s g).2.2.2 * (integrate s g).2.2.2),
       (integrate s g).2.2.1 * inv ((integrate s g).1 * (integrate s g).1 +
          (integrate s g).2.1 * (integrate s g).2.1 +
          (integrate s g).2.2.1 * (integrate s g).2.2.1 +
          (integrate s g).2.2.2 * (integrate s g).2.2.2),
       (integrate s g).2.2.2 * inv ((integrate s g).1 * (integrate s g).1 +
          (integrate s g).2.1 * (integrate s g).2.1 +
          (integrate s g).2.2.1 * (integrate s g).2.2.1 +
          (integrate s g).2.2.2 * (integrate s g).2.2.2))) := by
  constructor
  · have h05 : (0.5 : F) = 1 / 2 := by norm_num
    have hinv : (1 : F) / (2 * s.sampleFreq) = 1 / 2 * (1 / s.sampleFreq) := by
      rw [one_div, one_div, one_div, mul_inv]
    simp only [integrate, specComponents, QuaternionAlgebra.mk_mul_mk,
      QuaternionAlgebra.smul_mk, QuaternionAlgebra.mk_add_mk, smul_eq_mul, h05, hinv,
      Prod.mk.injEq]
    refine ⟨?_, ?_, ?_, ?_⟩ <;> ring
  · intro useMagn inv sqrt h0 gx gy gz ax ay az mx my mz hg
    subst hg
    rfl

/-- C20, instance: the constructed state at 100 Hz and rate `(1, 2, 3)`: the quaternion before
re-normalisation is `(1, 1/200, 1/100, 3/200)`. -/
theorem C20_integration_step_witness :
    integrate
      { FreeIMU.new Board.DFROBOT none (blankMemory : FreeIMU ℚ) with sampleFreq := 100 }
      { x := 1, y := 2, z := 3 } = (1, 1 / 200, 1 / 100, 3 / 200) := by
  rw [(C20_integration_step
    { FreeIMU.new Board.DFROBOT none (blankMemory : FreeIMU ℚ) with sampleFreq := 100 }
    { x := 1, y := 2, z := 3 }).1]
  simp only [specComponents, QuaternionAlgebra.mk_mul_mk, QuaternionAlgebra.smul_mk,
    QuaternionAlgebra.mk_add_mk, smul_eq_mul, FreeIMU.new, blankMemory, Prod.mk.injEq]
  norm_num


/-- C21, counterexample to the claim as stated: DFROBOT board (`twoKi = 0`, 9-axis), a state
with quaternion `(0, 0, 1/2, 1/2)` and integrator `(1, 2, 3)`, exact `invSqrt`, the all-zero
accelerometer triple and magnetometer `(1, 1, -1)`. Every product in the magnetometer block
has a zero factor or cancels against its negative (`hx = hy = bx = bz = 0`), so the error
vector is `(0, 0, 0)` whatever the error locals held, the feedback block is not entered and
the integrator is still `(1, 2, 3)` after the call. -/
theorem C21_counterexample :
    ({ FreeIMU.new Board.DFROBOT none (blankMemory : FreeIMU ℝ) with
        q0 := 0, q1 := 0, q2 := 1 / 2, q3 := 1 / 2
        integralFBx := 1, integralFBy := 2, integralFBz := 3, sampleFreq := 100 }).twoKi = 0 ∧
    errorTerm true (fun x => 1 / Real.sqrt x) Real.sqrt
      { FreeIMU.new Board.DFROBOT none (blankMemory : FreeIMU ℝ) with
        q0 := 0, q1 := 0, q2 := 1 / 2, q3 := 1 / 2
        integralFBx := 1, integralFBy := 2, integralFBz := 3, sampleFreq := 100 }
      { x := 5, y := 6, z := 7 } 0 0 0 1 1 (-1) = { x := 0, y := 0, z := 0 } ∧
    (AHRSupdate true (fun x => 1 / Real.sqrt x) Real.sqrt
      { FreeIMU.new Board.DFROBOT none (blankMemory : FreeIMU ℝ) with
        q0 := 0, q1 := 0, q2 := 1 / 2, q3 := 1 / 2
        integralFBx := 1, integralFBy := 2, integralFBz := 3, sampleFreq := 100 }
      { x := 5, y := 6, z := 7 } 0 0 0 0 0 0 1 1 (-1)).integralFBx = 1 ∧
    (AHRSupdate true (fun x => 1 / Real.sqrt x) Real.sqrt
      { FreeIMU.new Board.DFROBOT none (blankMemory : FreeIMU ℝ) with
        q0 := 0, q1 := 0, q2 := 1 / 2, q3 := 1 / 2
        integralFBx := 1, integralFBy := 2, integralFBz := 3, sampleFreq := 100 }
      { x := 5, y := 6, z := 7 } 0 0 0 0 0 0 1 1 (-1)).integralFBy = 2 ∧
    (AHRSupdate true (fun x => 1 / Real.sqrt x) Real.sqrt
      { FreeIMU.new Board.DFROBOT none (blankMemory : FreeIMU ℝ) with
        q0 := 0, q1 := 0, q2 := 1 / 2, q3 := 1 / 2
        integralFBx := 1, integralFBy := 2, integralFBz := 3, sampleFreq := 100 }
      { x := 5, y := 6, z := 7 } 0 0 0 0 0 0 1 1 (-1)).integralFBz = 3 := by
  have hK : ({ FreeIMU.new Board.DFROBOT none (blankMemory : FreeIMU ℝ) with
      q0 := 0, q1 := 0, q2 := 1 / 2, q3 := 1 / 2
      integralFBx := 1, integralFBy := 2, integralFBz := 3, sampleFreq := 100 }).twoKi = 0 := by
    show (2 * 0 : ℝ) = 0
    norm_num
  have he : errorTerm true (fun x => 1 / Real.sqrt x) Real.sqrt
      { FreeIMU.new Board.DFROBOT none (blankMemory : FreeIMU ℝ) with
        q0 := 0, q1 := 0, q2 := 1 / 2, q3 := 1 / 2
        integralFBx := 1, integralFBy := 2, integralFBz := 3, sampleFreq := 100 }
      { x := 5, y := 6, z := 7 } 0 0 0 1 1 (-1) = { x := 0, y := 0, z := 0 } := by
    simp only [errorTerm, magError, FreeIMU.new, blankMemory]
    norm_num
  have hskip : ∀ g : Vector3f ℝ, (feedback
      { FreeIMU.new Board.DFROBOT none (blankMemory : FreeIMU ℝ) with
        q0 := 0, q1 := 0, q2 := 1 / 2, q3 := 1 / 2
        integralFBx := 1, integralFBy := 2, integralFBz := 3, sampleFreq := 100 }
      (errorTerm true (fun x => 1 / Real.sqrt x) Real.sqrt
        { FreeIMU.new Board.DFROBOT none (blankMemory : FreeIMU ℝ) with
          q0 := 0, q1 := 0, q2 := 1 / 2, q3 := 1 / 2
          integralFBx := 1, integralFBy := 2, integralFBz := 3, sampleFreq := 100 }
        { x := 5, y := 6, z := 7 } 0 0 0 1 1 (-1)) g).1 =
      { x := 1, y := 2, z := 3 } := by
    intro g
    rw [he, feedback, if_neg (fun h => h.1 rfl)]
  refine ⟨hK, he, ?_, ?_, ?_⟩
  · exact congrArg Vector3f.x (hskip { x := 0, y := 0, z := 0 })
  · exact congrArg Vector3f.y (hskip { x := 0, y := 0, z := 0 })
  · exact congrArg Vector3f.z (hskip { x := 0, y := 0, z := 0 })


/-- C21 (amended). Anti-windup reset: for every filter state and every input, after one
`AHRSupdate` call with `twoKi = 0` in which the feedback is applied (the combined error vector
is non-zero on all three axes) the feedback integrator is `(0, 0, 0)`, whatever it held
before; when some component of the error vector is zero the integrator is left as it was. -/
theorem C21_anti_windup_when_feedback_applied {F : Type} [LinearOrderedField F]
    (useMagn : Bool) (inv sqrt : F → F) (s : FreeIMU F) (h0 : Vector3f F)
    (gx gy gz ax ay az mx my mz : F) (hK : s.twoKi = 0) :
    (((errorTerm useMagn inv sqrt s h0 ax ay az mx my mz).x ≠ 0 ∧
        (errorTerm useMagn inv sqrt s h0 ax ay az mx my mz).y ≠ 0 ∧
        (errorTerm useMagn inv sqrt s h0 ax ay az mx my mz).z ≠ 0) →
      (AHRSupdate useMagn inv sqrt s h0 gx gy gz ax ay az mx my mz).integralFBx = 0 ∧
      (AHRSupdate useMagn inv sqrt s h0 gx gy gz ax ay az mx my mz).integralFBy = 0 ∧
      (AHRSupdate useMagn inv sqrt s h0 gx gy gz ax ay az mx my mz).integralFBz = 0) ∧
    (¬ ((errorTerm useMagn inv sqrt s h0 ax ay az mx my mz).x ≠ 0 ∧
        (errorTerm useMagn inv sqrt s h0 ax ay az mx my mz).y ≠ 0 ∧
        (errorTerm useMagn inv sqrt s h0 ax ay az mx my mz).z ≠ 0) →
      (AHRSupdate useMagn inv sqrt s h0 gx gy gz ax ay az mx my mz).integralFBx =
        s.integralFBx ∧
      (AHRSupdate useMagn inv sqrt s h0 gx gy gz ax ay az mx my mz).integralFBy =
        s.integralFBy ∧
      (AHRSupdate useMagn inv sqrt s h0 gx gy gz ax ay az mx my mz).integralFBz =
        s.integralFBz) := by
  have hk' : ¬ (s.twoKi > 0) := by rw [hK]; exact lt_irrefl 0
  constructor
  · intro he
    simp only [AHRSupdate, feedback, if_pos he, if_neg hk', and_self]
  · intro he
    simp only [AHRSupdate, feedback, if_neg he, and_self]

/-- C21, instance: DFROBOT board (`twoKi = 0`), integrator holding `(1, 2, 3)`, 6-axis path
with an accelerometer reading that is skipped and the error locals holding `(5, 6, 7)`: the
feedback is applied and the integrator is zero afterwards. -/
theorem C21_anti_windup_when_feedback_applied_witness :
    ({ FreeIMU.new Board.DFROBOT none (blankMemory : FreeIMU ℚ) with
        integralFBx := 1, integralFBy := 2, integralFBz := 3, sampleFreq := 100 }).twoKi = 0 ∧
    (AHRSupdate false (fun _ => 1) (fun x => x)
      { FreeIMU.new Board.DFROBOT none (blankMemory : FreeIMU ℚ) with
        integralFBx := 1, integralFBy := 2, integralFBz := 3, sampleFreq := 100 }
      { x := 5, y := 6, z := 7 } 0 0 0 0 0 1 0 0 0).integralFBx = 0 :=
  have hK : ({ FreeIMU.new Board.DFROBOT none (blankMemory : FreeIMU ℚ) with
      integralFBx := 1, integralFBy := 2, integralFBz := 3, sampleFreq := 100 }).twoKi = 0 := by
    show (2 * 0 : ℚ) = 0
    norm_num
  have he : errorTerm false (fun _ => (1 : ℚ)) (fun x => x)
      { FreeIMU.new Board.DFROBOT none (blankMemory : FreeIMU ℚ) with
        integralFBx := 1, integralFBy := 2, integralFBz := 3, sampleFreq := 100 }
      { x := 5, y := 6, z := 7 } 0 0 1 0 0 0 = { x := 5, y := 6, z := 7 } :=
    errorTerm_skipped _ _ _ _ _ _ _ _ _ _ _ (Or.inl rfl) (Or.inl rfl)
  ⟨hK,
   ((C21_anti_windup_when_feedback_applied false (fun _ => 1) (fun x => x)
      { FreeIMU.new Board.DFROBOT none (blankMemory : FreeIMU ℚ) with
        integralFBx := 1, integralFBy := 2, integralFBz := 3, sampleFreq := 100 }
      { x := 5, y := 6, z := 7 } 0 0 0 0 0 1 0 0 0 hK).1
      (by rw [he]; exact ⟨by norm_num, by norm_num, by norm_num⟩)).1⟩


/-- C22, the code at the failing input: board FREEIMU_v04 (9-axis, `twoKi = 13/40`),
constructed state at 100 Hz, exact `invSqrt`, zero rates, magnetometer `(3, 4, 12)`,
accelerometer `(3, 4, 12)` against the same reading scaled by 2. The magnetometer block forms
its cross product with the accelerometer values as passed (not yet normalised), so the first
component of the error vector is `388/169` for the one and `726/169` for the other, and the
integrator after the call differs: `97/13000` against `363/26000`. -/
theorem C22_accelerometer_scale_dependence :
    ((errorTerm true (fun x => 1 / Real.sqrt x) Real.sqrt
        { FreeIMU.new Board.FREEIMU_v04 none (blankMemory : FreeIMU ℝ) with sampleFreq := 100 }
        { x := 0, y := 0, z := 0 } 3 4 12 3 4 12).x = 388 / 169 ∧
      (errorTerm true (fun x => 1 / Real.sqrt x) Real.sqrt
        { FreeIMU.new Board.FREEIMU_v04 none (blankMemory : FreeIMU ℝ) with sampleFreq := 100 }
        { x := 0, y := 0, z := 0 } (2 * 3) (2 * 4) (2 * 12) 3 4 12).x = 726 / 169) ∧
    ((AHRSupdate true (fun x => 1 / Real.sqrt x) Real.sqrt
        { FreeIMU.new Board.FREEIMU_v04 none (blankMemory : FreeIMU ℝ) with sampleFreq := 100 }
        { x := 0, y := 0, z := 0 } 0 0 0 3 4 12 3 4 12).integralFBx = 97 / 13000 ∧
      (AHRSupdate true (fun x => 1 / Real.sqrt x) Real.sqrt
        { FreeIMU.new Board.FREEIMU_v04 none (blankMemory : FreeIMU ℝ) with sampleFreq := 100 }
        { x := 0, y := 0, z := 0 } 0 0 0 (2 * 3) (2 * 4) (2 * 12) 3 4 12).integralFBx =
        363 / 26000) ∧
    (AHRSupdate true (fun x => 1 / Real.sqrt x) Real.sqrt
        { FreeIMU.new Board.FREEIMU_v04 none (blankMemory : FreeIMU ℝ) with sampleFreq := 100 }
        { x := 0, y := 0, z := 0 } 0 0 0 3 4 12 3 4 12).integralFBx ≠
      (AHRSupdate true (fun x => 1 / Real.sqrt x) Real.sqrt
        { FreeIMU.new Board.FREEIMU_v04 none (blankMemory : FreeIMU ℝ) with sampleFreq := 100 }
        { x := 0, y := 0, z := 0 } 0 0 0 (2 * 3) (2 * 4) (2 * 12) 3 4 12).integralFBx := by
  obtain ⟨h169, h676, h25⟩ := sqrt_concrete
  have h1 : (AHRSupdate true (fun x => 1 / Real.sqrt x) Real.sqrt
      { FreeIMU.new Board.FREEIMU_v04 none (blankMemory : FreeIMU ℝ) with sampleFreq := 100 }
      { x := 0, y := 0, z := 0 } 0 0 0 3 4 12 3 4 12).integralFBx = 97 / 13000 := by
    simp only [AHRSupdate, feedback, errorTerm, magError, accError, FreeIMU.new, blankMemory,
      twoKpDef, twoKiDef]
    norm_num [h169, h25]
  have h2 : (AHRSupdate true (fun x => 1 / Real.sqrt x) Real.sqrt
      { FreeIMU.new Board.FREEIMU_v04 none (blankMemory : FreeIMU ℝ) with sampleFreq := 100 }
      { x := 0, y := 0, z := 0 } 0 0 0 (2 * 3) (2 * 4) (2 * 12) 3 4 12).integralFBx =
      363 / 26000 := by
    simp only [AHRSupdate, feedback, errorTerm, magError, accError, FreeIMU.new, blankMemory,
      twoKpDef, twoKiDef]
    norm_num [h169, h676, h25]
  refine ⟨⟨?_, ?_⟩, ⟨h1, h2⟩, ?_⟩
  · simp only [errorTerm, magError, accError, FreeIMU.new, blankMemory]
    norm_num [h169, h25]
  · simp only [errorTerm, magError, accError, FreeIMU.new, blankMemory]
    norm_num [h169, h676, h25]
  · rw [h1, h2]
    norm_num


/-- C24. Consistent unit gravity estimate, over the reals: for every unit quaternion the
estimated gravity vector `g = (2(q1q3 - q0q2), 2(q0q1 + q2q3), q0² - q1² - q2² + q3²)`, which
`gravityCompensateAcc` subtracts and from which `getYawPitchRollRad` takes pitch and roll, has
norm exactly 1 and is twice the vector `(halfvx, halfvy, halfvz)` of `AHRSupdate`. -/
theorem C24_unit_gravity_estimate (s : FreeIMU ℝ) (hs : normSq s = 1) :
    Vector3f.length Real.sqrt (estimatedGravity (s.q0, s.q1, s.q2, s.q3)) = 1 ∧
    estimatedGravity (s.q0, s.q1, s.q2, s.q3) =
      { x := 2 * (halfv s).x, y := 2 * (halfv s).y, z := 2 * (halfv s).z } ∧
    (halfv s).x = s.q1 * s.q3 - s.q0 * s.q2 ∧ (halfv s).y = s.q0 * s.q1 + s.q2 * s.q3 ∧
    (halfv s).z = s.q0 * s.q0 - 0.5 + s.q3 * s.q3 ∧
    (∀ acc : Vector3f ℝ, gravityCompensateAcc acc (s.q0, s.q1, s.q2, s.q3) =
      { x := acc.x - (estimatedGravity (s.q0, s.q1, s.q2, s.q3)).x
        y := acc.y - (estimatedGravity (s.q0, s.q1, s.q2, s.q3)).y
        z := acc.z - (estimatedGravity (s.q0, s.q1, s.q2, s.q3)).z }) ∧
    (∀ m : MathLib ℝ,
      (yawPitchRoll m (s.q0, s.q1, s.q2, s.q3)).y =
        m.atan ((estimatedGravity (s.q0, s.q1, s.q2, s.q3)).x /
          m.sqrt ((estimatedGravity (s.q0, s.q1, s.q2, s.q3)).y *
              (estimatedGravity (s.q0, s.q1, s.q2, s.q3)).y +
            (estimatedGravity (s.q0, s.q1, s.q2, s.q3)).z *
              (estimatedGravity (s.q0, s.q1, s.q2, s.q3)).z)) ∧
      (yawPitchRoll m (s.q0, s.q1, s.q2, s.q3)).z =
        m.atan ((estimatedGravity (s.q0, s.q1, s.q2, s.q3)).y /
          m.sqrt ((estimatedGravity (s.q0, s.q1, s.q2, s.q3)).x *
              (estimatedGravity (s.q0, s.q1, s.q2, s.q3)).x +
            (estimatedGravity (s.q0, s.q1, s.q2, s.q3)).z *
              (estimatedGravity (s.q0, s.q1, s.q2, s.q3)).z))) ∧
    (∀ (inv : ℝ → ℝ) (e : Vector3f ℝ) (ax ay az : ℝ),
      accError inv s e ax ay az =
        { x := e.x + (ay * inv (ax * ax + ay * ay + az * az) * (halfv s).z -
            az * inv (ax * ax + ay * ay + az * az) * (halfv s).y)
          y := e.y + (az * inv (ax * ax + ay * ay + az * az) * (halfv s).x -
            ax * inv (ax * ax + ay * ay + az * az) * (halfv s).z)
          z := e.z + (ax * inv (ax * ax + ay * ay + az * az) * (halfv s).y -
            ay * inv (ax * ax + ay * ay + az * az) * (halfv s).x) }) := by
  refine ⟨?_, estimatedGravity_eq_two_halfv s hs, rfl, rfl, rfl, fun _ => rfl,
    fun m => yawPitchRoll_estimatedGravity m _, fun inv e ax ay az => accError_halfv inv s e ax ay az⟩
  have h := estimatedGravity_normSq (s.q0, s.q1, s.q2, s.q3)
  simp only [normSq] at hs
  simp only [hs, one_pow] at h
  rw [Vector3f.length, h, Real.sqrt_one]

/-- C24, instance: the unit quaternion `(1/2, 1/2, 1/2, 1/2)`. -/
theorem C24_unit_gravity_estimate_witness :
    normSq { (blankMemory : FreeIMU ℝ) with q0 := 1 / 2, q1 := 1 / 2, q2 := 1 / 2, q3 := 1 / 2 }
      = 1 ∧
    Vector3f.length Real.sqrt (estimatedGravity ((1 / 2 : ℝ), (1 / 2 : ℝ), (1 / 2 : ℝ), (1 / 2 : ℝ)))
      = 1 :=
  have hs : normSq { (blankMemory : FreeIMU ℝ) with
      q0 := 1 / 2, q1 := 1 / 2, q2 := 1 / 2, q3 := 1 / 2 } = 1 := by
    simp only [normSq]
    norm_num
  ⟨hs, (C24_unit_gravity_estimate
    { (blankMemory : FreeIMU ℝ) with q0 := 1 / 2, q1 := 1 / 2, q2 := 1 / 2, q3 := 1 / 2 } hs).1⟩


/-- C25. Because `zeroGyro` stores each round's average in the integer members
`gyro_off_x/y/z` and `initGyros` reads the round average back from them, every round average
is an integer vector; hence, for a threshold in `(0, 1]` such as `ToRad(0.1)`, round `j ≥ 1`
is below the convergence threshold exactly when the stored averages of rounds `j - 1` and `j`
are identical on all three axes; `initGyros` declares convergence at the first such round in
1..10, stops there, and the bias it stores is that common integer vector. -/
theorem C25_integer_averages_convergence (board : Board) (avr : Bool) (thr : ℝ)
    (hthr0 : 0 < thr) (hthr1 : thr ≤ 1) (raw : Nat → RawSample ℝ) (best0 : Vector3f ℝ)
    (fuel : Nat) (hfuel : 11 ≤ fuel) (s : FreeIMU ℝ) (pos : Nat) :
    (∀ j, ∃ ix iy iz : Int, roundAverage raw s.nsamples pos j =
      { x := (ix : ℝ), y := (iy : ℝ), z := (iz : ℝ) }) ∧
    (∀ j, 1 ≤ j →
      (diffNorm Real.sqrt (roundAverage raw s.nsamples pos) j < thr ↔
        roundAverage raw s.nsamples pos (j - 1) = roundAverage raw s.nsamples pos j)) ∧
    (∀ j, firstConverged Real.sqrt thr (roundAverage raw s.nsamples pos) = some j ↔
      (1 ≤ j ∧ j ≤ 10 ∧
        roundAverage raw s.nsamples pos (j - 1) = roundAverage raw s.nsamples pos j ∧
        ∀ m, 1 ≤ m → m < j →
          roundAverage raw s.nsamples pos (m - 1) ≠ roundAverage raw s.nsamples pos m)) ∧
    (∀ j, firstConverged Real.sqrt thr (roundAverage raw s.nsamples pos) = some j →
      ∃ s' : FreeIMU ℝ,
        initGyros board avr Real.sqrt thr raw best0 fuel s pos =
          some (s', pos + (j + 1) * s.nsamples.toNat) ∧
        (s'.gyro_off_x : ℝ) = (roundAverage raw s.nsamples pos j).x ∧
        (s'.gyro_off_y : ℝ) = (roundAverage raw s.nsamples pos j).y ∧
        (s'.gyro_off_z : ℝ) = (roundAverage raw s.nsamples pos j).z ∧
        roundAverage raw s.nsamples pos (j - 1) = roundAverage raw s.nsamples pos j) := by
  have hiff : ∀ j, 1 ≤ j →
      (diffNorm Real.sqrt (roundAverage raw s.nsamples pos) j < thr ↔
        roundAverage raw s.nsamples pos (j - 1) = roundAverage raw s.nsamples pos j) := by
    intro j hj
    obtain ⟨k, rfl⟩ : ∃ k, j = k + 1 := ⟨j - 1, by omega⟩
    rw [diffNorm_lt_iff_eq thr hthr0 hthr1, Nat.add_sub_cancel]
  have hfc : ∀ j, firstConverged Real.sqrt thr (roundAverage raw s.nsamples pos) = some j ↔
      (1 ≤ j ∧ j ≤ 10 ∧
        roundAverage raw s.nsamples pos (j - 1) = roundAverage raw s.nsamples pos j ∧
        ∀ m, 1 ≤ m → m < j →
          roundAverage raw s.nsamples pos (m - 1) ≠ roundAverage raw s.nsamples pos m) := by
    intro j
    rw [firstConverged_eq_some]
    constructor
    · rintro ⟨h1, h2, h3, h4⟩
      exact ⟨h1, h2, (hiff j h1).mp h3, fun m hm1 hm2 h => h4 m hm1 hm2 ((hiff m hm1).mpr h)⟩
    · rintro ⟨h1, h2, h3, h4⟩
      exact ⟨h1, h2, (hiff j h1).mpr h3, fun m hm1 hm2 h => h4 m hm1 hm2 ((hiff m hm1).mp h)⟩
  refine ⟨fun j => roundAverage_integer raw s.nsamples pos j, hiff, hfc, ?_⟩
  intro j hj
  obtain ⟨h1, -, heq, -⟩ := (hfc j).mp hj
  obtain ⟨s', hs', hx, hy, hz⟩ :=
    initGyros_eq_spec board avr Real.sqrt thr raw best0 fuel hfuel s pos
  obtain ⟨k, rfl⟩ : ∃ k, j = k + 1 := ⟨j - 1, by omega⟩
  have hb : specBias Real.sqrt thr (roundAverage raw s.nsamples pos) =
      roundAverage raw s.nsamples pos (k + 1) := by
    simp only [specBias, hj, lastAverage]
    rw [Nat.add_sub_cancel] at heq
    rw [heq, blend_self]
  have hr : specRounds Real.sqrt thr (roundAverage raw s.nsamples pos) = k + 1 + 1 := by
    simp only [specRounds, hj]
  rw [hr] at hs'
  rw [hb] at hx hy hz
  obtain ⟨ix, iy, iz, hi⟩ := roundAverage_integer raw s.nsamples pos (k + 1)
  refine ⟨s', hs', ?_, ?_, ?_, heq⟩
  · rw [hx, hi, floatToInt16_intCast]
  · rw [hy, hi, floatToInt16_intCast]
  · rw [hz, hi, floatToInt16_intCast]

/-- C25, instance: the threshold `ToRad(0.1)`, the DFROBOT board and the stream whose windows
average to `(0, 0, 0)` every time: round 1 is below the threshold because the averages of
rounds 0 and 1 are equal. -/
theorem C25_integer_averages_convergence_witness :
    ((0 : ℝ) < ToRad 0.1 ∧ ToRad (0.1 : ℝ) ≤ 1 ∧ 11 ≤ 11) ∧
    (diffNorm Real.sqrt
        (roundAverage (alternatingStream : Nat → RawSample ℝ)
          (FreeIMU.new Board.DFROBOT none (blankMemory : FreeIMU ℝ)).nsamples 0) 1 < ToRad 0.1 ↔
      roundAverage (alternatingStream : Nat → RawSample ℝ)
          (FreeIMU.new Board.DFROBOT none (blankMemory : FreeIMU ℝ)).nsamples 0 (1 - 1) =
        roundAverage (alternatingStream : Nat → RawSample ℝ)
          (FreeIMU.new Board.DFROBOT none (blankMemory : FreeIMU ℝ)).nsamples 0 1) :=
  ⟨⟨ToRad_tenth_bounds.1, ToRad_tenth_bounds.2.le, le_refl 11⟩,
   (C25_integer_averages_convergence Board.DFROBOT true (ToRad 0.1) ToRad_tenth_bounds.1
      ToRad_tenth_bounds.2.le alternatingStream { x := 0, y := 0, z := 0 } 11 (le_refl 11)
      (FreeIMU.new Board.DFROBOT none blankMemory) 0).2.1 1 (le_refl 1)⟩
